import Mathlib

/-!
# Admin RPC client (`client/AdminClient.c`) and ethernet framing
(`interface/ETHInterface_darwin.c`): a shallow embedding

Bytes are natural numbers (a C `uint8_t` is a `Nat` below 256), byte strings are
`List Nat`.  Stateful code is written in state-passing style over `Context`; a
failed `Err_assert` / `Assert_true` (process abort) is the `none` of `Option`.

The parts of the repository that `AdminClient.c` calls but that are not among the
source files at hand (the handle map of `util/Map.h`, the hex codec, the bencode
writer, the allocator tree) are modelled from the specification and marked so.
SHA-256, the bencode reader and `AdminClient_MAX_MESSAGE_SIZE` are parameters,
collected in `Deps`; the functions of `util/platform/Sockaddr.h` are parameters
as well, collected in `SockaddrDeps` (for `AdminClient_new`) and `EthDeps` (for
the ethernet interface).
-/

namespace Cjdns

/-! ## Byte strings and the C library -/

/-- The bytes of an ASCII literal. -/
def cstr (s : String) : List Nat := s.toList.map Char.toNat

/-- C `isspace` in the "C" locale: space, and `\t \n \v \f \r`. -/
def isspace (c : Nat) : Bool := c == 32 || (9 ≤ c && c ≤ 13)

/-- C `isdigit`. -/
def isdigit (c : Nat) : Bool := 48 ≤ c && c ≤ 57

/-- The value of the longest run of decimal digits at the head of `s`, given
the value `acc` of the digits read so far. Any other byte (the terminating NUL
of a C string included) ends the run. -/
def strtoll_digits (acc : Nat) : List Nat → Nat
  | [] => acc
  | c :: t => if isdigit c then strtoll_digits (acc * 10 + (c - 48)) t else acc

/-- C `strtoll(s, NULL, 10)`: skip leading white space, take an optional sign,
read decimal digits, and saturate at `LLONG_MIN` / `LLONG_MAX`. -/
def strtoll (s : List Nat) : Int :=
  match s.dropWhile isspace with
  | 45 :: t => max (-(strtoll_digits 0 t : Int)) (-(2 ^ 63 : Int))
  | 43 :: t => min (strtoll_digits 0 t : Int) (2 ^ 63 - 1)
  | t => min (strtoll_digits 0 t : Int) (2 ^ 63 - 1)

/-- The characters that `printf("%u", n)` prints. -/
def ascii_decimal (n : Nat) : List Nat := (Nat.toDigits 10 n).map Char.toNat

/-- The bytes a C string pointer denotes: everything before the first NUL. -/
def cstring (bytes : List Nat) : List Nat := bytes.takeWhile (fun b => b != 0)

/-- The characters that `snprintf(buf, size, "%s%u", s, n)` leaves in `buf`
before the terminating NUL: at most `size - 1` of them. -/
def snprintf_su (size : Nat) (s : List Nat) (n : Nat) : List Nat :=
  (cstring s ++ ascii_decimal n).take (size - 1)

/-! ## Hex codec (`util/Hex.h`) -/

/-- The table `"0123456789abcdef"`. -/
def hexEntities : List Nat := cstr "0123456789abcdef"

/-- The two lowercase hex characters of one byte, high nibble first. -/
def hexByte (b : Nat) : List Nat :=
  [hexEntities.getD (b / 16) 0, hexEntities.getD (b % 16) 0]

/-- Modelled from the spec: `Hex_encode` of `util/Hex.c`, which is not among the
source files ("fixed-width binary to lowercase hex"). `none` is `Hex_TOO_BIG`
(the output buffer holds fewer than two characters per input byte); otherwise
the characters written, whose number is the value returned. -/
def Hex_encode (outputLength : Nat) (input : List Nat) : Option (List Nat) :=
  if outputLength < input.length * 2 then none
  else some (input.flatMap hexByte)

/-- The value of one lowercase hex character. -/
def hexValue (c : Nat) : Option Nat :=
  if 48 ≤ c ∧ c ≤ 57 then some (c - 48)
  else if 97 ≤ c ∧ c ≤ 102 then some (c - 87)
  else none

/-- The bytes decoded from a run of hex character pairs, stopping at the first
pair that is not hex; the flag tells whether the whole input was consumed. -/
def hexDecodePairs : List Nat → List Nat × Bool
  | a :: b :: t =>
    match hexValue a, hexValue b with
    | some x, some y =>
      let r := hexDecodePairs t
      ((x * 16 + y) :: r.1, r.2)
    | _, _ => ([], false)
  | [] => ([], true)
  | [_] => ([], false)

/-- Modelled from the spec: `Hex_decode` of `util/Hex.c`, which is not among the
source files. `output` is the buffer before the call; the result is the return
value (`none` for an error code) and the buffer afterwards: bytes are stored as
they are decoded, the rest of the buffer keeps its content. -/
def Hex_decode (output : List Nat) (input : List Nat) : Option Nat × List Nat :=
  if output.length < input.length / 2 then (none, output)
  else if input.length % 2 ≠ 0 then (none, output)
  else
    let r := hexDecodePairs input
    (if r.2 then some (input.length / 2) else none, r.1 ++ output.drop r.1.length)

/-- The four bytes of a `uint32_t` in host order (little-endian, the order of
the hardware the daemon runs on). -/
def uint32_bytes (h : Nat) : List Nat :=
  [h % 256, h / 256 % 256, h / 65536 % 256, h / 16777216 % 256]

/-- The `uint32_t` that four host-order bytes denote. -/
def uint32_of_bytes (b : List Nat) : Nat :=
  b.getD 0 0 + 256 * b.getD 1 0 + 65536 * b.getD 2 0 + 16777216 * b.getD 3 0

/-! ## Bencode values (`benc/Object.h`) and the writer -/

mutual
/-- A bencode value: `Object` of `benc/Object.h`. -/
inductive Object where
  | int (i : Int)
  | string (s : List Nat)
  | list (l : ObjList)
  | dict (d : Dict)
/-- A bencode list, linked as in C (`struct List_Item`). -/
inductive ObjList where
  | nil
  | cons (elem : Object) (next : ObjList)
/-- A bencode dictionary, linked as in C (`struct Dict_Entry`). -/
inductive Dict where
  | nil
  | cons (key : List Nat) (val : Object) (next : Dict)
end

deriving instance DecidableEq for Object, ObjList, Dict

/-- Modelled from the spec: `String_compare(a, b) < 0` of `benc/String.c`, which is
not among the source files: the byte-lexicographic order ("keys in ascending
byte-lex order"). -/
def String_lt : List Nat → List Nat → Bool
  | [], [] => false
  | [], _ :: _ => true
  | _ :: _, [] => false
  | a :: s, b :: t => a < b || (a == b && String_lt s t)

/-- Modelled from the spec: `Dict_putObject` of `benc/Dict.c`, which is not
among the source files ("keys are stored sorted lexicographically"): the entry
is put before the first greater key, and the value of an equal key is replaced. -/
def Dict_putObject : Dict → List Nat → Object → Dict
  | .nil, key, value => .cons key value .nil
  | .cons k v next, key, value =>
    if String_lt key k then .cons key value (.cons k v next)
    else if key = k then .cons k value next
    else .cons k v (Dict_putObject next key value)

/-- Modelled from the spec: `Dict_putString` (and `Dict_putStringC`) of
`benc/Dict.c`: a string value put with `Dict_putObject`. -/
def Dict_putString (d : Dict) (key : List Nat) (value : List Nat) : Dict :=
  Dict_putObject d key (.string value)

/-- Modelled from the spec: `Dict_getStringC` of `benc/Dict.c`: the value under
the first entry with that key when it is a string, `none` (NULL) otherwise. -/
def Dict_getStringC : Dict → List Nat → Option (List Nat)
  | .nil, _ => none
  | .cons k v next, key =>
    if k = key then (match v with | .string s => some s | _ => none)
    else Dict_getStringC next key

/-- Modelled from the spec: `Cloner_cloneDict` of `benc/serialization/cloner`,
which is not among the source files: every entry is put into a new dictionary. -/
def Cloner_cloneDict : Dict → Dict → Dict
  | .nil, out => out
  | .cons k v next, out => Cloner_cloneDict next (Dict_putObject out k v)

/-- The ASCII decimal of an integer, with a leading `-` when negative. -/
def int_decimal (i : Int) : List Nat :=
  if i < 0 then 45 :: ascii_decimal i.natAbs else ascii_decimal i.natAbs

mutual
/-- Modelled from the spec: the wire format of section 4.1 (integers
`i<decimal>e`, strings `<len>:<bytes>`, lists `l...e`, dictionaries `d...e` with
the entries in the order they are stored). -/
def encodeObject : Object → List Nat
  | .int i => 105 :: (int_decimal i ++ [101])
  | .string s => ascii_decimal s.length ++ 58 :: s
  | .list l => 108 :: (encodeList l ++ [101])
  | .dict d => 100 :: (encodeEntries d ++ [101])
/-- The elements of a list, one after the other. -/
def encodeList : ObjList → List Nat
  | .nil => []
  | .cons o next => encodeObject o ++ encodeList next
/-- The entries of a dictionary, key then value, one after the other. -/
def encodeEntries : Dict → List Nat
  | .nil => []
  | .cons k v next => (ascii_decimal k.length ++ 58 :: k) ++ encodeObject v ++ encodeEntries next
end

/-- The encoding of a top-level dictionary. -/
def encodeDict (d : Dict) : List Nat := 100 :: (encodeEntries d ++ [101])

/-- Modelled from the spec: `BencMessageWriter_write` into `Message_new(0, capacity)`
(the writer is not among the source files): the encoded dictionary, or `none`
when it does not fit the buffer (the error that `Err_assert` turns into an abort). -/
def BencMessageWriter_write (d : Dict) (capacity : Nat) : Option (List Nat) :=
  if (encodeDict d).length ≤ capacity then some (encodeDict d) else none

/-! ## Parameters -/

/-- What the client takes from outside `AdminClient.c`. -/
structure Deps where
  /-- `Rffi_crypto_hash_sha256`, as a function from the message to the digest. -/
  sha256 : List Nat → List Nat
  /-- The digest fills the 32 bytes of `uint8_t hash[32]`. -/
  sha256_length : ∀ m, (sha256 m).length = 32
  /-- The constant of `client/AdminClient.h`. -/
  AdminClient_MAX_MESSAGE_SIZE : Nat
  /-- `BencMessageReader_readNoExcept` on the bytes of the message: an error
  text, or the dictionary read and the number of bytes popped off the message. -/
  BencMessageReader_readNoExcept : List Nat → Except String (Dict × Nat)

/-! ## `calculateAuth` -/

/-- The `uint32_t cookie` of `calculateAuth`: `strtoll` of the cookie string,
converted to 32 bits. -/
def cookieNumber (cookieStr : List Nat) : Nat := (strtoll cookieStr % (2 ^ 32 : Int)).toNat

/-- The content of `passAndCookie` after the `snprintf`, which is what the first
SHA-256 is taken of (`CString_strlen` bytes of the buffer). -/
def passAndCookie (password cookieStr : List Nat) : List Nat :=
  snprintf_su 64 password (cookieNumber cookieStr)

/-- The content of `hashHex` after `Hex_encode(hashHex->bytes, 64, hash, 32)`; the
string is created as 64 zero bytes by `String_newBinary(NULL, 64, alloc)`. -/
def hexHash (hash : List Nat) : List Nat :=
  (Hex_encode 64 hash).getD (List.replicate 64 0)

/-- The first value of `hashHex`: the hex of the hash of password and cookie. -/
def firstPassHash (D : Deps) (password cookieStr : List Nat) : List Nat :=
  hexHash (D.sha256 (passAndCookie password cookieStr))

/-- The dictionary as `calculateAuth` serializes it the first time: with the
first-pass hash under `hash` and the cookie under `cookie`. -/
def firstPassDict (D : Deps) (message : Dict) (password cookieStr : List Nat) : Dict :=
  Dict_putString (Dict_putString message (cstr "hash") (firstPassHash D password cookieStr))
    (cstr "cookie") cookieStr

/-- The function `calculateAuth`: the message dictionary on return, `none` when the
`Err_assert` on the first serialization fails. The second `Hex_encode` writes
into the bytes of the string object that the dictionary holds under `hash`,
so the dictionary then carries the new value there. -/
def calculateAuth (D : Deps) (message : Dict) (password cookieStr : List Nat) : Option Dict :=
  let message := firstPassDict D message password cookieStr
  match BencMessageWriter_write message D.AdminClient_MAX_MESSAGE_SIZE with
  | none => none
  | some msg =>
    let hash := D.sha256 msg
    some (Dict_putString message (cstr "hash") (hexHash hash))

/-! ## Messages (`wire/Message.h`) -/

/-- A message buffer: the bytes of the message, and the bytes of the buffer in
front of them (headroom; what was popped off the message lies there). -/
structure Message where
  padding : List Nat
  bytes : List Nat
deriving DecidableEq

/-- Modelled from the spec: `Message_epop(msg, out, n)`: takes the first `n`
bytes off the message; an error when the message is shorter. -/
def Message_epop (msg : Message) (n : Nat) : Option (List Nat × Message) :=
  if msg.bytes.length < n then none
  else some (msg.bytes.take n, ⟨msg.padding ++ msg.bytes.take n, msg.bytes.drop n⟩)

/-- Modelled from the spec: `Message_eshift(msg, n)` for `n ≥ 0`: moves the start
of the message `n` bytes towards the front of the buffer; an error when there
is less headroom. -/
def Message_eshift (msg : Message) (n : Nat) : Option Message :=
  if msg.padding.length < n then none
  else some ⟨msg.padding.take (msg.padding.length - n),
             msg.padding.drop (msg.padding.length - n) ++ msg.bytes⟩

/-! ## The client state -/

/-- The error codes, `enum AdminClient_Error` of `client/AdminClient.h`, as
`AdminClient_errorString` lists them. -/
inductive AdminClient_Error where
  | NONE
  | OVERLONG_RESPONSE
  | ERROR_READING_FROM_SOCKET
  | SOCKET_NOT_READY
  | DESERIALIZATION_FAILED
  | SERIALIZATION_FAILED
  | TIMEOUT
  | NO_COOKIE
  | INTERNAL
deriving DecidableEq, Repr

/-- The record `struct AdminClient_Result`. -/
structure AdminClient_Result where
  err : AdminClient_Error
  responseDict : Option Dict
  messageBytes : List Nat
deriving DecidableEq

/-- The two functions a `struct Request` can hold in `callback`. -/
inductive RespHandler where
  | requestCallback
  | cookieCallback
deriving DecidableEq, Repr

/-- The record `struct Request`. The allocators `alloc` and `timeoutAlloc` are kept as
the flag telling whether they have been freed; the timer registered in
`timeoutAlloc` is pending as long as that allocator is not freed. -/
structure Request where
  res : AdminClient_Result
  promise : Nat
  callback : Option RespHandler
  allocFreed : Bool
  timeoutAllocFreed : Bool
  requestMessage : Option Dict
  handle : Nat
deriving DecidableEq

/-- The record `struct AdminClient_Promise`: whether the caller has set `callback`, and
whether `alloc` has been freed. -/
structure AdminClient_Promise where
  callback : Bool
  allocFreed : Bool
deriving DecidableEq

/-- Modelled from the spec: the handle map generated by `util/Map.h` (not among
the source files) with `Map_ENABLE_HANDLES` and without keys: the entries
`(handles[i], values[i])` in array order, and the counter the next handle is
taken from. Values are `struct Request*`, here the index of the record. -/
structure Map_OfRequestByHandle where
  entries : List (Nat × Nat)
  nextHandle : Nat
deriving DecidableEq

/-- Modelled from the spec: `Map_OfRequestByHandle_indexForHandle`: the index of
the entry with that handle, `none` for `-1`. -/
def Map_OfRequestByHandle_indexForHandle (handle : Nat) (map : Map_OfRequestByHandle) :
    Option Nat :=
  if map.entries.findIdx (fun e => e.1 == handle) < map.entries.length
  then some (map.entries.findIdx (fun e => e.1 == handle)) else none

/-- Modelled from the spec: `Map_OfRequestByHandle_remove`: the entries behind
`index` move down by one. -/
def Map_OfRequestByHandle_remove (index : Nat) (map : Map_OfRequestByHandle) :
    Map_OfRequestByHandle :=
  { map with entries := map.entries.eraseIdx index }

/-- Modelled from the spec: `Map_OfRequestByHandle_put` ("assigns a
previously-unused handle, stores the record"): the value goes to the end of the
arrays under the next handle of the `uint32_t` counter, which is unused as long
as the counter has not wrapped; the result is the index of the new entry and
the map. -/
def Map_OfRequestByHandle_put (value : Nat) (map : Map_OfRequestByHandle) :
    Nat × Map_OfRequestByHandle :=
  (map.entries.length,
   { entries := map.entries ++ [(map.nextHandle, value)],
     nextHandle := (map.nextHandle + 1) % 2 ^ 32 })

/-- What the client does that the outside can see, in the order it happens. -/
inductive Event where
  /-- `Iface_send(&ctx->addrIface, msg)` with the bytes of `msg`. -/
  | send (frame : List Nat)
  /-- `promise->callback(promise, &req->res)`, with the result passed and the
  handles that the outstanding-request map holds at the moment of the call. -/
  | callback (promise : Nat) (res : AdminClient_Result) (outstanding : List Nat)
deriving DecidableEq

/-- The record `struct Context`, together with the memory it points into: the `Request`
and `AdminClient_Promise` records by address (an index, handed out in order),
and the trace of the events so far. -/
structure Context where
  targetAddr : List Nat
  password : List Nat
  millisecondsToWait : Nat
  outstandingRequests : Map_OfRequestByHandle
  requests : Nat → Request
  requestCount : Nat
  promises : Nat → AdminClient_Promise
  promiseCount : Nat
  trace : List Event

/-- A zeroed `struct Request`. -/
def Request.zero (D : Deps) : Request :=
  { res := ⟨.NONE, none, List.replicate D.AdminClient_MAX_MESSAGE_SIZE 0⟩,
    promise := 0, callback := none, allocFreed := false, timeoutAllocFreed := false,
    requestMessage := none, handle := 0 }

/-- The context that `AdminClient_new` allocates, for the stored target
address and password: no request outstanding, 5000 ms to wait. -/
def Context.new (D : Deps) (targetAddr adminPassword : List Nat) : Context :=
  { targetAddr := targetAddr, password := adminPassword, millisecondsToWait := 5000,
    outstandingRequests := ⟨[], 0⟩,
    requests := fun _ => Request.zero D, requestCount := 0,
    promises := fun _ => ⟨false, false⟩, promiseCount := 0, trace := [] }

/-- The handles in the outstanding-request map. -/
def Context.handles (ctx : Context) : List Nat := ctx.outstandingRequests.entries.map Prod.fst

/-- Store into the request record at address `r`. -/
def Context.setRequest (ctx : Context) (r : Nat) (req : Request) : Context :=
  { ctx with requests := Function.update ctx.requests r req }

/-! ## The allocator tree

Modelled from the spec: `memory/Allocator.h` is not among the source files.
"Scopes are nested (client ⊇ promise ⊇ request ⊇ timeout). A scope's destruction
cascades to its children and runs on-release hooks." Freeing an allocator that
is already freed does nothing. -/

/-- The function `requestOnFree`, the on-free job of `req->timeoutAlloc`. -/
def requestOnFree (r : Nat) (ctx : Context) : Context :=
  match Map_OfRequestByHandle_indexForHandle (ctx.requests r).handle ctx.outstandingRequests with
  | some idx =>
    { ctx with outstandingRequests := Map_OfRequestByHandle_remove idx ctx.outstandingRequests }
  | none => ctx

/-- Modelled from the spec: `Allocator_free(req->timeoutAlloc)`: the timer is
cancelled and the on-free job `requestOnFree` runs. -/
def Allocator_free_timeoutAlloc (r : Nat) (ctx : Context) : Context :=
  if (ctx.requests r).timeoutAllocFreed then ctx
  else requestOnFree r (ctx.setRequest r { ctx.requests r with timeoutAllocFreed := true })

/-- Modelled from the spec: `Allocator_free(req->alloc)`: cascades to the child
`req->timeoutAlloc`. -/
def Allocator_free_alloc (r : Nat) (ctx : Context) : Context :=
  if (ctx.requests r).allocFreed then ctx
  else Allocator_free_timeoutAlloc r (ctx.setRequest r { ctx.requests r with allocFreed := true })

/-- Modelled from the spec: `Allocator_free(promise->alloc)`: cascades to the
allocators of the requests made for this promise (`reqAlloc` is a child of
`promise->alloc`). -/
def Allocator_free_promise (p : Nat) (ctx : Context) : Context :=
  if (ctx.promises p).allocFreed then ctx
  else
    (List.range ctx.requestCount).foldl
      (fun c r => if (c.requests r).promise = p then Allocator_free_alloc r c else c)
      { ctx with promises := Function.update ctx.promises p { ctx.promises p with allocFreed := true } }

/-! ## The functions of `AdminClient.c` -/

/-- The `txid` of a handle: `Hex_encode(id->bytes, 8, (int8_t*) &req->handle, 4)` into
the 8 zero bytes of `String_newBinary(NULL, 8, req->alloc)`. -/
def txidOf (handle : Nat) : List Nat :=
  (Hex_encode 8 (uint32_bytes handle)).getD (List.replicate 8 0)

/-- The function `sendRaw`: the address of the new request and the context afterwards;
`none` when an assertion fails. The dictionary `messageDict` is changed in
place by the C code (`txid`, and in the auth phase `hash` and `cookie`, are
put into it); no caller reads it again, so it is not handed back. -/
def sendRaw (D : Deps) (messageDict : Dict) (promise : Nat) (ctx : Context)
    (cookie : Option (List Nat)) (callback : RespHandler) : Option (Nat × Context) :=
  -- Allocator_child(promise->alloc), Allocator_clone of the zeroed record
  let r := ctx.requestCount
  let req : Request := { Request.zero D with promise := promise }
  -- Map_OfRequestByHandle_put(&req, ...); req->handle = handles[idx]
  let put := Map_OfRequestByHandle_put r ctx.outstandingRequests
  let handle := (put.2.entries.getD put.1 (0, 0)).1
  let req := { req with handle := handle }
  -- Hex_encode(id->bytes, 8, &req->handle, 4); Dict_putStringC(messageDict, "txid", id)
  let id := txidOf handle
  let messageDict := Dict_putString messageDict (cstr "txid") id
  -- if (cookie) Assert_true(!calculateAuth(...))
  let auth : Option Dict :=
    match cookie with
    | some c => calculateAuth D messageDict ctx.password c
    | none => some messageDict
  match auth with
  | none => none
  | some messageDict =>
    -- Message_new(0, AdminClient_MAX_MESSAGE_SIZE + 256, child); Err_assert(write)
    match BencMessageWriter_write messageDict (D.AdminClient_MAX_MESSAGE_SIZE + 256) with
    | none => none
    | some msg =>
      -- timeoutAlloc, Timeout_setTimeout, Allocator_onFree; req->callback = callback
      let req := { req with callback := some callback }
      -- Err_assert(Message_epush(msg, ctx->targetAddr, addrLen)): needs the headroom
      if D.AdminClient_MAX_MESSAGE_SIZE + 256 < msg.length + ctx.targetAddr.length then none
      else
        some (r,
          { ctx with
            outstandingRequests := put.2
            requests := Function.update ctx.requests r req
            requestCount := ctx.requestCount + 1
            trace := ctx.trace ++ [Event.send (ctx.targetAddr ++ msg)] })

/-- The function `requestCallback`: the promise callback is called when it is set, then the
allocator of the promise is freed. -/
def requestCallback (r : Nat) (ctx : Context) : Context :=
  let req := ctx.requests r
  let ctx :=
    if (ctx.promises req.promise).callback
    then { ctx with trace := ctx.trace ++ [Event.callback req.promise req.res ctx.handles] }
    else ctx
  Allocator_free_promise req.promise ctx

/-- The function `cookieCallback`; `none` when an assertion in `sendRaw` fails, or when one
of the pointers the C code dereferences is NULL. -/
def cookieCallback (D : Deps) (r : Nat) (ctx : Context) : Option Context :=
  let req := ctx.requests r
  if req.res.err ≠ .NONE then some (requestCallback r ctx)
  else
    match req.res.responseDict with
    | none => none
    | some d =>
      match Dict_getStringC d (cstr "cookie") with
      | none =>
        some (requestCallback r
          (ctx.setRequest r { req with res := { req.res with err := .NO_COOKIE } }))
      | some cookie =>
        match req.requestMessage with
        | none => none
        | some message =>
          match sendRaw D message req.promise ctx (some cookie) .requestCallback with
          | none => none
          | some (_, ctx) => some (Allocator_free_alloc r ctx)

/-- The function `done`: store the error, run the callback of the request, free the
allocator of the timeout. -/
def done (D : Deps) (r : Nat) (err : AdminClient_Error) (ctx : Context) : Option Context :=
  let req := ctx.requests r
  let ctx := ctx.setRequest r { req with res := { req.res with err := err } }
  let after : Option Context :=
    match req.callback with
    | some .requestCallback => some (requestCallback r ctx)
    | some .cookieCallback => cookieCallback D r ctx
    | none => none
  match after with
  | none => none
  | some ctx => some (Allocator_free_timeoutAlloc r ctx)

/-- The function `timeout`, the function the timer of a request calls. -/
def timeout (D : Deps) (r : Nat) (ctx : Context) : Option Context :=
  done D r .TIMEOUT ctx

/-- The content of `req->res.messageBytes` after the `memset` and `memcpy` at
the end of `receiveMessage`. -/
def copyMessageBytes (D : Deps) (bytes : List Nat) : List Nat :=
  let len :=
    if bytes.length > D.AdminClient_MAX_MESSAGE_SIZE then D.AdminClient_MAX_MESSAGE_SIZE
    else bytes.length
  bytes.take len ++ List.replicate (D.AdminClient_MAX_MESSAGE_SIZE - len) 0

/-- The function `receiveMessage`: `none` when an assertion fails; otherwise what the
function returns (`some` text for `Error(msg, text)`, `none` for NULL) and the
context afterwards. -/
def receiveMessage (D : Deps) (msg : Message) (ctx : Context) :
    Option (Option String × Context) :=
  match Message_epop msg ctx.targetAddr.length with
  | none => none
  | some (source, msg) =>
    if source ≠ ctx.targetAddr then some (some "INVALID source addr", ctx)
    else
      let origLen := msg.bytes.length
      match D.BencMessageReader_readNoExcept msg.bytes with
      | .error err => some (some ("Error decoding benc: " ++ err), ctx)
      | .ok (d, consumed) =>
        let msg : Message := ⟨msg.padding ++ msg.bytes.take consumed, msg.bytes.drop consumed⟩
        match Message_eshift msg origLen with
        | none => none
        | some msg =>
          match Dict_getStringC d (cstr "txid") with
          | none => some (some "INVALID missing or wrong size txid", ctx)
          | some txid =>
            if txid.length ≠ 8 then some (some "INVALID missing or wrong size txid", ctx)
            else
              -- uint32_t handle = ~0u; Hex_decode((uint8_t*)&handle, 4, txid->bytes, 8)
              let handle := uint32_of_bytes (Hex_decode [255, 255, 255, 255] txid).2
              match Map_OfRequestByHandle_indexForHandle handle ctx.outstandingRequests with
              | none => some (some "INVALID no such handle", ctx)
              | some idx =>
                let r := (ctx.outstandingRequests.entries.getD idx (0, 0)).2
                let req := ctx.requests r
                -- Allocator_adopt(req->promise->alloc, alloc): the dictionary lives on with
                -- the promise; req->res.responseDict = d; memset and memcpy of messageBytes
                let res : AdminClient_Result :=
                  { req.res with responseDict := some d, messageBytes := copyMessageBytes D msg.bytes }
                match done D r .NONE (ctx.setRequest r { req with res := res }) with
                | none => none
                | some ctx => some (none, ctx)

/-- The function `doCall`: the new promise and the context afterwards. -/
def doCall (D : Deps) (message : Dict) (ctx : Context) : Option (Nat × Context) :=
  -- Allocator_calloc of the promise: callback is NULL
  let p := ctx.promiseCount
  let ctx :=
    { ctx with promises := Function.update ctx.promises p ⟨false, false⟩
               promiseCount := ctx.promiseCount + 1 }
  let gc : Dict := .cons (cstr "q") (.string (cstr "cookie")) .nil
  match sendRaw D gc p ctx none .cookieCallback with
  | none => none
  | some (r, ctx) =>
    some (p, ctx.setRequest r
      { ctx.requests r with requestMessage := some (Cloner_cloneDict message .nil) })

/-- The function `AdminClient_rpcCall`; `args` is `none` for a NULL pointer. -/
def AdminClient_rpcCall (D : Deps) (function : List Nat) (args : Option Dict) (ctx : Context) :
    Option (Nat × Context) :=
  let a : Dict := args.getD .nil
  let message : Dict :=
    .cons (cstr "q") (.string (cstr "auth"))
      (.cons (cstr "aq") (.string function)
        (.cons (cstr "args") (.dict a) .nil))
  doCall D message ctx

/-! ## Events on one client -/

/-- What can happen to a client from outside. -/
inductive Input where
  /-- The caller runs `AdminClient_rpcCall(function, args, ...)` and, when
  `setCallback`, stores a callback in the promise it gets back. -/
  | rpcCall (function : List Nat) (args : Option Dict) (setCallback : Bool)
  /-- The transport hands a datagram to `receiveMessage`. -/
  | datagram (msg : Message)
  /-- The timer of the request at address `r` expires. -/
  | timerFired (r : Nat)

/-- One event; `none` when the process aborts. A timer fires only while it is
registered, that is as long as `timeoutAlloc` of the request is not freed. -/
def step (D : Deps) (ctx : Context) : Input → Option Context
  | .rpcCall function args setCallback =>
    match AdminClient_rpcCall D function args ctx with
    | none => none
    | some (p, ctx) =>
      some { ctx with promises := Function.update ctx.promises p { ctx.promises p with callback := setCallback } }
  | .datagram msg =>
    match receiveMessage D msg ctx with
    | none => none
    | some (_, ctx) => some ctx
  | .timerFired r =>
    if r < ctx.requestCount ∧ (ctx.requests r).timeoutAllocFreed = false then timeout D r ctx
    else some ctx

/-- A sequence of events, from left to right. -/
def run (D : Deps) (ctx : Context) : List Input → Option Context
  | [] => some ctx
  | i :: rest =>
    match step D ctx i with
    | none => none
    | some ctx => run D ctx rest

/-- How often the callback of promise `p` has been called. -/
def callbackCount (p : Nat) (trace : List Event) : Nat :=
  (trace.filter (fun e => match e with | .callback q _ _ => q == p | _ => false)).length

/-- The frames sent so far. -/
def sentFrames (trace : List Event) : List (List Nat) :=
  trace.filterMap (fun e => match e with | .send f => some f | _ => none)

/-! ## A concrete reader and digest, to run the client on examples -/

/-- The decimal number at the head of the input and the rest of the input. -/
def readDecimal (acc : Nat) : List Nat → Nat × List Nat
  | [] => (acc, [])
  | c :: t => if isdigit c then readDecimal (acc * 10 + (c - 48)) t else (acc, c :: t)

mutual
/-- Modelled from the spec: a reader for the wire format of section 4.1, with
`fuel` bounding the nesting and the number of elements read. -/
def readObject : Nat → List Nat → Option (Object × List Nat)
  | 0, _ => none
  | _ + 1, 105 :: 45 :: t =>
    match readDecimal 0 t with
    | (n, 101 :: rest) => some (.int (-(n : Int)), rest)
    | _ => none
  | _ + 1, 105 :: t =>
    match readDecimal 0 t with
    | (n, 101 :: rest) => some (.int n, rest)
    | _ => none
  | fuel + 1, 108 :: t =>
    match readList fuel t with
    | some (l, rest) => some (.list l, rest)
    | none => none
  | fuel + 1, 100 :: t =>
    match readEntries fuel t with
    | some (d, rest) => some (.dict d, rest)
    | none => none
  | _ + 1, input =>
    match readDecimal 0 input with
    | (n, 58 :: rest) => if rest.length < n then none else some (.string (rest.take n), rest.drop n)
    | _ => none
/-- The elements of a list up to and including the closing `e`. -/
def readList : Nat → List Nat → Option (ObjList × List Nat)
  | 0, _ => none
  | _ + 1, 101 :: rest => some (.nil, rest)
  | fuel + 1, input =>
    match readObject fuel input with
    | none => none
    | some (o, rest) =>
      match readList fuel rest with
      | none => none
      | some (l, rest) => some (.cons o l, rest)
/-- The entries of a dictionary up to and including the closing `e`. -/
def readEntries : Nat → List Nat → Option (Dict × List Nat)
  | 0, _ => none
  | _ + 1, 101 :: rest => some (.nil, rest)
  | fuel + 1, input =>
    match readDecimal 0 input with
    | (n, 58 :: rest) =>
      if rest.length < n then none
      else
        match readObject fuel (rest.drop n) with
        | none => none
        | some (v, rest2) =>
          match readEntries fuel rest2 with
          | none => none
          | some (d, rest3) => some (.cons (rest.take n) v d, rest3)
    | _ => none
end

/-- A reader for `Deps`: reads one dictionary off the front of the message and
reports how many bytes it took. -/
def exampleReader (input : List Nat) : Except String (Dict × Nat) :=
  match input with
  | 100 :: t =>
    match readEntries input.length t with
    | some (d, rest) => .ok (d, input.length - rest.length)
    | none => .error "malformed"
  | _ => .error "not a dictionary"

/-- A stand-in digest of 32 bytes that depends on the length and the sum of the
message, for running examples. -/
def exampleDigest (m : List Nat) : List Nat :=
  (List.range 32).map (fun i => (m.sum + m.length + i) % 256)

/-- Example parameters: frames of at most 1023 bytes. -/
def exampleDeps : Deps :=
  { sha256 := exampleDigest
    sha256_length := fun m => by simp [exampleDigest]
    AdminClient_MAX_MESSAGE_SIZE := 1023
    BencMessageReader_readNoExcept := exampleReader }

/-! ## The specification's formulas, for comparison with the code -/

/-- The spec's words: "the integer parsed from the cookie string (base 10)",
without any bound on its size. -/
def spec_cookie_number (cookieStr : List Nat) : Int :=
  match cookieStr.dropWhile isspace with
  | 45 :: t => -(strtoll_digits 0 t : Int)
  | 43 :: t => (strtoll_digits 0 t : Int)
  | t => (strtoll_digits 0 t : Int)

/-- The spec's words: `hash_hex = hex(sha256(password ++ ascii_decimal(cookie_number)))`. -/
def spec_hash_hex (D : Deps) (password cookieStr : List Nat) : List Nat :=
  hexHash (D.sha256 (password ++ int_decimal (spec_cookie_number cookieStr)))

/-- Dictionaries one after the other. -/
def Dict.append : Dict → Dict → Dict
  | .nil, d => d
  | .cons k v next, d => .cons k v (Dict.append next d)

/-! ## The effect of the functions, in closed form, and the invariant -/

/-- The request at address `r` has an entry in the outstanding-request map
(under its own address as the handle, as the invariant below has it). -/
def Context.live (ctx : Context) (r : Nat) : Prop := (r, r) ∈ ctx.outstandingRequests.entries

/-- The context with the allocators of request `r` freed and its entry taken out
of the map. -/
def Context.dropRequest (ctx : Context) (r : Nat) : Context :=
  { ctx with
    requests := Function.update ctx.requests r
      { ctx.requests r with allocFreed := true, timeoutAllocFreed := true }
    outstandingRequests :=
      { ctx.outstandingRequests with
        entries := ctx.outstandingRequests.entries.filter (fun e => e.2 != r) } }

/-- The context after the promise of request `r` has been fulfilled: the
callback called when set, the allocator of the promise freed, the request gone. -/
def Context.resolve (ctx : Context) (r : Nat) : Context :=
  { ctx with
    trace :=
      if (ctx.promises (ctx.requests r).promise).callback
      then ctx.trace ++ [Event.callback (ctx.requests r).promise (ctx.requests r).res ctx.handles]
      else ctx.trace
    promises := Function.update ctx.promises (ctx.requests r).promise
      { ctx.promises (ctx.requests r).promise with allocFreed := true }
    requests := Function.update ctx.requests r
      { ctx.requests r with allocFreed := true, timeoutAllocFreed := true }
    outstandingRequests :=
      { ctx.outstandingRequests with
        entries := ctx.outstandingRequests.entries.filter (fun e => e.2 != r) } }

/-- The context with a new request for `promise`, sent as `wire`. -/
def Context.addRequest (D : Deps) (ctx : Context) (promise : Nat) (callback : RespHandler)
    (wire : List Nat) : Context :=
  { ctx with
    outstandingRequests :=
      { entries := ctx.outstandingRequests.entries ++
          [(ctx.outstandingRequests.nextHandle, ctx.requestCount)]
        nextHandle := (ctx.outstandingRequests.nextHandle + 1) % 2 ^ 32 }
    requests := Function.update ctx.requests ctx.requestCount
      { Request.zero D with
        promise := promise, handle := ctx.outstandingRequests.nextHandle,
        callback := some callback }
    requestCount := ctx.requestCount + 1
    trace := ctx.trace ++ [Event.send (ctx.targetAddr ++ wire)] }

/-- The invariant of the client state, as long as the 32-bit handle counter has
not wrapped: handles are the addresses of the records; the map holds exactly
the requests whose allocators are not freed; every promise whose allocator is
not freed has exactly one request in the map and has not been called back;
every promise whose allocator is freed has been called back once if it has a
callback. -/
structure Context.WF (ctx : Context) : Prop where
  count_le : ctx.requestCount ≤ 2 ^ 32
  nextHandle_eq : ctx.outstandingRequests.nextHandle = ctx.requestCount % 2 ^ 32
  handle_eq : ∀ r, r < ctx.requestCount → (ctx.requests r).handle = r
  entry_eq : ∀ e ∈ ctx.outstandingRequests.entries, e.1 = e.2 ∧ e.2 < ctx.requestCount
  nodup : (ctx.outstandingRequests.entries.map Prod.snd).Nodup
  dead : ∀ r, r < ctx.requestCount → ¬ ctx.live r →
    (ctx.requests r).allocFreed = true ∧ (ctx.requests r).timeoutAllocFreed = true
  alive : ∀ r, ctx.live r →
    (ctx.requests r).allocFreed = false ∧ (ctx.requests r).timeoutAllocFreed = false ∧
    (ctx.requests r).callback ≠ none ∧
    (ctx.promises (ctx.requests r).promise).allocFreed = false
  promise_lt : ∀ r, r < ctx.requestCount → (ctx.requests r).promise < ctx.promiseCount
  uniq : ∀ r1 r2, ctx.live r1 → ctx.live r2 →
    (ctx.requests r1).promise = (ctx.requests r2).promise → r1 = r2
  pending : ∀ p, p < ctx.promiseCount → (ctx.promises p).allocFreed = false →
    ∃ r, ctx.live r ∧ (ctx.requests r).promise = p
  count_zero : ∀ p, (p < ctx.promiseCount → (ctx.promises p).allocFreed = false) →
    callbackCount p ctx.trace = 0
  count_done : ∀ p, p < ctx.promiseCount → (ctx.promises p).allocFreed = true →
    callbackCount p ctx.trace = if (ctx.promises p).callback then 1 else 0
  cookie_msg : ∀ r, ctx.live r → (ctx.requests r).callback = some .cookieCallback →
    (ctx.requests r).requestMessage ≠ none

/-- What `requestCallback` on request `r` needs for its effect to be
`Context.resolve`: `r` is the one request of its promise whose allocator is
not freed. -/
structure Context.Ready (ctx : Context) (r : Nat) : Prop where
  entry_eq : ∀ e ∈ ctx.outstandingRequests.entries, e.1 = e.2
  nodup : (ctx.outstandingRequests.entries.map Prod.snd).Nodup
  lt : r < ctx.requestCount
  handle_eq : (ctx.requests r).handle = r
  alloc : (ctx.requests r).allocFreed = false
  timeoutAlloc : (ctx.requests r).timeoutAllocFreed = false
  promise : (ctx.promises (ctx.requests r).promise).allocFreed = false
  others : ∀ r', r' < ctx.requestCount → r' ≠ r →
    (ctx.requests r').promise = (ctx.requests r).promise → (ctx.requests r').allocFreed = true

/-- Store a result into the request record at address `r`. -/
def Context.setRes (ctx : Context) (r : Nat) (res : AdminClient_Result) : Context :=
  ctx.setRequest r { ctx.requests r with res := res }

/-- The checks of `receiveMessage` on the datagram `msg` in the state `ctx`, up
to the point where the request is found: when the datagram starts with the
target address, the reader yields a dictionary `d`, moving the start of the
message back succeeds and leaves `bytes` as the content of the message, and
the `txid` of `d` has 8 characters that decode to a handle whose map entry
holds the request `r`, the result is `(r, d, bytes)`. -/
def matchDatagram (D : Deps) (ctx : Context) (msg : Message) : Option (Nat × Dict × List Nat) :=
  match Message_epop msg ctx.targetAddr.length with
  | none => none
  | some (source, msg) =>
    if source ≠ ctx.targetAddr then none
    else
      match D.BencMessageReader_readNoExcept msg.bytes with
      | .error _ => none
      | .ok (d, consumed) =>
        match Message_eshift ⟨msg.padding ++ msg.bytes.take consumed, msg.bytes.drop consumed⟩
            msg.bytes.length with
        | none => none
        | some msg2 =>
          match Dict_getStringC d (cstr "txid") with
          | none => none
          | some txid =>
            if txid.length ≠ 8 then none
            else
              match Map_OfRequestByHandle_indexForHandle
                  (uint32_of_bytes (Hex_decode [255, 255, 255, 255] txid).2)
                  ctx.outstandingRequests with
              | none => none
              | some idx => some ((ctx.outstandingRequests.entries.getD idx (0, 0)).2, d, msg2.bytes)

/-- The context after the cookie response for request `r` has been answered
with the auth frame `wire`: the result stored, the new request made, the old
one gone. -/
def Context.advance (D : Deps) (ctx : Context) (r : Nat) (res : AdminClient_Result)
    (wire : List Nat) : Context :=
  ((ctx.setRes r res).addRequest D (ctx.requests r).promise .requestCallback wire).dropRequest r

/-- The context after `AdminClient_rpcCall` for `message`, the cookie request
sent as `wire`, and the caller's store into `promise->callback`. -/
def Context.call (D : Deps) (ctx : Context) (message : Dict) (setCallback : Bool)
    (wire : List Nat) : Context :=
  { ctx with
    outstandingRequests :=
      { entries := ctx.outstandingRequests.entries ++
          [(ctx.outstandingRequests.nextHandle, ctx.requestCount)]
        nextHandle := (ctx.outstandingRequests.nextHandle + 1) % 2 ^ 32 }
    requests := Function.update ctx.requests ctx.requestCount
      { Request.zero D with
        promise := ctx.promiseCount, handle := ctx.outstandingRequests.nextHandle,
        callback := some .cookieCallback,
        requestMessage := some (Cloner_cloneDict message .nil) }
    requestCount := ctx.requestCount + 1
    promises := Function.update ctx.promises ctx.promiseCount ⟨setCallback, false⟩
    promiseCount := ctx.promiseCount + 1
    trace := ctx.trace ++ [Event.send (ctx.targetAddr ++ wire)] }

/-- The checks of `receiveMessage` that do not look at the requests: when the
datagram starts with the target address, the reader yields a dictionary `d`,
and moving the start of the message back succeeds and leaves `bytes` as the
content of the message, the result is `(d, bytes)`. -/
def decodeDatagram (D : Deps) (targetAddr : List Nat) (msg : Message) : Option (Dict × List Nat) :=
  match Message_epop msg targetAddr.length with
  | none => none
  | some (source, msg) =>
    if source ≠ targetAddr then none
    else
      match D.BencMessageReader_readNoExcept msg.bytes with
      | .error _ => none
      | .ok (d, consumed) =>
        match Message_eshift ⟨msg.padding ++ msg.bytes.take consumed, msg.bytes.drop consumed⟩
            msg.bytes.length with
        | none => none
        | some msg2 => some (d, msg2.bytes)

/-- The handle that `receiveMessage` reads from a `txid` of 8 characters. -/
def handleOfTxid (txid : List Nat) : Nat :=
  uint32_of_bytes (Hex_decode [255, 255, 255, 255] txid).2

/-- The event `i` in the state `ctx` is neither the timer of the request `r` nor
a datagram matched to `r`. -/
def Input.avoids (D : Deps) (ctx : Context) (r : Nat) : Input → Prop
  | .rpcCall _ _ _ => True
  | .datagram msg => ∀ d bytes, matchDatagram D ctx msg ≠ some (r, d, bytes)
  | .timerFired x => x ≠ r

/-- None of the events of a run from `ctx` is the timer of the request `r` or a
datagram matched to `r`. -/
def Avoids (D : Deps) (r : Nat) : Context → List Input → Prop
  | _, [] => True
  | ctx, i :: rest => i.avoids D ctx r ∧ ∀ ctx', step D ctx i = some ctx' → Avoids D r ctx' rest

/-- The promises called back so far, each with the error it was given. -/
def resolutions (trace : List Event) : List (Nat × AdminClient_Error) :=
  trace.filterMap (fun e => match e with | .callback p res _ => some (p, res.err) | _ => none)

/-! ## Example states and datagrams -/

/-- A target address of 8 bytes. -/
def exampleAddr : List Nat := [8, 0, 2, 0, 127, 0, 0, 1]

/-- A new client with the password `pw`. -/
def exampleNew : Context := Context.new exampleDeps exampleAddr (cstr "pw")

/-- A datagram from the example address with the given payload, in a buffer
with 64 bytes of headroom. -/
def exampleDatagram (payload : List Nat) : Message :=
  ⟨List.replicate 64 0, exampleAddr ++ payload⟩

/-- The call `ping` with a callback stored in the promise. -/
def examplePing : Input := .rpcCall (cstr "ping") none true

/-- The cookie response to the request with handle 0. -/
def exampleCookie : Message := exampleDatagram (cstr "d6:cookie2:424:txid8:00000000e")

/-- A response to the request with handle 1. -/
def examplePong : Message := exampleDatagram (cstr "d1:q4:pong4:txid8:01000000e")

/-- A response of 1130 bytes to the request with handle 1. -/
def exampleLong : List Nat :=
  cstr "d1:a1100:" ++ List.replicate 1100 97 ++ cstr "4:txid8:01000000e"

/-- The state after the call `ping`. -/
def exampleCalled : Context := (step exampleDeps exampleNew examplePing).getD exampleNew

/-- The state after the call `ping` and the cookie response. -/
def exampleAuthSent : Context :=
  (step exampleDeps exampleCalled (.datagram exampleCookie)).getD exampleNew

/-- The call `other` with a callback stored in the promise. -/
def exampleOther : Input := .rpcCall (cstr "other") none true

/-- The state after the calls `ping` and `other`. -/
def exampleTwoCalls : Context := (run exampleDeps exampleCalled [exampleOther]).getD exampleNew

/-- The state after the calls `ping` and `other` and the cookie response to `ping`. -/
def exampleTwoCallsAuthSent : Context :=
  (step exampleDeps exampleTwoCalls (.datagram exampleCookie)).getD exampleNew

/-- The state after, in addition, the timer of the cookie request of `other` has fired. -/
def exampleOtherTimedOut : Context :=
  (run exampleDeps exampleTwoCallsAuthSent [.timerFired 1]).getD exampleNew

/-- A response to the request with handle 2. -/
def examplePong2 : Message := exampleDatagram (cstr "d1:q4:pong4:txid8:02000000e")

/-- The dictionary `{"q": "pong", "txid": txid}`. -/
def examplePongDict (txid : List Nat) : Dict :=
  .cons (cstr "q") (.string (cstr "pong")) (.cons (cstr "txid") (.string txid) .nil)

/-- A datagram from another address. -/
def exampleSpurious : Message :=
  ⟨List.replicate 64 0, [8, 0, 2, 0, 10, 0, 0, 9] ++ cstr "d6:cookie2:424:txid8:00000000e"⟩

/-! ## The constructor and the target address -/

/-- Modelled from the spec: what `AdminClient_new` uses of
`util/platform/Sockaddr.h`, which is not among the source files. A
`struct Sockaddr` is its bytes; `Sockaddr_getFamily` yields the address family,
`Sockaddr_getAddress` the offset of the address bytes within the structure and
their number (4 for IPv4, 16 for IPv6, negative for another family). The byte
order of the host is a parameter as well. -/
structure SockaddrDeps where
  Sockaddr_AF_INET : Int
  Sockaddr_getFamily : List Nat → Int
  Sockaddr_getAddress : List Nat → Nat × Int
  bigEndianHost : Bool

/-- Modelled from the spec: `Bits_isZero(buffer, length)` of `util/Bits.h`, on
the bytes `buffer[0 .. length)`: every byte is zero. -/
def Bits_isZero (buffer : List Nat) : Bool := buffer.all (fun b => b == 0)

/-- Modelled from the spec: `Endian_hostToBigEndian32` of `util/Endian.h`: the
value itself on a big-endian host, the value with its four bytes reversed on a
little-endian host. -/
def Endian_hostToBigEndian32 (bigEndianHost : Bool) (x : Nat) : Nat :=
  if bigEndianHost then x % 2 ^ 32
  else (x % 256) * 2 ^ 24 + (x / 2 ^ 8 % 256) * 2 ^ 16 + (x / 2 ^ 16 % 256) * 2 ^ 8
    + x / 2 ^ 24 % 256

/-- The four bytes of a `uint32_t` object in the memory of the host. -/
def uint32_memory (bigEndianHost : Bool) (x : Nat) : List Nat :=
  if bigEndianHost then (uint32_bytes x).reverse else uint32_bytes x

/-- Modelled from the spec: `Bits_memcpy(buffer + off, src, n)` for the `n`
bytes `src`, as the content of `buffer` afterwards. -/
def Bits_memcpy (buffer : List Nat) (off : Nat) (src : List Nat) : List Nat :=
  buffer.take off ++ src ++ buffer.drop (off + src.length)

/-- The bytes that `AdminClient_new` stores in `context->targetAddr`: the clone
of `connectToAddress`, with the address bytes overwritten by the memory of
`Endian_hostToBigEndian32(0x7f000001)` when the family is `Sockaddr_AF_INET`
and all address bytes are zero. `none` when the address bytes do not lie
within the structure. -/
def AdminClient_new_targetAddr (S : SockaddrDeps) (connectToAddress : List Nat) :
    Option (List Nat) :=
  if S.Sockaddr_getFamily connectToAddress = S.Sockaddr_AF_INET then
    let addrBytes := (S.Sockaddr_getAddress connectToAddress).1
    let len := (S.Sockaddr_getAddress connectToAddress).2
    if len < 0 ∨ connectToAddress.length < addrBytes + len.toNat then none
    else if Bits_isZero ((connectToAddress.drop addrBytes).take len.toNat) then
      let loopback := Endian_hostToBigEndian32 S.bigEndianHost 0x7f000001
      if connectToAddress.length < addrBytes + 4 then none
      else some (Bits_memcpy connectToAddress addrBytes (uint32_memory S.bigEndianHost loopback))
    else some connectToAddress
  else some connectToAddress

/-- The function `AdminClient_new`: the context of `Context.new` with the target
address that `AdminClient_new_targetAddr` gives. -/
def AdminClient_new (D : Deps) (S : SockaddrDeps) (connectToAddress adminPassword : List Nat) :
    Option Context :=
  (AdminClient_new_targetAddr S connectToAddress).map
    (fun targetAddr => Context.new D targetAddr adminPassword)

/-- Example parameters: a little-endian host with the family in the two bytes
after the 8-byte header of `struct Sockaddr`, the IPv4 address 4 bytes further
(after the port), the IPv6 address 8 bytes further. -/
def exampleSockaddrDeps : SockaddrDeps :=
  { Sockaddr_AF_INET := 2
    Sockaddr_getFamily := fun sa => (sa.getD 8 0 + 256 * sa.getD 9 0 : Nat)
    Sockaddr_getAddress := fun sa =>
      if sa.getD 8 0 + 256 * sa.getD 9 0 = 2 then (12, 4)
      else if sa.getD 8 0 + 256 * sa.getD 9 0 = 10 then (16, 16)
      else (0, -1)
    bigEndianHost := false }

/-- The IPv4 peer `0.0.0.0:11234`. -/
def exampleAnyAddr : List Nat :=
  [24, 0, 0, 0, 0, 0, 0, 0] ++ [2, 0, 43, 226, 0, 0, 0, 0] ++ List.replicate 8 0

/-- The IPv6 peer `[::]:11234`. -/
def exampleAnyAddr6 : List Nat :=
  [36, 0, 0, 0, 0, 0, 0, 0] ++ [10, 0, 43, 226, 0, 0, 0, 0] ++ List.replicate 20 0

/-! ## The ethernet interface (`interface/ETHInterface_darwin.c`) -/

/-- The constant `PADDING`: the headroom of the message `handleEvent2` makes. -/
def PADDING : Nat := 512

/-- The constant `ethernet_frame_SIZE`. -/
def ethernet_frame_SIZE : Nat := 14

/-- Modelled from the spec: `ETHInterface_Header_SIZE` of
`interface/ETHInterface.h`, which is not among the source files: the header is
the bytes `version`, `zero` and the 16-bit fields `length_be` and `fc00_be`. -/
def ETHInterface_Header_SIZE : Nat := 6

/-- Modelled from the spec: `BPF_WORDALIGN` of `net/bpf.h`: the next multiple
of 4. -/
def BPF_WORDALIGN (x : Nat) : Nat := (x + 3) / 4 * 4

/-- The two bytes in memory of `Endian_hostToBigEndian16(x)`, for `x` converted
to `uint16_t`. -/
def uint16_be (x : Nat) : List Nat := [x / 256 % 256, x % 256]

/-- The value `Endian_bigEndianToHost16` reads from two bytes in memory. -/
def uint16_of_be (b : List Nat) : Nat := b.getD 0 0 * 256 + b.getD 1 0

/-- Modelled from the spec: `Message_epush(msg, data, n)` of `wire/Message.h`:
the bytes `data` are put in front of the message; an error when there is less
headroom. -/
def Message_epush (msg : Message) (data : List Nat) : Option Message :=
  if msg.padding.length < data.length then none
  else some ⟨msg.padding.take (msg.padding.length - data.length), data ++ msg.bytes⟩

/-- Modelled from the spec: `Message_truncate(msg, newLen)` of `wire/Message.h`:
the message keeps its first `newLen` bytes; an error when it is shorter. -/
def Message_truncate (msg : Message) (newLen : Nat) : Option Message :=
  if msg.bytes.length < newLen then none
  else some ⟨msg.padding, msg.bytes.take newLen⟩

/-- Modelled from the spec: what the ethernet interface uses of
`interface/ETHInterface.h`, `wire/Ethernet.h` and `util/platform/Sockaddr.h`,
which are not among the source files: the version constant, the two bytes of
`Ethernet_TYPE_CJDNS` in memory, `Sockaddr_read` (the address taken off the
front of the message, and the message afterwards), the test
`ss.addr.flags & Sockaddr_flags_BCAST`, `Sockaddr_getMac` (`none` when the
address is not of ETH type) and the bytes of the address that
`Sockaddr_initFromEth` makes for a MAC. -/
structure EthDeps where
  ETHInterface_CURRENT_VERSION : Nat
  Ethernet_TYPE_CJDNS : List Nat
  Sockaddr_read : Message → Option (List Nat × Message)
  Sockaddr_flags_BCAST : List Nat → Bool
  Sockaddr_getMac : List Nat → Option (List Nat)
  Sockaddr_initFromEth : List Nat → List Nat

/-- The bytes of `struct ETHInterface_Header` as `sendMessage` fills it in for a
message of `length` bytes. -/
def ETHInterface_Header (E : EthDeps) (length : Nat) : List Nat :=
  [E.ETHInterface_CURRENT_VERSION % 256, 0]
    ++ uint16_be ((length + ETHInterface_Header_SIZE) % 2 ^ 16) ++ uint16_be 0xfc00

/-- The function `sendMessage`: the bytes handed to `write`, or the error that
is returned. -/
def sendMessage (E : EthDeps) (myMac : List Nat) (msg : Message) : Except String (List Nat) :=
  match E.Sockaddr_read msg with
  | none => .error "Sockaddr_read"
  | some (ss, msg) =>
    let hdr := ETHInterface_Header E msg.bytes.length
    match Message_epush msg hdr with
    | none => .error "Message_epush"
    | some msg =>
      let dest : Option (List Nat) :=
        if E.Sockaddr_flags_BCAST ss then some (List.replicate 6 0xff)
        else E.Sockaddr_getMac ss
      match dest with
      | none => .error "Sockaddr on message not ETH type"
      | some dest =>
        let ethFr := dest ++ myMac ++ E.Ethernet_TYPE_CJDNS
        match Message_epush msg ethFr with
        | none => .error "Message_epush"
        | some msg => .ok msg.bytes

/-- What `handleEvent2` does with a frame: drops it with a log line, or sends a
message on. -/
inductive Forwarded where
  | dropped (why : String)
  | sent (msg : Message)
deriving DecidableEq

/-- The function `handleEvent2` for the MAC `src`, the content length `length`
and the buffer from `data` on; `none` when an assertion fails or when the copy
reads beyond the buffer. The buffer of the new message is taken to be aligned
to 4 bytes, so that the start of the message is aligned when the headroom left
is a multiple of 4. -/
def handleEvent2 (E : EthDeps) (src _dst : List Nat) (length : Int) (data : List Nat) :
    Option Forwarded :=
  if length < ETHInterface_Header_SIZE then some (.dropped "runt")
  else
    let contentLength := BPF_WORDALIGN (length - ETHInterface_Header_SIZE).toNat % 2 ^ 32
    if data.length < ETHInterface_Header_SIZE + contentLength then none
    else
      let msg : Message :=
        ⟨List.replicate PADDING 0, (data.drop ETHInterface_Header_SIZE).take contentLength⟩
      let hdr := data.take ETHInterface_Header_SIZE
      if hdr.getD 0 0 ≠ E.ETHInterface_CURRENT_VERSION then some (.dropped "DROP unknown version")
      else
        let reportedLength :=
          (uint16_of_be ((hdr.drop 2).take 2) + 2 ^ 16 - ETHInterface_Header_SIZE) % 2 ^ 16
        let truncated : Option (Option Message) :=
          if msg.bytes.length ≠ reportedLength then
            if msg.bytes.length < reportedLength then some none
            else (Message_truncate msg reportedLength).map some
          else some (some msg)
        match truncated with
        | none => none
        | some none => some (.dropped "DROP size field is larger than frame")
        | some (some msg) =>
          if (hdr.drop 4).take 2 ≠ uint16_be 0xfc00 then some (.dropped "DROP bad magic")
          else
            match Message_epush msg (E.Sockaddr_initFromEth src) with
            | none => none
            | some msg =>
              if msg.padding.length % 4 ≠ 0 then none
              else some (.sent msg)

/-- Example parameters: version 0, the address in front of a message is
announced by its length in two bytes, the low byte first; the flags are the
third byte; an ETH address is 16 bytes with the MAC after the 8-byte header. -/
def exampleEthDeps : EthDeps :=
  { ETHInterface_CURRENT_VERSION := 0
    Ethernet_TYPE_CJDNS := [0xfc, 0x00]
    Sockaddr_read := fun msg =>
      Message_epop msg (msg.bytes.getD 0 0 + 256 * msg.bytes.getD 1 0)
    Sockaddr_flags_BCAST := fun ss => ss.getD 2 0 % 2 == 1
    Sockaddr_getMac := fun ss => if ss.length = 16 then some ((ss.drop 8).take 6) else none
    Sockaddr_initFromEth := fun mac => [16, 0, 0, 0, 0, 0, 0, 0] ++ mac.take 6 ++ [0, 0] }

/-- The ETH address of the MAC 2:0:0:0:0:7. -/
def exampleEthAddr : List Nat := [16, 0, 0, 0, 0, 0, 0, 0, 2, 0, 0, 0, 0, 7, 0, 0]

/-- A message of 5 bytes for `exampleEthAddr`, in a buffer with 32 bytes of
headroom. -/
def exampleEthMessage : Message := ⟨List.replicate 32 0, exampleEthAddr ++ [1, 2, 3, 4, 5]⟩

/-! ## The errors the code stores -/

/-- The error is one of those that `AdminClient.c` stores into a result:
`NONE` (the zeroed record, and `done` from `receiveMessage`), `TIMEOUT` (`done`
from `timeout`) or `NO_COOKIE` (`cookieCallback`). -/
def AdminClient_Error.stored (e : AdminClient_Error) : Prop :=
  e = .NONE ∨ e = .TIMEOUT ∨ e = .NO_COOKIE

/-- Every request record, and every result a callback has been called with so
far, carries one of the stored errors. -/
def Context.ErrorsStored (ctx : Context) : Prop :=
  (∀ r, (ctx.requests r).res.err.stored)
    ∧ ∀ p res hs, Event.callback p res hs ∈ ctx.trace → res.err.stored

/-! ## Theorems -/

/-! ### Dictionaries and the writer -/

/-- Induction along the chain of entries of a dictionary. -/
theorem Dict.chain_induction {P : Dict → Prop} (nil : P .nil)
    (cons : ∀ k v next, P next → P (.cons k v next)) : ∀ d, P d
  | .nil => nil
  | .cons k v next => cons k v next (Dict.chain_induction nil cons next)

theorem Dict_getStringC_putString (m : Dict) (k v : List Nat) :
    Dict_getStringC (Dict_putString m k v) k = some v := by
  unfold Dict_putString
  induction m using Dict.chain_induction with
  | nil => simp [Dict_putObject, Dict_getStringC]
  | cons k1 v1 next ih =>
    simp only [Dict_putObject]
    split
    · simp [Dict_getStringC]
    · split
      · rename_i h; simp [Dict_getStringC, h]
      · rename_i h
        have h1 : ¬ k1 = k := fun e => h e.symm
        simp [Dict_getStringC, h1, ih]

theorem Dict_getStringC_putObject_ne (m : Dict) (k k1 : List Nat) (v : Object) (h : k1 ≠ k) :
    Dict_getStringC (Dict_putObject m k1 v) k = Dict_getStringC m k := by
  induction m using Dict.chain_induction with
  | nil => simp [Dict_putObject, Dict_getStringC, h]
  | cons k2 v2 next ih =>
    simp only [Dict_putObject]
    split
    · simp [Dict_getStringC, h]
    · split
      · rename_i h2
        subst h2
        simp [Dict_getStringC, h]
      · by_cases h3 : k2 = k
        · simp [Dict_getStringC, h3]
        · simp [Dict_getStringC, h3, ih]

theorem encodeEntries_append (a b : Dict) :
    encodeEntries (Dict.append a b) = encodeEntries a ++ encodeEntries b := by
  induction a using Dict.chain_induction with
  | nil => simp [Dict.append, encodeEntries]
  | cons k v next ih => simp [Dict.append, encodeEntries, ih]

/-- Putting a value under a key that a put has just filled replaces the value. -/
theorem Dict_putObject_twice (m : Dict) (k : List Nat) (a b : Object)
    (hirr : String_lt k k = false) :
    Dict_putObject (Dict_putObject m k a) k b = Dict_putObject m k b := by
  induction m using Dict.chain_induction with
  | nil => simp [Dict_putObject, hirr]
  | cons k1 v1 next ih =>
    simp only [Dict_putObject]
    split
    · simp [Dict_putObject, hirr]
    · rename_i h1
      split
      · rename_i h2
        subst h2
        simp [Dict_putObject, hirr]
      · rename_i h2
        simp [Dict_putObject, h1, h2, ih]

/-- With `c` before `h` in the order: where the entry of `h` lies after putting
`h` and then `c` does not depend on the value put under `h`. -/
theorem Dict_put_put_shape (m : Dict) (h c : List Nat) (cv : Object)
    (hch : String_lt c h = true) :
    ∃ before after : Dict, ∀ a : Object,
      Dict_putObject (Dict_putObject m h a) c cv = Dict.append before (.cons h a after) := by
  induction m using Dict.chain_induction with
  | nil =>
    refine ⟨.cons c cv .nil, .nil, fun a => ?_⟩
    simp [Dict_putObject, hch, Dict.append]
  | cons k1 v1 next ih =>
    by_cases h1 : String_lt h k1 = true
    · refine ⟨.cons c cv .nil, .cons k1 v1 next, fun a => ?_⟩
      simp [Dict_putObject, h1, hch, Dict.append]
    · by_cases h2 : h = k1
      · subst h2
        refine ⟨.cons c cv .nil, next, fun a => ?_⟩
        simp [Dict_putObject, h1, hch, Dict.append]
      · by_cases h3 : String_lt c k1 = true
        · obtain ⟨b0, a0, hb⟩ : ∃ b0 a0 : Dict, ∀ a : Object,
              Dict_putObject next h a = Dict.append b0 (.cons h a a0) := by
            clear ih
            induction next using Dict.chain_induction with
            | nil => exact ⟨.nil, .nil, fun a => by simp [Dict_putObject, Dict.append]⟩
            | cons k2 v2 n2 ih2 =>
              by_cases g1 : String_lt h k2 = true
              · exact ⟨.nil, .cons k2 v2 n2, fun a => by simp [Dict_putObject, g1, Dict.append]⟩
              · by_cases g2 : h = k2
                · subst g2
                  exact ⟨.nil, n2, fun a => by simp [Dict_putObject, g1, Dict.append]⟩
                · obtain ⟨b1, a1, hb1⟩ := ih2
                  exact ⟨.cons k2 v2 b1, a1, fun a => by
                    simp [Dict_putObject, g1, g2, Dict.append, hb1]⟩
          refine ⟨.cons c cv (.cons k1 v1 b0), a0, fun a => ?_⟩
          simp [Dict_putObject, h1, h2, h3, Dict.append, hb]
        · by_cases h4 : c = k1
          · subst h4
            obtain ⟨b0, a0, hb⟩ : ∃ b0 a0 : Dict, ∀ a : Object,
                Dict_putObject next h a = Dict.append b0 (.cons h a a0) := by
              clear ih
              induction next using Dict.chain_induction with
              | nil => exact ⟨.nil, .nil, fun a => by simp [Dict_putObject, Dict.append]⟩
              | cons k2 v2 n2 ih2 =>
                by_cases g1 : String_lt h k2 = true
                · exact ⟨.nil, .cons k2 v2 n2, fun a => by simp [Dict_putObject, g1, Dict.append]⟩
                · by_cases g2 : h = k2
                  · subst g2
                    exact ⟨.nil, n2, fun a => by simp [Dict_putObject, g1, Dict.append]⟩
                  · obtain ⟨b1, a1, hb1⟩ := ih2
                    exact ⟨.cons k2 v2 b1, a1, fun a => by
                      simp [Dict_putObject, g1, g2, Dict.append, hb1]⟩
            refine ⟨.cons c cv b0, a0, fun a => ?_⟩
            simp [Dict_putObject, h1, h2, h3, Dict.append, hb]
          · obtain ⟨b0, a0, hb⟩ := ih
            refine ⟨.cons k1 v1 b0, a0, fun a => ?_⟩
            simp [Dict_putObject, h1, h2, h3, h4, Dict.append, hb]

/-- With `c` before `h` in the order: putting `h` again after `h` and `c` were
put is the same as having put the new value in the first place. -/
theorem Dict_put_put_put (m : Dict) (h c : List Nat) (cv a b : Object)
    (hch : String_lt c h = true) (hhc : String_lt h c = false) (hne : h ≠ c)
    (hirr : String_lt h h = false) :
    Dict_putObject (Dict_putObject (Dict_putObject m h a) c cv) h b
      = Dict_putObject (Dict_putObject m h b) c cv := by
  induction m using Dict.chain_induction with
  | nil => simp [Dict_putObject, hch, hhc, hne, hirr]
  | cons k1 v1 next ih =>
    by_cases h1 : String_lt h k1 = true
    · simp [Dict_putObject, h1, hch, hhc, hne, hirr]
    · by_cases h2 : h = k1
      · subst h2
        simp [Dict_putObject, hch, hhc, hne, hirr]
      · by_cases h3 : String_lt c k1 = true
        · simp [Dict_putObject, h1, h2, h3, hhc, hne, Dict_putObject_twice _ _ _ _ hirr]
        · by_cases h4 : c = k1
          · subst h4
            simp [Dict_putObject, h1, h2, h3, Dict_putObject_twice _ _ _ _ hirr]
          · simp [Dict_putObject, h1, h2, h3, h4, ih]

theorem hexByte_length (b : Nat) : (hexByte b).length = 2 := rfl

theorem flatMap_hexByte_length (l : List Nat) : (l.flatMap hexByte).length = 2 * l.length := by
  induction l with
  | nil => rfl
  | cons a t ih => simp [List.flatMap_cons, hexByte_length, ih]; omega

theorem hexHash_length (hash : List Nat) (h : hash.length = 32) : (hexHash hash).length = 64 := by
  unfold hexHash Hex_encode
  rw [if_neg (by omega), Option.getD_some, flatMap_hexByte_length]
  omega

theorem key_hash_cookie :
    String_lt (cstr "cookie") (cstr "hash") = true ∧ String_lt (cstr "hash") (cstr "cookie") = false
      ∧ cstr "hash" ≠ cstr "cookie" ∧ String_lt (cstr "hash") (cstr "hash") = false := by
  decide

/-- The shape of the two serializations in `calculateAuth` and `sendRaw`: the
entries before and after `hash` are the same, whatever the value under `hash`. -/
theorem calculateAuth_shape (message : Dict) (cookieStr : List Nat) :
    ∃ before after : Dict, ∀ hashHex : List Nat,
      encodeDict (Dict_putString (Dict_putString message (cstr "hash") hashHex)
          (cstr "cookie") cookieStr)
        = (100 :: encodeEntries before ++ cstr "4:hash" ++ ascii_decimal hashHex.length ++ [58])
            ++ hashHex ++ (encodeEntries after ++ [101]) := by
  obtain ⟨before, after, hshape⟩ :=
    Dict_put_put_shape message (cstr "hash") (cstr "cookie") (.string cookieStr) key_hash_cookie.1
  refine ⟨before, after, fun hashHex => ?_⟩
  have e := hshape (.string hashHex)
  simp only [Dict_putString, encodeDict, e, encodeEntries_append, encodeEntries, encodeObject]
  have : ascii_decimal (cstr "hash").length ++ 58 :: cstr "hash" = cstr "4:hash" := by decide
  simp only [List.append_assoc, List.cons_append, List.nil_append, List.singleton_append]
  rw [← this]
  simp

theorem exampleDigest_length (m : List Nat) : (exampleDigest m).length = 32 := by
  simp [exampleDigest]

theorem getD_append_length {α : Type} (l : List α) (x d : α) :
    (l ++ [x]).getD l.length d = x := by
  simp [List.getD_eq_getElem?_getD]

/-! ### `calculateAuth`: the first-pass hash (C3) -/

theorem cstring_of_no_nul (s : List Nat) (h : ∀ b ∈ s, b ≠ 0) : cstring s = s := by
  unfold cstring
  rw [List.takeWhile_eq_self_iff]
  intro b hb
  simpa using h b hb

theorem strtoll_eq_spec (s : List Nat) (hlo : 0 ≤ spec_cookie_number s)
    (hhi : spec_cookie_number s < 2 ^ 32) : strtoll s = spec_cookie_number s := by
  unfold strtoll
  unfold spec_cookie_number at hlo hhi ⊢
  split <;> simp_all <;> omega

/-- C3, amended. For every password without a NUL byte and every cookie string
whose decimal number `n` lies in `[0, 2^32)`, with password and the digits of
`n` together at most 63 bytes long, the value that `calculateAuth` puts under
`hash` before the first serialization is the hex of
`sha256(password ++ ascii_decimal(n))`. -/
theorem calculateAuth_first_hash (D : Deps) (message : Dict) (password cookieStr : List Nat)
    (hnul : ∀ b ∈ password, b ≠ 0)
    (hlo : 0 ≤ spec_cookie_number cookieStr) (hhi : spec_cookie_number cookieStr < 2 ^ 32)
    (hlen : password.length + (int_decimal (spec_cookie_number cookieStr)).length ≤ 63) :
    Dict_getStringC (firstPassDict D message password cookieStr) (cstr "hash")
      = some (spec_hash_hex D password cookieStr) := by
  unfold firstPassDict Dict_putString
  rw [Dict_getStringC_putObject_ne _ _ _ _ (by decide)]
  have := Dict_getStringC_putString message (cstr "hash") (firstPassHash D password cookieStr)
  unfold Dict_putString at this
  rw [this]
  congr 1
  unfold firstPassHash spec_hash_hex passAndCookie snprintf_su cookieNumber
  rw [cstring_of_no_nul _ hnul, strtoll_eq_spec _ hlo hhi]
  have hdec : int_decimal (spec_cookie_number cookieStr)
      = ascii_decimal (spec_cookie_number cookieStr % 2 ^ 32).toNat := by
    unfold int_decimal
    rw [if_neg (by omega)]
    congr 1
    omega
  rw [← hdec, List.take_of_length_le (by simp; omega)]

theorem calculateAuth_first_hash_witness :
    Dict_getStringC (firstPassDict exampleDeps .nil (cstr "pw") (cstr "42")) (cstr "hash")
      = some (spec_hash_hex exampleDeps (cstr "pw") (cstr "42")) :=
  calculateAuth_first_hash exampleDeps .nil (cstr "pw") (cstr "42")
    (by decide) (by decide) (by decide) (by decide)

/-- C3 as stated fails: a password of 64 bytes is cut to 63 bytes and the cookie
dropped; the cookie `4294967338` (`2^32 + 42`) is hashed as `42`; the cookie `-1`
is hashed as `4294967295`; a password is cut at its first NUL byte. -/
theorem calculateAuth_first_hash_counterexample :
    passAndCookie (List.replicate 64 97) (cstr "1") = List.replicate 63 97
    ∧ passAndCookie (List.replicate 64 97) (cstr "1")
        ≠ List.replicate 64 97 ++ int_decimal (spec_cookie_number (cstr "1"))
    ∧ passAndCookie (cstr "pw") (cstr "4294967338") = cstr "pw42"
    ∧ passAndCookie (cstr "pw") (cstr "4294967338")
        ≠ cstr "pw" ++ int_decimal (spec_cookie_number (cstr "4294967338"))
    ∧ passAndCookie (cstr "pw") (cstr "-1") = cstr "pw4294967295"
    ∧ passAndCookie [112, 0, 119] (cstr "7") = cstr "p7"
    ∧ Dict_getStringC (firstPassDict exampleDeps .nil (cstr "pw") (cstr "4294967338")) (cstr "hash")
        ≠ some (spec_hash_hex exampleDeps (cstr "pw") (cstr "4294967338")) := by
  decide

/-! ### `calculateAuth` and `sendRaw`: the auth frame on the wire (C4) -/

/-- C4. For every auth-phase `sendRaw` that returns: the frame handed to the
transport is the target address followed by the first-pass serialization (the
dictionary with `txid`, the first-pass hash under `hash`, and `cookie`) in which
exactly the 64 bytes of the value under `hash` are replaced by the hex of the
SHA-256 of that first-pass serialization; the bytes before (`d`, the entries
before `hash`, `4:hash64:`) and after (the entries after `hash`, `e`) are the
same, and so is the length. -/
theorem sendRaw_auth_frame (D : Deps)
    (messageDict : Dict) (promise : Nat) (ctx : Context) (cookie : List Nat)
    (callback : RespHandler) (r : Nat) (ctx' : Context)
    (hsend : sendRaw D messageDict promise ctx (some cookie) callback = some (r, ctx')) :
    ∃ before after : Dict,
      encodeDict (firstPassDict D
          (Dict_putString messageDict (cstr "txid") (txidOf ctx.outstandingRequests.nextHandle))
          ctx.password cookie)
        = (100 :: encodeEntries before ++ cstr "4:hash64:")
            ++ firstPassHash D ctx.password cookie ++ (encodeEntries after ++ [101])
      ∧ ctx'.trace = ctx.trace ++ [Event.send (ctx.targetAddr ++
          ((100 :: encodeEntries before ++ cstr "4:hash64:")
            ++ hexHash (D.sha256 (encodeDict (firstPassDict D
                (Dict_putString messageDict (cstr "txid")
                  (txidOf ctx.outstandingRequests.nextHandle))
                ctx.password cookie)))
            ++ (encodeEntries after ++ [101])))]
      ∧ (firstPassHash D ctx.password cookie).length = 64
      ∧ (hexHash (D.sha256 (encodeDict (firstPassDict D
            (Dict_putString messageDict (cstr "txid")
              (txidOf ctx.outstandingRequests.nextHandle))
            ctx.password cookie)))).length = 64 := by
  obtain ⟨before, after, hshape⟩ := calculateAuth_shape
    (Dict_putString messageDict (cstr "txid") (txidOf ctx.outstandingRequests.nextHandle)) cookie
  have h64 : ∀ x : List Nat, x.length = 64 →
      (100 :: encodeEntries before ++ cstr "4:hash" ++ ascii_decimal x.length ++ [58])
        = (100 :: encodeEntries before ++ cstr "4:hash64:") := by
    intro x hx
    rw [hx]
    have : ascii_decimal 64 = [54, 52] := by decide
    have e2 : cstr "4:hash64:" = cstr "4:hash" ++ [54, 52] ++ [58] := by decide
    rw [this, e2]
    simp
  have hl1 : (firstPassHash D ctx.password cookie).length = 64 :=
    hexHash_length _ (D.sha256_length (passAndCookie ctx.password cookie))
  have hl2 := hexHash_length _ (D.sha256_length (encodeDict (firstPassDict D
            (Dict_putString messageDict (cstr "txid")
              (txidOf ctx.outstandingRequests.nextHandle))
            ctx.password cookie)))
  refine ⟨before, after, ?_, ?_, hl1, hl2⟩
  · unfold firstPassDict
    rw [hshape, h64 _ hl1]
  · unfold sendRaw at hsend
    simp only [Map_OfRequestByHandle_put, getD_append_length] at hsend
    unfold calculateAuth at hsend
    simp only at hsend
    split at hsend
    · exact absurd hsend (by simp)
    · rename_i d hd
      split at hd
      · exact absurd hd (by simp)
      · rename_i msg hmsg
        simp only [Option.some.injEq] at hd
        subst hd
        split at hsend
        · exact absurd hsend (by simp)
        · rename_i wire hwire
          split at hsend
          · exact absurd hsend (by simp)
          · simp only [Option.some.injEq, Prod.mk.injEq] at hsend
            obtain ⟨-, rfl⟩ := hsend
            simp only
            have hm : msg = encodeDict (firstPassDict D
                (Dict_putString messageDict (cstr "txid")
                  (txidOf ctx.outstandingRequests.nextHandle)) ctx.password cookie) := by
              unfold BencMessageWriter_write at hmsg
              split at hmsg
              · simpa using hmsg.symm
              · exact absurd hmsg (by simp)
            have hw : wire = encodeDict (Dict_putString (Dict_putString
                (Dict_putString messageDict (cstr "txid")
                  (txidOf ctx.outstandingRequests.nextHandle))
                (cstr "hash") (hexHash (D.sha256 msg))) (cstr "cookie") cookie) := by
              unfold BencMessageWriter_write at hwire
              split at hwire
              · simp only [Option.some.injEq] at hwire
                rw [← hwire]
                unfold firstPassDict Dict_putString
                rw [Dict_put_put_put _ _ _ _ _ _ key_hash_cookie.1 key_hash_cookie.2.1
                  key_hash_cookie.2.2.1 key_hash_cookie.2.2.2]
              · exact absurd hwire (by simp)
            rw [hw, hshape, hm, h64 _ hl2]

/-! ### The handle map and the allocators -/

theorem eraseIdx_findIdx_eq_filter (l : List (Nat × Nat)) (r : Nat)
    (h1 : ∀ e ∈ l, e.1 = e.2) (h2 : (l.map Prod.snd).Nodup) :
    l.eraseIdx (l.findIdx (fun e => e.1 == r)) = l.filter (fun e => e.2 != r) := by
  induction l with
  | nil => rfl
  | cons e t ih =>
    have he := h1 e (List.mem_cons_self _ _)
    have ht : ∀ e ∈ t, e.1 = e.2 := fun x hx => h1 x (List.mem_cons_of_mem _ hx)
    simp only [List.map_cons, List.nodup_cons] at h2
    rw [List.findIdx_cons]
    by_cases hr : e.1 = r
    · have hr2 : e.2 = r := by rw [← he]; exact hr
      have hp : (e.1 == r) = true := by simp [hr]
      rw [hp, cond_true, List.eraseIdx_cons_zero]
      rw [List.filter_cons_of_neg (by simp [hr2])]
      symm
      rw [List.filter_eq_self]
      intro x hx
      have : x.2 ≠ e.2 := fun hc => h2.1 (by rw [← hc]; exact List.mem_map_of_mem _ hx)
      simpa [hr2] using this
    · have hr2 : e.2 ≠ r := by rw [← he]; exact hr
      have hp : (e.1 == r) = false := by simp [hr]
      rw [hp, cond_false, List.eraseIdx_cons_succ]
      rw [List.filter_cons_of_pos (by simpa using hr2), ih ht h2.2]

theorem requestOnFree_eq (ctx : Context) (r : Nat)
    (h1 : ∀ e ∈ ctx.outstandingRequests.entries, e.1 = e.2)
    (h2 : (ctx.outstandingRequests.entries.map Prod.snd).Nodup)
    (hh : (ctx.requests r).handle = r) :
    requestOnFree r ctx = { ctx with outstandingRequests :=
      { ctx.outstandingRequests with
        entries := ctx.outstandingRequests.entries.filter (fun e => e.2 != r) } } := by
  unfold requestOnFree Map_OfRequestByHandle_indexForHandle Map_OfRequestByHandle_remove
  rw [hh]
  split
  · rename_i idx hidx
    split at hidx
    · simp only [Option.some.injEq] at hidx
      rw [← hidx, eraseIdx_findIdx_eq_filter _ _ h1 h2]
    · exact absurd hidx (by simp)
  · rename_i hidx
    split at hidx
    · exact absurd hidx (by simp)
    · rename_i hlt
      have := eraseIdx_findIdx_eq_filter _ r h1 h2
      rw [List.eraseIdx_of_length_le (by omega)] at this
      rw [← this]

theorem Allocator_free_alloc_eq (ctx : Context) (r : Nat)
    (h1 : ∀ e ∈ ctx.outstandingRequests.entries, e.1 = e.2)
    (h2 : (ctx.outstandingRequests.entries.map Prod.snd).Nodup)
    (hh : (ctx.requests r).handle = r)
    (hf : (ctx.requests r).allocFreed = false) (htf : (ctx.requests r).timeoutAllocFreed = false) :
    Allocator_free_alloc r ctx = ctx.dropRequest r := by
  unfold Allocator_free_alloc Allocator_free_timeoutAlloc
  simp only [hf, Bool.false_eq_true, if_false, Context.setRequest, Function.update_same, htf]
  rw [requestOnFree_eq]
  · simp [Context.dropRequest]
  · exact h1
  · exact h2
  · simpa using hh

theorem Allocator_free_alloc_of_freed (ctx : Context) (r : Nat)
    (hf : (ctx.requests r).allocFreed = true) : Allocator_free_alloc r ctx = ctx := by
  unfold Allocator_free_alloc
  simp [hf]

theorem Allocator_free_timeoutAlloc_of_freed (ctx : Context) (r : Nat)
    (hf : (ctx.requests r).timeoutAllocFreed = true) : Allocator_free_timeoutAlloc r ctx = ctx := by
  unfold Allocator_free_timeoutAlloc
  simp [hf]

theorem free_promise_fold (c0 : Context) (p r : Nat)
    (h1 : ∀ e ∈ c0.outstandingRequests.entries, e.1 = e.2)
    (h2 : (c0.outstandingRequests.entries.map Prod.snd).Nodup)
    (hh : (c0.requests r).handle = r)
    (hf : (c0.requests r).allocFreed = false) (htf : (c0.requests r).timeoutAllocFreed = false)
    (hrp : (c0.requests r).promise = p) (n : Nat)
    (hothers : ∀ r', r' < n → r' ≠ r → (c0.requests r').promise = p →
      (c0.requests r').allocFreed = true) :
    (List.range n).foldl
        (fun c r' => if (c.requests r').promise = p then Allocator_free_alloc r' c else c) c0
      = if r < n then c0.dropRequest r else c0 := by
  induction n with
  | zero => simp
  | succ n ih =>
    rw [List.range_succ, List.foldl_append, ih (fun r' hr' => hothers r' (by omega))]
    simp only [List.foldl_cons, List.foldl_nil]
    rcases Nat.lt_trichotomy r n with hlt | heq | hgt
    · have hne : n ≠ r := by omega
      have e1 : (if r < n then c0.dropRequest r else c0) = c0.dropRequest r := if_pos hlt
      have e2 : (if r < n + 1 then c0.dropRequest r else c0) = c0.dropRequest r :=
        if_pos (by omega)
      rw [e1, e2]
      have hreq : (c0.dropRequest r).requests n = c0.requests n := by
        simp [Context.dropRequest, Function.update_noteq hne]
      split
      · rename_i hp
        rw [hreq] at hp
        exact Allocator_free_alloc_of_freed _ _ (by rw [hreq]; exact hothers n (by omega) hne hp)
      · rfl
    · subst heq
      have e1 : (if r < r then c0.dropRequest r else c0) = c0 := if_neg (by omega)
      have e2 : (if r < r + 1 then c0.dropRequest r else c0) = c0.dropRequest r :=
        if_pos (by omega)
      rw [e1, e2, if_pos hrp]
      exact Allocator_free_alloc_eq c0 r h1 h2 hh hf htf
    · have hne : n ≠ r := by omega
      have e1 : (if r < n then c0.dropRequest r else c0) = c0 := if_neg (by omega)
      have e2 : (if r < n + 1 then c0.dropRequest r else c0) = c0 := if_neg (by omega)
      rw [e1, e2]
      split
      · rename_i hp
        exact Allocator_free_alloc_of_freed _ _ (hothers n (by omega) hne hp)
      · rfl

/-- The function `requestCallback` on the one request of its promise that is in the map. -/
theorem requestCallback_eq (ctx : Context) (r : Nat)
    (h1 : ∀ e ∈ ctx.outstandingRequests.entries, e.1 = e.2)
    (h2 : (ctx.outstandingRequests.entries.map Prod.snd).Nodup)
    (hr : r < ctx.requestCount)
    (hh : (ctx.requests r).handle = r)
    (hf : (ctx.requests r).allocFreed = false) (htf : (ctx.requests r).timeoutAllocFreed = false)
    (hp : (ctx.promises (ctx.requests r).promise).allocFreed = false)
    (hothers : ∀ r', r' < ctx.requestCount → r' ≠ r →
      (ctx.requests r').promise = (ctx.requests r).promise → (ctx.requests r').allocFreed = true) :
    requestCallback r ctx = ctx.resolve r := by
  unfold requestCallback Allocator_free_promise
  by_cases hcb : (ctx.promises (ctx.requests r).promise).callback = true
  · simp only [hcb, if_true, hp, Bool.false_eq_true, if_false]
    refine (free_promise_fold _ (ctx.requests r).promise r ?_ ?_ ?_ ?_ ?_ ?_
      ctx.requestCount ?_).trans ?_
    · exact h1
    · exact h2
    · exact hh
    · exact hf
    · exact htf
    · rfl
    · exact hothers
    · simp [hr, Context.dropRequest, Context.resolve, hcb]
  · simp only [hcb, if_false, hp, Bool.false_eq_true]
    refine (free_promise_fold _ (ctx.requests r).promise r ?_ ?_ ?_ ?_ ?_ ?_
      ctx.requestCount ?_).trans ?_
    · exact h1
    · exact h2
    · exact hh
    · exact hf
    · exact htf
    · rfl
    · exact hothers
    · simp [hr, Context.dropRequest, Context.resolve, hcb]

/-! ### The effect of the functions -/

theorem receiveMessage_of_match (D : Deps) (ctx : Context) (msg : Message) (r : Nat) (d : Dict)
    (bytes : List Nat) (h : matchDatagram D ctx msg = some (r, d, bytes)) :
    receiveMessage D msg ctx
      = (done D r .NONE
          (ctx.setRes r { (ctx.requests r).res with
            responseDict := some d, messageBytes := copyMessageBytes D bytes })).map
        (fun c => (none, c)) := by
  unfold matchDatagram at h
  unfold receiveMessage
  split at h
  · exact absurd h (by simp)
  · rename_i source msg1 hpop
    try rw [hpop]
    try simp only
    split at h
    · exact absurd h (by simp)
    · rename_i hsrc
      rw [if_neg hsrc]
      split at h
      · exact absurd h (by simp)
      · rename_i d1 consumed hread
        try rw [hread]
        try simp only
        split at h
        · exact absurd h (by simp)
        · rename_i msg2 hshift
          try rw [hshift]
          try simp only
          split at h
          · exact absurd h (by simp)
          · rename_i txid htxid
            try rw [htxid]
            try simp only
            split at h
            · exact absurd h (by simp)
            · rename_i hlen
              rw [if_neg hlen]
              split at h
              · exact absurd h (by simp)
              · rename_i idx hidx
                try rw [hidx]
                simp only [Option.some.injEq, Prod.mk.injEq] at h
                obtain ⟨rfl, rfl, rfl⟩ := h
                simp only [Context.setRes]
                cases done D _ AdminClient_Error.NONE _ <;> rfl

theorem matchDatagram_live (D : Deps) (ctx : Context) (msg : Message) (r : Nat) (d : Dict)
    (bytes : List Nat) (hwf : ∀ e ∈ ctx.outstandingRequests.entries, e.1 = e.2)
    (h : matchDatagram D ctx msg = some (r, d, bytes)) : ctx.live r := by
  unfold matchDatagram at h
  split at h
  · exact absurd h (by simp)
  · split at h
    · exact absurd h (by simp)
    · split at h
      · exact absurd h (by simp)
      · split at h
        · exact absurd h (by simp)
        · split at h
          · exact absurd h (by simp)
          · split at h
            · exact absurd h (by simp)
            · split at h
              · exact absurd h (by simp)
              · rename_i idx hidx
                simp only [Option.some.injEq, Prod.mk.injEq] at h
                obtain ⟨rfl, -, -⟩ := h
                unfold Map_OfRequestByHandle_indexForHandle at hidx
                split at hidx
                · rename_i hlt
                  simp only [Option.some.injEq] at hidx
                  subst hidx
                  unfold Context.live
                  rw [List.getD_eq_getElem?_getD, List.getElem?_eq_getElem hlt, Option.getD_some]
                  have hm := List.getElem_mem hlt
                  have he := hwf _ hm
                  have : ∀ e : Nat × Nat, e.1 = e.2 → (e.2, e.2) = e := by
                    rintro ⟨a, b⟩ hab
                    simp at hab
                    simp [hab]
                  rw [this _ he]
                  exact hm
                · exact absurd hidx (by simp)

theorem sendRaw_eq (D : Deps) (messageDict : Dict) (promise : Nat) (ctx : Context)
    (cookie : Option (List Nat)) (callback : RespHandler) (r : Nat) (ctx' : Context)
    (h : sendRaw D messageDict promise ctx cookie callback = some (r, ctx')) :
    r = ctx.requestCount ∧ ∃ wire, ctx' = ctx.addRequest D promise callback wire
      ∧ wire.length ≤ D.AdminClient_MAX_MESSAGE_SIZE + 256
      ∧ (cookie ≠ none → wire.length ≤ D.AdminClient_MAX_MESSAGE_SIZE) := by
  unfold sendRaw at h
  simp only [Map_OfRequestByHandle_put, getD_append_length] at h
  split at h
  · exact absurd h (by simp)
  · rename_i d hd
    split at h
    · exact absurd h (by simp)
    · rename_i wire hwire
      split at h
      · exact absurd h (by simp)
      · rename_i hfit
        simp only [Option.some.injEq, Prod.mk.injEq] at h
        obtain ⟨rfl, rfl⟩ := h
        refine ⟨rfl, wire, rfl, ?_, ?_⟩
        · unfold BencMessageWriter_write at hwire
          split at hwire
          · rename_i hle
            simp only [Option.some.injEq] at hwire
            rw [← hwire]
            exact hle
          · exact absurd hwire (by simp)
        · intro hc
          cases cookie with
          | none => exact absurd rfl hc
          | some c =>
            simp only at hd
            unfold calculateAuth at hd
            simp only at hd
            split at hd
            · exact absurd hd (by simp)
            · rename_i msg hmsg
              simp only [Option.some.injEq] at hd
              have hl1 : (encodeDict (firstPassDict D
                  (Dict_putString messageDict (cstr "txid")
                    (txidOf ctx.outstandingRequests.nextHandle)) ctx.password c)).length
                  ≤ D.AdminClient_MAX_MESSAGE_SIZE := by
                unfold BencMessageWriter_write at hmsg
                split at hmsg
                · assumption
                · exact absurd hmsg (by simp)
              have hd2 : d = Dict_putString (Dict_putString
                  (Dict_putString messageDict (cstr "txid")
                    (txidOf ctx.outstandingRequests.nextHandle))
                  (cstr "hash") (hexHash (D.sha256 msg))) (cstr "cookie") c := by
                rw [← hd]
                unfold firstPassDict Dict_putString
                rw [Dict_put_put_put _ _ _ _ _ _ key_hash_cookie.1 key_hash_cookie.2.1
                  key_hash_cookie.2.2.1 key_hash_cookie.2.2.2]
              have hw : wire = encodeDict d := by
                unfold BencMessageWriter_write at hwire
                split at hwire
                · simpa using hwire.symm
                · exact absurd hwire (by simp)
              obtain ⟨before, after, hshape⟩ := calculateAuth_shape
                (Dict_putString messageDict (cstr "txid")
                  (txidOf ctx.outstandingRequests.nextHandle)) c
              unfold firstPassDict at hl1
              rw [hshape] at hl1
              rw [hw, hd2, hshape]
              have e1 := hexHash_length _ (D.sha256_length msg)
              have e2 : (firstPassHash D ctx.password c).length = 64 :=
                hexHash_length _ (D.sha256_length _)
              simp only [List.length_append, List.length_cons, e1, e2] at hl1 ⊢
              exact hl1

theorem setRes_requests (ctx : Context) (r : Nat) (res : AdminClient_Result) (x : Nat) :
    (ctx.setRes r res).requests x
      = { ctx.requests x with res := if x = r then res else (ctx.requests x).res } := by
  unfold Context.setRes Context.setRequest
  by_cases h : x = r
  · subst h
    simp
  · simp [Function.update_noteq h, h]

theorem Context.WF.ready {ctx : Context} (hwf : ctx.WF) {r : Nat} (hl : ctx.live r) :
    ctx.Ready r where
  entry_eq := fun e he => (hwf.entry_eq e he).1
  nodup := hwf.nodup
  lt := (hwf.entry_eq _ hl).2
  handle_eq := hwf.handle_eq r (hwf.entry_eq _ hl).2
  alloc := (hwf.alive r hl).1
  timeoutAlloc := (hwf.alive r hl).2.1
  promise := (hwf.alive r hl).2.2.2
  others := by
    intro r' hr' hne hp
    by_cases hl' : ctx.live r'
    · exact absurd (hwf.uniq r' r hl' hl hp) hne
    · exact (hwf.dead r' hr' hl').1

theorem Context.Ready.withRes {ctx : Context} {r : Nat} (h : ctx.Ready r) (r' : Nat)
    (res : AdminClient_Result) : (ctx.setRes r' res).Ready r where
  entry_eq := h.entry_eq
  nodup := h.nodup
  lt := h.lt
  handle_eq := by rw [setRes_requests]; exact h.handle_eq
  alloc := by rw [setRes_requests]; exact h.alloc
  timeoutAlloc := by rw [setRes_requests]; exact h.timeoutAlloc
  promise := by rw [setRes_requests]; exact h.promise
  others := by
    intro x hx hne hp
    rw [setRes_requests] at hp ⊢
    rw [setRes_requests] at hp
    exact h.others x hx hne hp

theorem requestCallback_ready {ctx : Context} {r : Nat} (h : ctx.Ready r) :
    requestCallback r ctx = ctx.resolve r :=
  requestCallback_eq ctx r h.entry_eq h.nodup h.lt h.handle_eq h.alloc h.timeoutAlloc h.promise
    h.others

theorem resolve_timeoutAllocFreed (ctx : Context) (r : Nat) :
    ((ctx.resolve r).requests r).timeoutAllocFreed = true := by
  simp [Context.resolve]

theorem setRes_setRes (ctx : Context) (r : Nat) (a b : AdminClient_Result) :
    (ctx.setRes r a).setRes r b = ctx.setRes r b := by
  unfold Context.setRes Context.setRequest
  simp

/-- The function `done` when the callback of the request is `requestCallback`, or is
`cookieCallback` and the error is not `NONE`: the promise is fulfilled with
the result of the request, in which the error is stored. -/
theorem done_resolve (D : Deps) {ctx : Context} {r : Nat} (h : ctx.Ready r)
    (err : AdminClient_Error)
    (hcb : (ctx.requests r).callback = some .requestCallback ∨
      ((ctx.requests r).callback = some .cookieCallback ∧ err ≠ .NONE)) :
    done D r err ctx
      = some ((ctx.setRes r { (ctx.requests r).res with err := err }).resolve r) := by
  have hready := h.withRes r { (ctx.requests r).res with err := err }
  unfold done
  simp only
  have hset : ctx.setRequest r { ctx.requests r with res := { (ctx.requests r).res with err := err } }
      = ctx.setRes r { (ctx.requests r).res with err := err } := rfl
  rw [hset]
  rcases hcb with hcb | ⟨hcb, herr⟩
  · rw [hcb]
    simp only
    rw [requestCallback_ready hready,
      Allocator_free_timeoutAlloc_of_freed _ _ (resolve_timeoutAllocFreed _ _)]
  · rw [hcb]
    simp only
    unfold cookieCallback
    have : ((ctx.setRes r { (ctx.requests r).res with err := err }).requests r).res.err = err := by
      rw [setRes_requests]; simp
    simp only [this, ne_eq, herr, not_false_eq_true, if_true]
    rw [requestCallback_ready hready,
      Allocator_free_timeoutAlloc_of_freed _ _ (resolve_timeoutAllocFreed _ _)]

/-- The function `done` with `NONE` in the cookie phase when the response has no string
`cookie`: the promise is fulfilled with `NO_COOKIE`. -/
theorem done_no_cookie (D : Deps) {ctx : Context} {r : Nat} (h : ctx.Ready r) (d : Dict)
    (hcb : (ctx.requests r).callback = some .cookieCallback)
    (hd : (ctx.requests r).res.responseDict = some d)
    (hc : Dict_getStringC d (cstr "cookie") = none) :
    done D r .NONE ctx
      = some ((ctx.setRes r { (ctx.requests r).res with err := .NO_COOKIE }).resolve r) := by
  unfold done
  simp only
  have hset : ctx.setRequest r { ctx.requests r with res := { (ctx.requests r).res with err := .NONE } }
      = ctx.setRes r { (ctx.requests r).res with err := .NONE } := rfl
  rw [hset, hcb]
  simp only
  unfold cookieCallback
  have q1 : ((ctx.setRes r { (ctx.requests r).res with err := .NONE }).requests r).res.err
      = .NONE := by
    rw [setRes_requests]; simp
  have q2 : ((ctx.setRes r { (ctx.requests r).res with err := .NONE }).requests r).res.responseDict
      = some d := by
    rw [setRes_requests]; simp [hd]
  have hset2 : (ctx.setRes r { (ctx.requests r).res with err := .NONE }).setRequest r
        { (ctx.setRes r { (ctx.requests r).res with err := .NONE }).requests r with
          res := { ((ctx.setRes r { (ctx.requests r).res with err := .NONE }).requests r).res with
            err := .NO_COOKIE } }
      = ctx.setRes r { (ctx.requests r).res with err := .NO_COOKIE } := by
    unfold Context.setRes Context.setRequest
    simp
  rw [if_neg (by rw [q1]; simp), q2]
  simp only [hc]
  rw [hset2, requestCallback_ready (h.withRes r _),
    Allocator_free_timeoutAlloc_of_freed _ _ (resolve_timeoutAllocFreed _ _)]

theorem done_cookie (D : Deps) {ctx : Context} {r : Nat} (hwf : ctx.WF) (hl : ctx.live r)
    (hcount : ctx.requestCount < 2 ^ 32) (d : Dict) (c : List Nat) (m : Dict)
    (hcb : (ctx.requests r).callback = some .cookieCallback)
    (hd : (ctx.requests r).res.responseDict = some d)
    (hc : Dict_getStringC d (cstr "cookie") = some c)
    (hm : (ctx.requests r).requestMessage = some m) :
    done D r .NONE ctx
      = (sendRaw D m (ctx.requests r).promise
          (ctx.setRes r { (ctx.requests r).res with err := .NONE }) (some c) .requestCallback).map
        (fun x => x.2.dropRequest r) := by
  have hr : r < ctx.requestCount := (hwf.entry_eq _ hl).2
  unfold done
  simp only
  have hset : ctx.setRequest r { ctx.requests r with res := { (ctx.requests r).res with err := .NONE } }
      = ctx.setRes r { (ctx.requests r).res with err := .NONE } := rfl
  rw [hset, hcb]
  simp only
  unfold cookieCallback
  have q0 : (ctx.setRes r { (ctx.requests r).res with err := .NONE }).requests r
      = { ctx.requests r with res := { (ctx.requests r).res with err := .NONE } } := by
    rw [setRes_requests]; simp
  rw [q0]
  simp only [ne_eq, not_true_eq_false, if_false, hd, hc, hm]
  cases hs : sendRaw D m (ctx.requests r).promise
      (ctx.setRes r { err := .NONE, responseDict := some d, messageBytes := (ctx.requests r).res.messageBytes }) (some c) .requestCallback with
  | none => simp
  | some x =>
    obtain ⟨r2, ctx2⟩ := x
    obtain ⟨-, wire, rfl, -, -⟩ := sendRaw_eq _ _ _ _ _ _ _ _ hs
    simp only [Option.map_some']
    have hnh : ctx.outstandingRequests.nextHandle = ctx.requestCount := by
      rw [hwf.nextHandle_eq, Nat.mod_eq_of_lt hcount]
    rw [Allocator_free_alloc_eq]
    · rw [Allocator_free_timeoutAlloc_of_freed]
      simp [Context.dropRequest]
    · intro e he
      simp only [Context.addRequest, Context.setRes, Context.setRequest, List.mem_append,
        List.mem_singleton] at he
      rcases he with he | he
      · exact (hwf.entry_eq e he).1
      · rw [he]; exact hnh
    · simp only [Context.addRequest, Context.setRes, Context.setRequest, List.map_append,
        List.map_cons, List.map_nil]
      rw [List.nodup_append]
      refine ⟨hwf.nodup, by simp, ?_⟩
      intro a ha hb
      simp only [List.mem_singleton] at hb
      subst hb
      obtain ⟨e, he, heq⟩ := List.mem_map.mp ha
      have := (hwf.entry_eq e he).2
      omega
    · simp only [Context.addRequest, Context.setRes, Context.setRequest]
      rw [Function.update_noteq (by omega)]
      simp [hwf.handle_eq r hr]
    · simp only [Context.addRequest, Context.setRes, Context.setRequest]
      rw [Function.update_noteq (by omega)]
      simp [(hwf.alive r hl).1]
    · simp only [Context.addRequest, Context.setRes, Context.setRequest]
      rw [Function.update_noteq (by omega)]
      simp [(hwf.alive r hl).2.1]

theorem callbackCount_append (p : Nat) (t : List Event) (e : Event) :
    callbackCount p (t ++ [e])
      = callbackCount p t + (match e with | .callback q _ _ => if q = p then 1 else 0 | _ => 0) := by
  unfold callbackCount
  rw [List.filter_append, List.length_append]
  cases e with
  | send f => simp
  | callback q res hs =>
    by_cases h : q = p
    · simp [h]
    · simp [h]

theorem live_filter (ctx : Context) (r x : Nat) :
    (x, x) ∈ ctx.outstandingRequests.entries.filter (fun e => e.2 != r)
      ↔ ctx.live x ∧ x ≠ r := by
  simp [List.mem_filter, Context.live]

theorem nodup_filter_snd (l : List (Nat × Nat)) (q : Nat × Nat → Bool)
    (h : (l.map Prod.snd).Nodup) : ((l.filter q).map Prod.snd).Nodup :=
  h.sublist ((List.filter_sublist l).map Prod.snd)

/-- The invariant is kept when the promise of a request in the map is fulfilled. -/
theorem Context.WF.resolve {ctx : Context} (hwf : ctx.WF) {r : Nat} (hl : ctx.live r)
    (res : AdminClient_Result) : ((ctx.setRes r res).resolve r).WF := by
  have hr : r < ctx.requestCount := (hwf.entry_eq _ hl).2
  have hreq : ∀ x, ((ctx.setRes r res).resolve r).requests x
      = { ctx.requests x with
          res := if x = r then res else (ctx.requests x).res
          allocFreed := if x = r then true else (ctx.requests x).allocFreed
          timeoutAllocFreed := if x = r then true else (ctx.requests x).timeoutAllocFreed } := by
    intro x
    by_cases h : x = r
    · subst h
      simp [Context.resolve, setRes_requests]
    · simp [Context.resolve, setRes_requests, Function.update_noteq h, h]
  have hlive : ∀ x, ((ctx.setRes r res).resolve r).live x ↔ ctx.live x ∧ x ≠ r := by
    intro x
    exact live_filter ctx r x
  have hprom : ∀ p, ((ctx.setRes r res).resolve r).promises p
      = if p = (ctx.requests r).promise then { ctx.promises p with allocFreed := true }
        else ctx.promises p := by
    intro p
    by_cases h : p = (ctx.requests r).promise
    · subst h
      simp [Context.resolve, setRes_requests, Context.setRes, Context.setRequest]
    · simp [Context.resolve, setRes_requests, Context.setRes, Context.setRequest,
        Function.update_noteq h, h]
  have htrace : ((ctx.setRes r res).resolve r).trace
      = if (ctx.promises (ctx.requests r).promise).callback
        then ctx.trace ++ [Event.callback (ctx.requests r).promise res ctx.handles]
        else ctx.trace := by
    simp [Context.resolve, setRes_requests, Context.setRes, Context.setRequest, Context.handles]
  have hp0 := (hwf.alive r hl).2.2.2
  have hplt := hwf.promise_lt r hr
  constructor
  · exact hwf.count_le
  · exact hwf.nextHandle_eq
  · intro x hx
    rw [hreq]
    exact hwf.handle_eq x hx
  · intro e he
    have he' : e ∈ ctx.outstandingRequests.entries := (List.mem_filter.mp he).1
    exact hwf.entry_eq e he'
  · exact nodup_filter_snd _ _ hwf.nodup
  · intro x hx hnl
    rw [hreq]
    by_cases h : x = r
    · simp [h]
    · rw [hlive] at hnl
      have := hwf.dead x hx (fun hc => hnl ⟨hc, h⟩)
      simpa [h] using this
  · intro x hx
    rw [hlive] at hx
    obtain ⟨hx, hne⟩ := hx
    rw [hreq, hprom]
    have ha := hwf.alive x hx
    have hpne : (ctx.requests x).promise ≠ (ctx.requests r).promise :=
      fun hc => hne (hwf.uniq x r hx hl hc)
    simp [hne, hpne, ha.1, ha.2.1, ha.2.2.1, ha.2.2.2]
  · intro x hx
    rw [hreq]
    exact hwf.promise_lt x hx
  · intro r1 r2 h1 h2 hp
    rw [hlive] at h1 h2
    rw [hreq, hreq] at hp
    exact hwf.uniq r1 r2 h1.1 h2.1 hp
  · intro p hp hnf
    rw [hprom] at hnf
    by_cases h : p = (ctx.requests r).promise
    · simp [h] at hnf
    · simp only [h, if_false] at hnf
      obtain ⟨x, hx, hxp⟩ := hwf.pending p hp hnf
      refine ⟨x, ?_, ?_⟩
      · rw [hlive]
        refine ⟨hx, fun hc => h ?_⟩
        rw [← hxp, hc]
      · rw [hreq]
        exact hxp
  · intro p hp
    rw [htrace]
    have hne : p ≠ (ctx.requests r).promise := by
      intro hc
      have := hp (by rw [hc]; exact hplt)
      rw [hprom] at this
      simp [hc] at this
    have hz : callbackCount p ctx.trace = 0 := by
      apply hwf.count_zero
      intro hlt
      have := hp hlt
      rw [hprom] at this
      simpa [hne] using this
    split
    · rw [callbackCount_append]
      simp [hz, Ne.symm hne]
    · exact hz
  · intro p hp hf
    rw [htrace, hprom]
    rw [hprom] at hf
    by_cases h : p = (ctx.requests r).promise
    · subst h
      have hz : callbackCount (ctx.requests r).promise ctx.trace = 0 :=
        hwf.count_zero _ (fun _ => hp0)
      simp only [if_true]
      split
      · rw [callbackCount_append]
        simp [hz]
      · exact hz
    · simp only [h, if_false] at hf ⊢
      have hd := hwf.count_done p hp hf
      split
      · rw [callbackCount_append]
        simp [hd, Ne.symm h]
      · exact hd
  · intro x hx hcb
    rw [hlive] at hx
    rw [hreq] at hcb ⊢
    exact hwf.cookie_msg x hx.1 hcb

theorem callbackCount_append_send (p : Nat) (t : List Event) (f : List Nat) :
    callbackCount p (t ++ [Event.send f]) = callbackCount p t := by
  rw [callbackCount_append]
  rfl

/-- The invariant is kept when a cookie response is answered with the auth
request, as long as the handle counter does not wrap. -/
theorem Context.WF.advance (D : Deps) {ctx : Context} (hwf : ctx.WF) {r : Nat} (hl : ctx.live r)
    (hcount : ctx.requestCount < 2 ^ 32) (res : AdminClient_Result) (wire : List Nat) :
    (ctx.advance D r res wire).WF := by
  have hr : r < ctx.requestCount := (hwf.entry_eq _ hl).2
  have hne : ctx.requestCount ≠ r := by omega
  have hnh : ctx.outstandingRequests.nextHandle = ctx.requestCount := by
    rw [hwf.nextHandle_eq, Nat.mod_eq_of_lt hcount]
  have hnew : (ctx.advance D r res wire).requests ctx.requestCount
      = { Request.zero D with
          promise := (ctx.requests r).promise, handle := ctx.requestCount,
          callback := some .requestCallback } := by
    simp [Context.advance, Context.dropRequest, Context.addRequest, Context.setRes,
      Context.setRequest, Function.update_noteq hne, hnh]
  have hold : ∀ x, x ≠ ctx.requestCount → (ctx.advance D r res wire).requests x
      = { ctx.requests x with
          res := if x = r then res else (ctx.requests x).res
          allocFreed := if x = r then true else (ctx.requests x).allocFreed
          timeoutAllocFreed := if x = r then true else (ctx.requests x).timeoutAllocFreed } := by
    intro x hx
    by_cases h : x = r
    · subst h
      simp [Context.advance, Context.dropRequest, Context.addRequest, Context.setRes,
        Context.setRequest, Function.update_noteq hx]
    · simp [Context.advance, Context.dropRequest, Context.addRequest, Context.setRes,
        Context.setRequest, Function.update_noteq hx, Function.update_noteq h, h]
  have hent : ∀ e, e ∈ (ctx.advance D r res wire).outstandingRequests.entries ↔
      (e ∈ ctx.outstandingRequests.entries ∨ e = (ctx.requestCount, ctx.requestCount)) ∧ e.2 ≠ r := by
    intro e
    simp [Context.advance, Context.dropRequest, Context.addRequest, Context.setRes,
      Context.setRequest, List.mem_filter, hnh]
    tauto
  have hlive : ∀ x, (ctx.advance D r res wire).live x ↔
      (ctx.live x ∨ x = ctx.requestCount) ∧ x ≠ r := by
    intro x
    unfold Context.live
    rw [hent]
    simp
  have hliveOld : ∀ x, ctx.live x → x ≠ ctx.requestCount := by
    intro x hx
    have := (hwf.entry_eq _ hx).2
    simp at this
    omega
  have hprom : (ctx.advance D r res wire).promises = ctx.promises := rfl
  have hpc : (ctx.advance D r res wire).promiseCount = ctx.promiseCount := rfl
  have hrc : (ctx.advance D r res wire).requestCount = ctx.requestCount + 1 := rfl
  have htrace : (ctx.advance D r res wire).trace
      = ctx.trace ++ [Event.send (ctx.targetAddr ++ wire)] := rfl
  constructor
  · rw [hrc]; omega
  · simp [Context.advance, Context.dropRequest, Context.addRequest, Context.setRes,
      Context.setRequest, hnh]
  · intro x hx
    rw [hrc] at hx
    by_cases h : x = ctx.requestCount
    · rw [h, hnew]
    · rw [hold x h]
      exact hwf.handle_eq x (by omega)
  · intro e he
    rw [hent] at he
    rw [hrc]
    rcases he.1 with h | h
    · have := hwf.entry_eq e h
      exact ⟨this.1, by omega⟩
    · rw [h]
      simp
  · have : (ctx.advance D r res wire).outstandingRequests.entries
        = (ctx.outstandingRequests.entries ++
            [(ctx.requestCount, ctx.requestCount)]).filter (fun e => e.2 != r) := by
      simp [Context.advance, Context.dropRequest, Context.addRequest, Context.setRes,
        Context.setRequest, hnh]
    rw [this]
    apply nodup_filter_snd
    rw [List.map_append, List.nodup_append]
    refine ⟨hwf.nodup, by simp, ?_⟩
    intro a ha hb
    simp only [List.map_cons, List.map_nil, List.mem_singleton] at hb
    obtain ⟨e, he, heq⟩ := List.mem_map.mp ha
    have := (hwf.entry_eq e he).2
    omega
  · intro x hx hnl
    rw [hrc] at hx
    rw [hlive] at hnl
    by_cases h : x = ctx.requestCount
    · exact absurd ⟨Or.inr h, by omega⟩ hnl
    · rw [hold x h]
      by_cases h2 : x = r
      · simp [h2]
      · have := hwf.dead x (by omega) (fun hc => hnl ⟨Or.inl hc, h2⟩)
        simpa [h2] using this
  · intro x hx
    rw [hlive] at hx
    rw [hprom]
    obtain ⟨hx, hxr⟩ := hx
    rcases hx with hx | hx
    · rw [hold x (hliveOld x hx)]
      have ha := hwf.alive x hx
      simp [hxr, ha.1, ha.2.1, ha.2.2.1, ha.2.2.2]
    · rw [hx, hnew]
      simp [Request.zero, (hwf.alive r hl).2.2.2]
  · intro x hx
    rw [hrc] at hx
    rw [hpc]
    by_cases h : x = ctx.requestCount
    · rw [h, hnew]
      exact hwf.promise_lt r hr
    · rw [hold x h]
      exact hwf.promise_lt x (by omega)
  · intro r1 r2 h1 h2 hp
    rw [hlive] at h1 h2
    obtain ⟨h1, h1r⟩ := h1
    obtain ⟨h2, h2r⟩ := h2
    rcases h1 with h1 | h1 <;> rcases h2 with h2 | h2
    · rw [hold r1 (hliveOld r1 h1), hold r2 (hliveOld r2 h2)] at hp
      exact hwf.uniq r1 r2 h1 h2 hp
    · rw [hold r1 (hliveOld r1 h1), h2, hnew] at hp
      exact absurd (hwf.uniq r1 r h1 hl hp) h1r
    · rw [hold r2 (hliveOld r2 h2), h1, hnew] at hp
      exact absurd (hwf.uniq r2 r h2 hl hp.symm) h2r
    · rw [h1, h2]
  · intro p hp hnf
    rw [hpc] at hp
    rw [hprom] at hnf
    obtain ⟨x, hx, hxp⟩ := hwf.pending p hp hnf
    by_cases h : x = r
    · refine ⟨ctx.requestCount, ?_, ?_⟩
      · rw [hlive]
        exact ⟨Or.inr rfl, hne⟩
      · rw [hnew]
        simp only
        rw [← hxp, h]
    · refine ⟨x, ?_, ?_⟩
      · rw [hlive]
        exact ⟨Or.inl hx, h⟩
      · rw [hold x (hliveOld x hx)]
        exact hxp
  · intro p hp
    rw [htrace, callbackCount_append_send]
    exact hwf.count_zero p hp
  · intro p hp hf
    rw [htrace, callbackCount_append_send]
    exact hwf.count_done p hp hf
  · intro x hx hcb
    rw [hlive] at hx
    obtain ⟨hx, hxr⟩ := hx
    rcases hx with hx | hx
    · rw [hold x (hliveOld x hx)] at hcb ⊢
      exact hwf.cookie_msg x hx hcb
    · rw [hx, hnew] at hcb
      simp at hcb

/-- The invariant is kept by a call, as long as the handle counter does not wrap. -/
theorem Context.WF.call (D : Deps) {ctx : Context} (hwf : ctx.WF)
    (hcount : ctx.requestCount < 2 ^ 32) (message : Dict) (cb : Bool) (wire : List Nat) :
    (ctx.call D message cb wire).WF := by
  have hnh : ctx.outstandingRequests.nextHandle = ctx.requestCount := by
    rw [hwf.nextHandle_eq, Nat.mod_eq_of_lt hcount]
  have hnew : (ctx.call D message cb wire).requests ctx.requestCount
      = { Request.zero D with
          promise := ctx.promiseCount, handle := ctx.requestCount,
          callback := some .cookieCallback,
          requestMessage := some (Cloner_cloneDict message .nil) } := by
    simp [Context.call, hnh]
  have hold : ∀ x, x ≠ ctx.requestCount →
      (ctx.call D message cb wire).requests x = ctx.requests x := by
    intro x hx
    simp [Context.call, Function.update_noteq hx]
  have hent : ∀ e, e ∈ (ctx.call D message cb wire).outstandingRequests.entries ↔
      (e ∈ ctx.outstandingRequests.entries ∨ e = (ctx.requestCount, ctx.requestCount)) := by
    intro e
    simp [Context.call, hnh]
  have hlive : ∀ x, (ctx.call D message cb wire).live x ↔
      (ctx.live x ∨ x = ctx.requestCount) := by
    intro x
    unfold Context.live
    rw [hent]
    simp
  have hliveOld : ∀ x, ctx.live x → x ≠ ctx.requestCount := by
    intro x hx
    have := (hwf.entry_eq _ hx).2
    simp at this
    omega
  have hpnew : (ctx.call D message cb wire).promises ctx.promiseCount = ⟨cb, false⟩ := by
    simp [Context.call]
  have hpold : ∀ p, p ≠ ctx.promiseCount →
      (ctx.call D message cb wire).promises p = ctx.promises p := by
    intro p hp
    simp [Context.call, Function.update_noteq hp]
  have hpc : (ctx.call D message cb wire).promiseCount = ctx.promiseCount + 1 := rfl
  have hrc : (ctx.call D message cb wire).requestCount = ctx.requestCount + 1 := rfl
  have htrace : (ctx.call D message cb wire).trace
      = ctx.trace ++ [Event.send (ctx.targetAddr ++ wire)] := rfl
  have hplt : ∀ x, ctx.live x → (ctx.requests x).promise ≠ ctx.promiseCount := by
    intro x hx
    have := hwf.promise_lt x (hwf.entry_eq _ hx).2
    omega
  constructor
  · rw [hrc]; omega
  · simp [Context.call, hnh]
  · intro x hx
    rw [hrc] at hx
    by_cases h : x = ctx.requestCount
    · rw [h, hnew]
    · rw [hold x h]
      exact hwf.handle_eq x (by omega)
  · intro e he
    rw [hent] at he
    rw [hrc]
    rcases he with h | h
    · have := hwf.entry_eq e h
      exact ⟨this.1, by omega⟩
    · rw [h]
      simp
  · have : (ctx.call D message cb wire).outstandingRequests.entries
        = ctx.outstandingRequests.entries ++ [(ctx.requestCount, ctx.requestCount)] := by
      simp [Context.call, hnh]
    rw [this, List.map_append, List.nodup_append]
    refine ⟨hwf.nodup, by simp, ?_⟩
    intro a ha hb
    simp only [List.map_cons, List.map_nil, List.mem_singleton] at hb
    obtain ⟨e, he, heq⟩ := List.mem_map.mp ha
    have := (hwf.entry_eq e he).2
    omega
  · intro x hx hnl
    rw [hrc] at hx
    rw [hlive] at hnl
    by_cases h : x = ctx.requestCount
    · exact absurd (Or.inr h) hnl
    · rw [hold x h]
      exact hwf.dead x (by omega) (fun hc => hnl (Or.inl hc))
  · intro x hx
    rw [hlive] at hx
    rcases hx with hx | hx
    · rw [hold x (hliveOld x hx), hpold _ (hplt x hx)]
      exact hwf.alive x hx
    · rw [hx, hnew]
      simp [Request.zero, hpnew]
  · intro x hx
    rw [hrc] at hx
    rw [hpc]
    by_cases h : x = ctx.requestCount
    · rw [h, hnew]
      simp
    · rw [hold x h]
      have := hwf.promise_lt x (by omega)
      omega
  · intro r1 r2 h1 h2 hp
    rw [hlive] at h1 h2
    rcases h1 with h1 | h1 <;> rcases h2 with h2 | h2
    · rw [hold r1 (hliveOld r1 h1), hold r2 (hliveOld r2 h2)] at hp
      exact hwf.uniq r1 r2 h1 h2 hp
    · rw [hold r1 (hliveOld r1 h1), h2, hnew] at hp
      exact absurd hp (hplt r1 h1)
    · rw [hold r2 (hliveOld r2 h2), h1, hnew] at hp
      exact absurd hp.symm (hplt r2 h2)
    · rw [h1, h2]
  · intro p hp hnf
    rw [hpc] at hp
    by_cases h : p = ctx.promiseCount
    · refine ⟨ctx.requestCount, ?_, ?_⟩
      · rw [hlive]
        exact Or.inr rfl
      · rw [hnew, h]
    · rw [hpold p h] at hnf
      obtain ⟨x, hx, hxp⟩ := hwf.pending p (by omega) hnf
      refine ⟨x, ?_, ?_⟩
      · rw [hlive]
        exact Or.inl hx
      · rw [hold x (hliveOld x hx)]
        exact hxp
  · intro p hp
    rw [htrace, callbackCount_append_send]
    apply hwf.count_zero p
    intro hlt
    have := hp (by rw [hpc]; omega)
    rwa [hpold p (by omega)] at this
  · intro p hp hf
    rw [hpc] at hp
    rw [htrace, callbackCount_append_send]
    by_cases h : p = ctx.promiseCount
    · rw [h, hpnew] at hf
      simp at hf
    · rw [hpold p h] at hf ⊢
      exact hwf.count_done p (by omega) hf
  · intro x hx hcb
    rw [hlive] at hx
    rcases hx with hx | hx
    · rw [hold x (hliveOld x hx)] at hcb ⊢
      exact hwf.cookie_msg x hx hcb
    · rw [hx, hnew]
      simp

/-- The state that `AdminClient_new` sets up satisfies the invariant. -/
theorem Context.new_WF (D : Deps) (targetAddr adminPassword : List Nat) :
    (Context.new D targetAddr adminPassword).WF := by
  constructor <;> simp [Context.new, Context.live, callbackCount]

/-- A call, in closed form. -/
theorem step_rpcCall (D : Deps) (ctx ctx' : Context) (function : List Nat) (args : Option Dict)
    (cb : Bool) (h : step D ctx (.rpcCall function args cb) = some ctx') :
    ∃ message wire, ctx' = ctx.call D message cb wire := by
  unfold step AdminClient_rpcCall doCall at h
  simp only at h
  split at h
  · exact absurd h (by simp)
  · rename_i p ctx1 hcall
    split at hcall
    · exact absurd hcall (by simp)
    · rename_i r ctx2 hsend
      obtain ⟨hr, wire, hctx2, -, -⟩ := sendRaw_eq _ _ _ _ _ _ _ _ hsend
      simp only [Option.some.injEq, Prod.mk.injEq] at hcall h
      obtain ⟨rfl, rfl⟩ := hcall
      subst hctx2 h hr
      refine ⟨Dict.cons (cstr "q") (Object.string (cstr "auth"))
        (Dict.cons (cstr "aq") (Object.string function)
          (Dict.cons (cstr "args") (Object.dict (args.getD Dict.nil)) Dict.nil)), wire, ?_⟩
      simp [Context.call, Context.addRequest, Context.setRequest]

theorem setRes_live (ctx : Context) (r : Nat) (res : AdminClient_Result) (x : Nat) :
    (ctx.setRes r res).live x ↔ ctx.live x := Iff.rfl

/-- The invariant does not depend on the results stored in the requests. -/
theorem Context.WF.setRes {ctx : Context} (hwf : ctx.WF) (r : Nat) (res : AdminClient_Result) :
    (ctx.setRes r res).WF where
  count_le := hwf.count_le
  nextHandle_eq := hwf.nextHandle_eq
  handle_eq := by intro x hx; rw [setRes_requests]; exact hwf.handle_eq x hx
  entry_eq := hwf.entry_eq
  nodup := hwf.nodup
  dead := by intro x hx hl; rw [setRes_requests]; exact hwf.dead x hx hl
  alive := by intro x hl; rw [setRes_requests]; exact hwf.alive x hl
  promise_lt := by intro x hx; rw [setRes_requests]; exact hwf.promise_lt x hx
  uniq := by
    intro r1 r2 h1 h2 hp
    rw [setRes_requests, setRes_requests] at hp
    exact hwf.uniq r1 r2 h1 h2 hp
  pending := by
    intro p hp hf
    obtain ⟨x, hx, hxp⟩ := hwf.pending p hp hf
    exact ⟨x, hx, by rw [setRes_requests]; exact hxp⟩
  count_zero := hwf.count_zero
  count_done := hwf.count_done
  cookie_msg := by
    intro x hl hcb
    rw [setRes_requests] at hcb ⊢
    exact hwf.cookie_msg x hl hcb

/-- The timer of a request in the map: the promise is fulfilled with `TIMEOUT`. -/
theorem timeout_eq (D : Deps) {ctx : Context} (hwf : ctx.WF) {r : Nat} (hl : ctx.live r) :
    timeout D r ctx
      = some ((ctx.setRes r { (ctx.requests r).res with err := .TIMEOUT }).resolve r) := by
  unfold timeout
  apply done_resolve D (hwf.ready hl)
  have hcb := (hwf.alive r hl).2.2.1
  cases h : (ctx.requests r).callback with
  | none => exact absurd h hcb
  | some c =>
    cases c with
    | requestCallback => exact Or.inl rfl
    | cookieCallback => exact Or.inr ⟨rfl, by simp⟩

/-- A timer that is still registered belongs to a request in the map. -/
theorem Context.WF.live_of_timer {ctx : Context} (hwf : ctx.WF) {r : Nat}
    (hr : r < ctx.requestCount) (ht : (ctx.requests r).timeoutAllocFreed = false) : ctx.live r := by
  by_contra hl
  have := (hwf.dead r hr hl).2
  rw [ht] at this
  exact absurd this (by simp)

/-- A datagram that is not matched to a request is dropped: the state stays as
it is and `receiveMessage` returns an error. -/
theorem receiveMessage_of_no_match (D : Deps) (ctx : Context) (msg : Message)
    (x : Option String) (ctx' : Context)
    (hm : matchDatagram D ctx msg = none)
    (h : receiveMessage D msg ctx = some (x, ctx')) : ctx' = ctx ∧ x ≠ none := by
  unfold matchDatagram at hm
  unfold receiveMessage at h
  split at hm
  · simp_all
  · split at hm
    · simp_all
      obtain ⟨rfl, rfl⟩ := h
      simp
    · split at hm
      · simp_all
        obtain ⟨rfl, rfl⟩ := h
        simp
      · split at hm
        · simp_all
        · split at hm
          · simp_all
            obtain ⟨rfl, rfl⟩ := h
            simp
          · split at hm
            · simp_all
              obtain ⟨rfl, rfl⟩ := h
              simp
            · split at hm
              · simp_all
                obtain ⟨rfl, rfl⟩ := h
                simp
              · simp at hm

/-- A matched response for a request in the result phase: the promise is
fulfilled with `NONE`, the decoded dictionary and the copied bytes. -/
theorem receiveMessage_result (D : Deps) {ctx : Context} (hwf : ctx.WF) {msg : Message}
    {r : Nat} {d : Dict} {bytes : List Nat}
    (hm : matchDatagram D ctx msg = some (r, d, bytes))
    (hcb : (ctx.requests r).callback = some .requestCallback) :
    receiveMessage D msg ctx
      = some (none, (ctx.setRes r ⟨.NONE, some d, copyMessageBytes D bytes⟩).resolve r) := by
  have hl := matchDatagram_live D ctx msg r d bytes (fun e he => (hwf.entry_eq e he).1) hm
  rw [receiveMessage_of_match D ctx msg r d bytes hm]
  rw [done_resolve D ((hwf.ready hl).withRes r _) .NONE
    (Or.inl (by rw [setRes_requests]; exact hcb))]
  simp only [Option.map_some', setRes_setRes]
  rw [setRes_requests]
  simp

/-- A matched response without a string `cookie` for a request in the cookie
phase: the promise is fulfilled with `NO_COOKIE`. -/
theorem receiveMessage_no_cookie (D : Deps) {ctx : Context} (hwf : ctx.WF) {msg : Message}
    {r : Nat} {d : Dict} {bytes : List Nat}
    (hm : matchDatagram D ctx msg = some (r, d, bytes))
    (hcb : (ctx.requests r).callback = some .cookieCallback)
    (hc : Dict_getStringC d (cstr "cookie") = none) :
    receiveMessage D msg ctx
      = some (none, (ctx.setRes r ⟨.NO_COOKIE, some d, copyMessageBytes D bytes⟩).resolve r) := by
  have hl := matchDatagram_live D ctx msg r d bytes (fun e he => (hwf.entry_eq e he).1) hm
  rw [receiveMessage_of_match D ctx msg r d bytes hm]
  rw [done_no_cookie D ((hwf.ready hl).withRes r _) d
    (by rw [setRes_requests]; exact hcb) (by rw [setRes_requests]; simp) hc]
  simp only [Option.map_some', setRes_setRes]
  rw [setRes_requests]
  simp

/-- A matched response with a string `cookie` for a request in the cookie
phase: the auth request is made by `sendRaw` and the cookie request is freed. -/
theorem receiveMessage_cookie (D : Deps) {ctx : Context} (hwf : ctx.WF)
    (hcount : ctx.requestCount < 2 ^ 32) {msg : Message}
    {r : Nat} {d : Dict} {bytes : List Nat} {c : List Nat} {m : Dict}
    (hm : matchDatagram D ctx msg = some (r, d, bytes))
    (hcb : (ctx.requests r).callback = some .cookieCallback)
    (hc : Dict_getStringC d (cstr "cookie") = some c)
    (hmsg : (ctx.requests r).requestMessage = some m) :
    receiveMessage D msg ctx
      = (sendRaw D m (ctx.requests r).promise
          (ctx.setRes r ⟨.NONE, some d, copyMessageBytes D bytes⟩) (some c) .requestCallback).map
        (fun x => (none, x.2.dropRequest r)) := by
  have hl := matchDatagram_live D ctx msg r d bytes (fun e he => (hwf.entry_eq e he).1) hm
  rw [receiveMessage_of_match D ctx msg r d bytes hm]
  rw [done_cookie D (hwf.setRes r _) hl hcount d c m
    (by rw [setRes_requests]; exact hcb) (by rw [setRes_requests]; simp) hc
    (by rw [setRes_requests]; exact hmsg)]
  simp only [setRes_setRes]
  rw [setRes_requests]
  simp only [if_true, Option.map_map]
  rfl

/-- What a datagram does to a state under the invariant: nothing, or it
fulfils the promise of a request in the map, or it replaces a cookie request
in the map by the auth request. -/
theorem step_datagram (D : Deps) {ctx ctx' : Context} (hwf : ctx.WF)
    (hcount : ctx.requestCount < 2 ^ 32) (msg : Message)
    (h : step D ctx (.datagram msg) = some ctx') :
    ctx' = ctx ∨ ∃ r d bytes, matchDatagram D ctx msg = some (r, d, bytes) ∧ ctx.live r ∧
      ((∃ res, ctx' = (ctx.setRes r res).resolve r) ∨
       (∃ res wire, ctx' = ctx.advance D r res wire)) := by
  unfold step at h
  simp only at h
  split at h
  · exact absurd h (by simp)
  · rename_i x ctx1 hrecv
    simp only [Option.some.injEq] at h
    subst h
    cases hm : matchDatagram D ctx msg with
    | none => exact Or.inl (receiveMessage_of_no_match D ctx msg x ctx1 hm hrecv).1
    | some t =>
      obtain ⟨r, d, bytes⟩ := t
      have hl := matchDatagram_live D ctx msg r d bytes (fun e he => (hwf.entry_eq e he).1) hm
      refine Or.inr ⟨r, d, bytes, rfl, hl, ?_⟩
      have hcbn := (hwf.alive r hl).2.2.1
      cases hcb : (ctx.requests r).callback with
      | none => exact absurd hcb hcbn
      | some cb =>
        cases cb with
        | requestCallback =>
          rw [receiveMessage_result D hwf hm hcb] at hrecv
          simp only [Option.some.injEq, Prod.mk.injEq] at hrecv
          exact Or.inl ⟨_, hrecv.2.symm⟩
        | cookieCallback =>
          cases hc : Dict_getStringC d (cstr "cookie") with
          | none =>
            rw [receiveMessage_no_cookie D hwf hm hcb hc] at hrecv
            simp only [Option.some.injEq, Prod.mk.injEq] at hrecv
            exact Or.inl ⟨_, hrecv.2.symm⟩
          | some c =>
            have hmn := hwf.cookie_msg r hl hcb
            cases hmsg : (ctx.requests r).requestMessage with
            | none => exact absurd hmsg hmn
            | some m =>
              rw [receiveMessage_cookie D hwf hcount hm hcb hc hmsg] at hrecv
              cases hs : sendRaw D m (ctx.requests r).promise
                  (ctx.setRes r ⟨.NONE, some d, copyMessageBytes D bytes⟩) (some c)
                  .requestCallback with
              | none => rw [hs] at hrecv; exact absurd hrecv (by simp)
              | some y =>
                obtain ⟨r2, ctx2⟩ := y
                rw [hs] at hrecv
                obtain ⟨-, wire, rfl, -, -⟩ := sendRaw_eq _ _ _ _ _ _ _ _ hs
                simp only [Option.map_some', Option.some.injEq, Prod.mk.injEq] at hrecv
                refine Or.inr ⟨⟨.NONE, some d, copyMessageBytes D bytes⟩, wire, ?_⟩
                rw [← hrecv.2]
                rfl

/-- One event keeps the invariant and makes at most one request. -/
theorem step_WF (D : Deps) {ctx ctx' : Context} (hwf : ctx.WF)
    (hcount : ctx.requestCount < 2 ^ 32) (i : Input) (h : step D ctx i = some ctx') :
    ctx'.WF ∧ ctx'.requestCount ≤ ctx.requestCount + 1 := by
  cases i with
  | rpcCall function args cb =>
    obtain ⟨message, wire, rfl⟩ := step_rpcCall D ctx ctx' function args cb h
    exact ⟨hwf.call D hcount message cb wire, Nat.le_refl _⟩
  | datagram msg =>
    rcases step_datagram D hwf hcount msg h with
      rfl | ⟨r, d, bytes, -, hl, ⟨res, rfl⟩ | ⟨res, wire, rfl⟩⟩
    · exact ⟨hwf, Nat.le_succ _⟩
    · exact ⟨hwf.resolve hl res, Nat.le_succ _⟩
    · exact ⟨hwf.advance D hl hcount res wire, Nat.le_refl _⟩
  | timerFired r =>
    unfold step at h
    simp only at h
    split at h
    · rename_i hg
      rw [timeout_eq D hwf (hwf.live_of_timer hg.1 hg.2)] at h
      simp only [Option.some.injEq] at h
      subst h
      exact ⟨hwf.resolve (hwf.live_of_timer hg.1 hg.2) _, Nat.le_succ _⟩
    · simp only [Option.some.injEq] at h
      subst h
      exact ⟨hwf, Nat.le_succ _⟩

/-- A run keeps the invariant, as long as the handle counter cannot wrap. -/
theorem run_WF (D : Deps) (inputs : List Input) {ctx ctx' : Context} (hwf : ctx.WF)
    (hcount : ctx.requestCount + inputs.length ≤ 2 ^ 32) (h : run D ctx inputs = some ctx') :
    ctx'.WF := by
  induction inputs generalizing ctx with
  | nil =>
    simp only [run, Option.some.injEq] at h
    subst h
    exact hwf
  | cons i rest ih =>
    simp only [run] at h
    simp only [List.length_cons] at hcount
    split at h
    · exact absurd h (by simp)
    · rename_i ctx1 hstep
      obtain ⟨hwf1, hc1⟩ := step_WF D hwf (by omega) i hstep
      exact ih hwf1 (by omega) h

theorem hexValue_hexEntities : ∀ n, n < 16 → hexValue (hexEntities.getD n 0) = some n := by
  decide

theorem hexDecodePairs_hexByte (b : Nat) (hb : b < 256) (t : List Nat) :
    hexDecodePairs (hexByte b ++ t) = (b :: (hexDecodePairs t).1, (hexDecodePairs t).2) := by
  unfold hexByte
  simp only [List.cons_append, List.nil_append]
  rw [hexDecodePairs]
  rw [hexValue_hexEntities _ (by omega), hexValue_hexEntities _ (Nat.mod_lt _ (by omega))]
  simp only
  congr 2
  omega

theorem hexDecodePairs_flatMap (l : List Nat) (hl : ∀ b ∈ l, b < 256) :
    hexDecodePairs (l.flatMap hexByte) = (l, true) := by
  induction l with
  | nil => rfl
  | cons b t ih =>
    rw [List.flatMap_cons, hexDecodePairs_hexByte b (hl b (List.mem_cons_self _ _)),
      ih (fun x hx => hl x (List.mem_cons_of_mem _ hx))]

theorem txidOf_eq (h : Nat) : txidOf h = (uint32_bytes h).flatMap hexByte := by
  unfold txidOf Hex_encode
  simp [uint32_bytes]

theorem txidOf_length (h : Nat) : (txidOf h).length = 8 := by
  rw [txidOf_eq, flatMap_hexByte_length]
  rfl

/-- The handle read back from the `txid` made for a 32-bit handle is the handle. -/
theorem handleOfTxid_txidOf (h : Nat) (hh : h < 2 ^ 32) : handleOfTxid (txidOf h) = h := by
  unfold handleOfTxid Hex_decode
  have hl := txidOf_length h
  rw [if_neg (by simp [hl]), if_neg (by simp [hl])]
  simp only
  rw [txidOf_eq, hexDecodePairs_flatMap _ (by
    intro b hb
    simp only [uint32_bytes, List.mem_cons, List.mem_singleton, List.not_mem_nil, or_false] at hb
    rcases hb with h | h | h | h <;> omega)]
  simp only [uint32_bytes, List.length_cons, List.length_nil, List.drop_succ_cons, List.drop_zero,
    List.append_nil, uint32_of_bytes, List.getD_cons_zero, List.getD_cons_succ]
  omega

theorem matchDatagram_eq (D : Deps) (ctx : Context) (msg : Message) :
    matchDatagram D ctx msg
      = match decodeDatagram D ctx.targetAddr msg with
        | none => none
        | some (d, bytes) =>
          match Dict_getStringC d (cstr "txid") with
          | none => none
          | some txid =>
            if txid.length ≠ 8 then none
            else
              match Map_OfRequestByHandle_indexForHandle (handleOfTxid txid)
                  ctx.outstandingRequests with
              | none => none
              | some idx => some ((ctx.outstandingRequests.entries.getD idx (0, 0)).2, d, bytes) := by
  unfold matchDatagram decodeDatagram handleOfTxid
  split
  · rfl
  · split
    · rfl
    · split
      · rfl
      · split
        · rfl
        · rfl

theorem indexForHandle_live {ctx : Context} (hwf : ctx.WF) {r : Nat} (hl : ctx.live r) :
    ∃ idx, Map_OfRequestByHandle_indexForHandle r ctx.outstandingRequests = some idx
      ∧ (ctx.outstandingRequests.entries.getD idx (0, 0)).2 = r := by
  unfold Map_OfRequestByHandle_indexForHandle
  have hex : ∃ e ∈ ctx.outstandingRequests.entries, (fun e : Nat × Nat => e.1 == r) e = true :=
    ⟨(r, r), hl, by simp⟩
  have hlt := List.findIdx_lt_length_of_exists hex
  refine ⟨_, if_pos hlt, ?_⟩
  rw [List.getD_eq_getElem?_getD, List.getElem?_eq_getElem hlt, Option.getD_some]
  have h1 := List.findIdx_getElem (w := hlt)
  have h2 := (hwf.entry_eq _ (List.getElem_mem hlt)).1
  simp only [beq_iff_eq] at h1
  rw [← h2, h1]

theorem indexForHandle_none (map : Map_OfRequestByHandle) (h : Nat)
    (hn : h ∉ map.entries.map Prod.fst) :
    Map_OfRequestByHandle_indexForHandle h map = none := by
  unfold Map_OfRequestByHandle_indexForHandle
  rw [if_neg]
  intro hlt
  have h1 := List.findIdx_getElem (w := hlt)
  simp only [beq_iff_eq] at h1
  apply hn
  rw [← h1]
  exact List.mem_map_of_mem _ (List.getElem_mem hlt)

/-- A datagram from the target address whose `txid` is the one made for a
request in the map is matched to that request. -/
theorem matchDatagram_of_txid (D : Deps) {ctx : Context} (hwf : ctx.WF) {msg : Message} {r : Nat}
    {d : Dict} {bytes : List Nat} (hl : ctx.live r)
    (hdec : decodeDatagram D ctx.targetAddr msg = some (d, bytes))
    (htxid : Dict_getStringC d (cstr "txid") = some (txidOf (ctx.requests r).handle)) :
    matchDatagram D ctx msg = some (r, d, bytes) := by
  have hr := (hwf.entry_eq _ hl).2
  simp only at hr
  have hh := hwf.handle_eq r hr
  rw [hh] at htxid
  rw [matchDatagram_eq, hdec]
  simp only [htxid, txidOf_length, ne_eq, not_true_eq_false, if_false]
  rw [handleOfTxid_txidOf r (by have := hwf.count_le; omega)]
  obtain ⟨idx, hidx, hv⟩ := indexForHandle_live hwf hl
  rw [hidx]
  simp only [hv]

theorem resolve_frame {ctx : Context} (hwf : ctx.WF) {r x : Nat} (hl : ctx.live r)
    (hx : ctx.live x) (hne : x ≠ r) (res : AdminClient_Result) :
    ((ctx.setRes x res).resolve x).live r
      ∧ ((ctx.setRes x res).resolve x).requests r = ctx.requests r
      ∧ ((ctx.setRes x res).resolve x).promises (ctx.requests r).promise
          = ctx.promises (ctx.requests r).promise := by
  have hp : (ctx.requests r).promise ≠ (ctx.requests x).promise :=
    fun hc => hne (hwf.uniq x r hx hl hc.symm)
  refine ⟨?_, ?_, ?_⟩
  · exact (live_filter ctx x r).mpr ⟨hl, Ne.symm hne⟩
  · simp [Context.resolve, Context.setRes, Context.setRequest, Function.update_noteq (Ne.symm hne)]
  · simp [Context.resolve, Context.setRes, Context.setRequest, Function.update_noteq hp]

theorem advance_frame (D : Deps) {ctx : Context} (hwf : ctx.WF) {r x : Nat} (hl : ctx.live r)
    (hne : x ≠ r) (res : AdminClient_Result) (wire : List Nat) :
    (ctx.advance D x res wire).live r
      ∧ (ctx.advance D x res wire).requests r = ctx.requests r
      ∧ (ctx.advance D x res wire).promises = ctx.promises := by
  have hr : r < ctx.requestCount := (hwf.entry_eq _ hl).2
  have hr2 : r ≠ ctx.requestCount := by omega
  refine ⟨?_, ?_, rfl⟩
  · unfold Context.live Context.advance Context.dropRequest Context.addRequest
    simp only [List.mem_filter, List.mem_append]
    exact ⟨Or.inl hl, by simpa using Ne.symm hne⟩
  · simp [Context.advance, Context.dropRequest, Context.addRequest, Context.setRes,
      Context.setRequest, Function.update_noteq (Ne.symm hne), Function.update_noteq hr2]

theorem call_frame (D : Deps) {ctx : Context} (hwf : ctx.WF) {r : Nat} (hl : ctx.live r)
    (message : Dict) (cb : Bool) (wire : List Nat) :
    (ctx.call D message cb wire).live r
      ∧ (ctx.call D message cb wire).requests r = ctx.requests r
      ∧ (ctx.call D message cb wire).promises (ctx.requests r).promise
          = ctx.promises (ctx.requests r).promise := by
  have hr : r < ctx.requestCount := (hwf.entry_eq _ hl).2
  have hr2 : r ≠ ctx.requestCount := by omega
  have hp := hwf.promise_lt r hr
  have hp2 : (ctx.requests r).promise ≠ ctx.promiseCount := by omega
  refine ⟨?_, ?_, ?_⟩
  · unfold Context.live Context.call
    simp only [List.mem_append]
    exact Or.inl hl
  · simp [Context.call, Function.update_noteq hr2]
  · simp [Context.call, Function.update_noteq hp2]

/-- An event that is neither the timer of `r` nor a datagram matched to `r`
leaves the request `r` in the map, and its record and its promise as they are. -/
theorem step_frame (D : Deps) {ctx ctx' : Context} (hwf : ctx.WF)
    (hcount : ctx.requestCount < 2 ^ 32) (i : Input) {r : Nat} (hl : ctx.live r)
    (hav : i.avoids D ctx r) (h : step D ctx i = some ctx') :
    ctx'.live r ∧ ctx'.requests r = ctx.requests r
      ∧ ctx'.promises (ctx.requests r).promise = ctx.promises (ctx.requests r).promise
      ∧ ctx'.targetAddr = ctx.targetAddr := by
  cases i with
  | rpcCall function args cb =>
    obtain ⟨message, wire, rfl⟩ := step_rpcCall D ctx ctx' function args cb h
    obtain ⟨h1, h2, h3⟩ := call_frame D hwf hl message cb wire
    exact ⟨h1, h2, h3, rfl⟩
  | datagram msg =>
    rcases step_datagram D hwf hcount msg h with
      rfl | ⟨x, d, bytes, hm, hx, ⟨res, rfl⟩ | ⟨res, wire, rfl⟩⟩
    · exact ⟨hl, rfl, rfl, rfl⟩
    · have hne : x ≠ r := fun hc => hav d bytes (by rw [hm, hc])
      obtain ⟨h1, h2, h3⟩ := resolve_frame hwf hl hx hne res
      exact ⟨h1, h2, h3, rfl⟩
    · have hne : x ≠ r := fun hc => hav d bytes (by rw [hm, hc])
      obtain ⟨h1, h2, h3⟩ := advance_frame D hwf hl hne res wire
      exact ⟨h1, h2, by rw [h3], rfl⟩
  | timerFired x =>
    have hne : x ≠ r := hav
    unfold step at h
    simp only at h
    split at h
    · rename_i hg
      have hx := hwf.live_of_timer hg.1 hg.2
      rw [timeout_eq D hwf hx] at h
      simp only [Option.some.injEq] at h
      subst h
      obtain ⟨h1, h2, h3⟩ := resolve_frame hwf hl hx hne
        { (ctx.requests x).res with err := .TIMEOUT }
      exact ⟨h1, h2, h3, rfl⟩
    · simp only [Option.some.injEq] at h
      subst h
      exact ⟨hl, rfl, rfl, rfl⟩

/-- A run none of whose events is the timer of `r` or a datagram matched to
`r` keeps the invariant and leaves the request `r` in the map, and its record
and its promise as they are. -/
theorem run_frame (D : Deps) (inputs : List Input) {ctx ctx' : Context} (hwf : ctx.WF)
    (hcount : ctx.requestCount + inputs.length ≤ 2 ^ 32) {r : Nat} (hl : ctx.live r)
    (hav : Avoids D r ctx inputs) (h : run D ctx inputs = some ctx') :
    ctx'.WF ∧ ctx'.requestCount ≤ ctx.requestCount + inputs.length
      ∧ ctx'.live r ∧ ctx'.requests r = ctx.requests r
      ∧ ctx'.promises (ctx.requests r).promise = ctx.promises (ctx.requests r).promise
      ∧ ctx'.targetAddr = ctx.targetAddr := by
  induction inputs generalizing ctx with
  | nil =>
    simp only [run, Option.some.injEq] at h
    subst h
    exact ⟨hwf, Nat.le_refl _, hl, rfl, rfl, rfl⟩
  | cons i rest ih =>
    simp only [run] at h
    simp only [List.length_cons] at hcount ⊢
    split at h
    · exact absurd h (by simp)
    · rename_i ctx1 hstep
      obtain ⟨hwf1, hc1⟩ := step_WF D hwf (by omega) i hstep
      obtain ⟨hl1, hreq1, hp1, ht1⟩ := step_frame D hwf (by omega) i hl hav.1 hstep
      obtain ⟨hwf2, hc2, hl2, hreq2, hp2, ht2⟩ := ih hwf1 (by omega) hl1 (hav.2 ctx1 hstep) h
      refine ⟨hwf2, by omega, hl2, by rw [hreq2, hreq1], ?_, by rw [ht2, ht1]⟩
      rw [hreq1] at hp2
      rw [hp2, hp1]

theorem resolve_no_entry {ctx : Context} (hwf : ctx.WF) {r : Nat} (hl : ctx.live r)
    (res : AdminClient_Result) :
    ∀ e ∈ ((ctx.setRes r res).resolve r).outstandingRequests.entries,
      (((ctx.setRes r res).resolve r).requests e.2).promise ≠ (ctx.requests r).promise := by
  intro e he hp
  have he' : e ∈ ctx.outstandingRequests.entries ∧ e.2 ≠ r := by
    simpa [Context.resolve, Context.setRes, Context.setRequest, List.mem_filter] using he
  have hlive : ctx.live e.2 := by
    unfold Context.live
    have h1 := (hwf.entry_eq e he'.1).1
    have h2 : (e.2, e.2) = e := by
      rcases e with ⟨a, b⟩
      simp only at h1
      simp [h1]
    rw [h2]
    exact he'.1
  have hreq : (((ctx.setRes r res).resolve r).requests e.2).promise = (ctx.requests e.2).promise := by
    simp [Context.resolve, Context.setRes, Context.setRequest, Function.update_noteq he'.2]
  rw [hreq] at hp
  exact he'.2 (hwf.uniq e.2 r hlive hl hp)

theorem resolve_trace (ctx : Context) (r : Nat) (res : AdminClient_Result)
    (hcb : (ctx.promises (ctx.requests r).promise).callback = true) :
    ((ctx.setRes r res).resolve r).trace
      = ctx.trace ++ [Event.callback (ctx.requests r).promise res ctx.handles] := by
  simp [Context.resolve, Context.setRes, Context.setRequest, Context.handles, hcb]

/-- C5. In a state under the invariant, for every request in the map (in the
cookie phase or in the result phase) whose promise has a callback: when its
timer fires, the callback of the promise is called with the result of the
request carrying the error `TIMEOUT`, and afterwards no entry of the
outstanding-request map belongs to that promise. -/
theorem timeout_resolves_promise (D : Deps) (ctx : Context) (hwf : ctx.WF) (r : Nat)
    (hl : ctx.live r)
    (hcb : (ctx.promises (ctx.requests r).promise).callback = true) :
    ((ctx.requests r).callback = some .cookieCallback
        ∨ (ctx.requests r).callback = some .requestCallback)
    ∧ ∃ ctx', step D ctx (.timerFired r) = some ctx'
      ∧ ctx'.trace = ctx.trace ++
          [Event.callback (ctx.requests r).promise
            { (ctx.requests r).res with err := .TIMEOUT } ctx.handles]
      ∧ ∀ e ∈ ctx'.outstandingRequests.entries,
          (ctx'.requests e.2).promise ≠ (ctx.requests r).promise := by
  constructor
  · have hcbn := (hwf.alive r hl).2.2.1
    cases h : (ctx.requests r).callback with
    | none => exact absurd h hcbn
    | some c => cases c <;> simp
  · refine ⟨_, ?_, resolve_trace ctx r _ hcb, resolve_no_entry hwf hl _⟩
    unfold step
    simp only
    rw [if_pos ⟨(hwf.entry_eq _ hl).2, (hwf.alive r hl).2.1⟩]
    exact timeout_eq D hwf hl

/-- C6. In a state under the invariant, for every request in the map in the
cookie phase whose promise has a callback: a datagram from the target address
that carries the `txid` of the request and decodes to a dictionary without a
string `cookie` makes the callback of the promise be called with `NO_COOKIE`;
nothing is sent, and afterwards no entry of the map belongs to that promise, so
that no auth request exists for the call. -/
theorem no_cookie_resolves_promise (D : Deps) (ctx : Context) (hwf : ctx.WF) (r : Nat)
    (msg : Message) (d : Dict) (bytes : List Nat)
    (hl : ctx.live r)
    (hphase : (ctx.requests r).callback = some .cookieCallback)
    (hcb : (ctx.promises (ctx.requests r).promise).callback = true)
    (hdec : decodeDatagram D ctx.targetAddr msg = some (d, bytes))
    (htxid : Dict_getStringC d (cstr "txid") = some (txidOf (ctx.requests r).handle))
    (hc : Dict_getStringC d (cstr "cookie") = none) :
    ∃ ctx', step D ctx (.datagram msg) = some ctx'
      ∧ ctx'.trace = ctx.trace ++
          [Event.callback (ctx.requests r).promise
            ⟨.NO_COOKIE, some d, copyMessageBytes D bytes⟩ ctx.handles]
      ∧ sentFrames ctx'.trace = sentFrames ctx.trace
      ∧ ctx'.requestCount = ctx.requestCount
      ∧ ∀ e ∈ ctx'.outstandingRequests.entries,
          (ctx'.requests e.2).promise ≠ (ctx.requests r).promise := by
  have hm := matchDatagram_of_txid D hwf hl hdec htxid
  have hrecv := receiveMessage_no_cookie D hwf hm hphase hc
  refine ⟨_, ?_, resolve_trace ctx r _ hcb, ?_, rfl, resolve_no_entry hwf hl _⟩
  · unfold step
    simp only
    rw [hrecv]
  · rw [resolve_trace ctx r _ hcb]
    simp [sentFrames, List.filterMap_append]

/-- C7. For every state and every datagram that has at least as many bytes as
the target address and whose leading bytes differ from the target address:
`receiveMessage` returns an error and the state (the map, every request record,
the trace of callbacks) is the same as before, whatever the payload carries. -/
theorem receiveMessage_wrong_source (D : Deps) (ctx : Context) (msg : Message)
    (hlen : ctx.targetAddr.length ≤ msg.bytes.length)
    (hsrc : msg.bytes.take ctx.targetAddr.length ≠ ctx.targetAddr) :
    receiveMessage D msg ctx = some (some "INVALID source addr", ctx)
      ∧ step D ctx (.datagram msg) = some ctx := by
  have h : receiveMessage D msg ctx = some (some "INVALID source addr", ctx) := by
    unfold receiveMessage Message_epop
    rw [if_neg (by omega)]
    simp only
    rw [if_pos hsrc]
  refine ⟨h, ?_⟩
  unfold step
  simp only
  rw [h]

theorem receiveMessage_of_decode (D : Deps) (ctx : Context) (msg : Message) (d : Dict)
    (bytes : List Nat) (h : decodeDatagram D ctx.targetAddr msg = some (d, bytes)) :
    receiveMessage D msg ctx
      = match Dict_getStringC d (cstr "txid") with
        | none => some (some "INVALID missing or wrong size txid", ctx)
        | some txid =>
          if txid.length ≠ 8 then some (some "INVALID missing or wrong size txid", ctx)
          else
            match Map_OfRequestByHandle_indexForHandle (handleOfTxid txid)
                ctx.outstandingRequests with
            | none => some (some "INVALID no such handle", ctx)
            | some idx =>
              (done D (ctx.outstandingRequests.entries.getD idx (0, 0)).2 .NONE
                (ctx.setRes (ctx.outstandingRequests.entries.getD idx (0, 0)).2
                  { (ctx.requests (ctx.outstandingRequests.entries.getD idx (0, 0)).2).res with
                    responseDict := some d, messageBytes := copyMessageBytes D bytes })).map
                (fun c => (none, c)) := by
  unfold decodeDatagram at h
  unfold receiveMessage handleOfTxid
  split at h
  · exact absurd h (by simp)
  · rename_i source msg1 hpop
    try rw [hpop]
    try simp only
    split at h
    · exact absurd h (by simp)
    · rename_i hsrc
      rw [if_neg hsrc]
      split at h
      · exact absurd h (by simp)
      · rename_i d1 consumed hread
        try rw [hread]
        try simp only
        split at h
        · exact absurd h (by simp)
        · rename_i msg2 hshift
          try rw [hshift]
          simp only [Option.some.injEq, Prod.mk.injEq] at h
          obtain ⟨rfl, rfl⟩ := h
          cases hT : Dict_getStringC d1 (cstr "txid") with
          | none => rfl
          | some txid =>
            simp only
            by_cases hlen : txid.length ≠ 8
            · rw [if_pos hlen, if_pos hlen]
            · rw [if_neg hlen, if_neg hlen]
              cases hI : Map_OfRequestByHandle_indexForHandle
                  (uint32_of_bytes (Hex_decode [255, 255, 255, 255] txid).2)
                  ctx.outstandingRequests with
              | none => rfl
              | some idx =>
                simp only [Context.setRes]
                cases done D _ AdminClient_Error.NONE _ <;> rfl

/-- C8. For every state and every datagram from the target address that
decodes to a dictionary: when `txid` is missing or not a string, or does not
have exactly 8 characters, or decodes to a handle that is not in the
outstanding-request map, `receiveMessage` returns an error and the state (the
map, every request record, the trace of callbacks) is the same as before. -/
theorem receiveMessage_bad_txid (D : Deps) (ctx : Context) (msg : Message) (d : Dict)
    (bytes : List Nat)
    (hdec : decodeDatagram D ctx.targetAddr msg = some (d, bytes))
    (hbad : Dict_getStringC d (cstr "txid") = none
      ∨ ∃ txid, Dict_getStringC d (cstr "txid") = some txid
          ∧ (txid.length ≠ 8 ∨ handleOfTxid txid ∉ ctx.handles)) :
    (∃ err, receiveMessage D msg ctx = some (some err, ctx))
      ∧ step D ctx (.datagram msg) = some ctx := by
  have h : ∃ err, receiveMessage D msg ctx = some (some err, ctx) := by
    rw [receiveMessage_of_decode D ctx msg d bytes hdec]
    rcases hbad with hn | ⟨txid, ht, hlen | hh⟩
    · rw [hn]
      exact ⟨_, rfl⟩
    · rw [ht]
      simp only
      rw [if_pos hlen]
      exact ⟨_, rfl⟩
    · rw [ht]
      simp only
      split
      · exact ⟨_, rfl⟩
      · rw [indexForHandle_none _ _ hh]
        exact ⟨_, rfl⟩
  refine ⟨h, ?_⟩
  obtain ⟨err, herr⟩ := h
  unfold step
  simp only
  rw [herr]

theorem Context.WF.callbackCount_le {ctx : Context} (hwf : ctx.WF) (p : Nat) :
    callbackCount p ctx.trace ≤ 1 := by
  by_cases h : p < ctx.promiseCount → (ctx.promises p).allocFreed = false
  · rw [hwf.count_zero p h]
    omega
  · have hp : p < ctx.promiseCount := by
      by_contra hc
      exact h (fun hlt => absurd hlt hc)
    have hf : (ctx.promises p).allocFreed = true := by
      cases hv : (ctx.promises p).allocFreed with
      | true => rfl
      | false => exact absurd (fun _ => hv) h
    rw [hwf.count_done p hp hf]
    split <;> omega

theorem Context.WF.all_resolved {ctx : Context} (hwf : ctx.WF)
    (hdone : ∀ r, r < ctx.requestCount → (ctx.requests r).timeoutAllocFreed = true) :
    ctx.outstandingRequests.entries = []
      ∧ ∀ p, p < ctx.promiseCount →
          (ctx.promises p).allocFreed = true
          ∧ callbackCount p ctx.trace = if (ctx.promises p).callback then 1 else 0 := by
  have hnl : ∀ r, ¬ ctx.live r := by
    intro r hl
    have h1 := hdone r (hwf.entry_eq _ hl).2
    rw [(hwf.alive r hl).2.1] at h1
    exact absurd h1 (by simp)
  constructor
  · rw [List.eq_nil_iff_forall_not_mem]
    intro e he
    have h1 := (hwf.entry_eq e he).1
    apply hnl e.2
    unfold Context.live
    have h2 : (e.2, e.2) = e := by
      rcases e with ⟨a, b⟩
      simp only at h1
      simp [h1]
    rw [h2]
    exact he
  · intro p hp
    have hf : (ctx.promises p).allocFreed = true := by
      cases hv : (ctx.promises p).allocFreed with
      | true => rfl
      | false =>
        obtain ⟨r, hl, -⟩ := hwf.pending p hp hv
        exact absurd hl (hnl r)
    exact ⟨hf, hwf.count_done p hp hf⟩

/-- Firing the timers of the requests at the addresses in `l`: the run does not
abort, keeps the invariant, makes no request, and leaves no timer pending among
the requests of `l` or among those that had none pending before. -/
theorem run_timers (D : Deps) (l : List Nat) {ctx : Context} (hwf : ctx.WF) :
    ∃ ctx', run D ctx (l.map Input.timerFired) = some ctx' ∧ ctx'.WF
      ∧ ctx'.requestCount = ctx.requestCount ∧ ctx'.promiseCount = ctx.promiseCount
      ∧ ∀ r, (r ∈ l ∨ (ctx.requests r).timeoutAllocFreed = true) → r < ctx.requestCount →
          (ctx'.requests r).timeoutAllocFreed = true := by
  induction l generalizing ctx with
  | nil =>
    refine ⟨ctx, rfl, hwf, rfl, rfl, ?_⟩
    intro r hr _
    rcases hr with hr | hr
    · exact absurd hr (by simp)
    · exact hr
  | cons x rest ih =>
    simp only [List.map_cons, run]
    by_cases hg : x < ctx.requestCount ∧ (ctx.requests x).timeoutAllocFreed = false
    · have hl := hwf.live_of_timer hg.1 hg.2
      have hstep : step D ctx (.timerFired x)
          = some ((ctx.setRes x { (ctx.requests x).res with err := .TIMEOUT }).resolve x) := by
        unfold step
        simp only
        rw [if_pos hg]
        exact timeout_eq D hwf hl
      rw [hstep]
      simp only
      obtain ⟨ctx', hrun, hwf', hrc, hpc, hall⟩ := ih (hwf.resolve hl _)
      refine ⟨ctx', hrun, hwf', hrc, hpc, ?_⟩
      intro r hr hlt
      apply hall r _ hlt
      by_cases hrx : r = x
      · right
        rw [hrx]
        exact resolve_timeoutAllocFreed _ _
      · rcases hr with hr | hr
        · left
          simpa [hrx] using hr
        · right
          simp [Context.resolve, Context.setRes, Context.setRequest, Function.update_noteq hrx, hr]
    · have hstep : step D ctx (.timerFired x) = some ctx := by
        unfold step
        simp only
        rw [if_neg hg]
      rw [hstep]
      simp only
      obtain ⟨ctx', hrun, hwf', hrc, hpc, hall⟩ := ih hwf
      refine ⟨ctx', hrun, hwf', hrc, hpc, ?_⟩
      intro r hr hlt
      apply hall r _ hlt
      by_cases hrx : r = x
      · right
        rw [hrx]
        cases hv : (ctx.requests x).timeoutAllocFreed with
        | true => rfl
        | false => exact absurd ⟨by omega, hv⟩ hg
      · rcases hr with hr | hr
        · left
          simpa [hrx] using hr
        · right
          exact hr

/-- C1, amended. For every sequence of at most `2^32` calls, datagrams and timer
expiries on a new client that does not abort (no assertion fails): (1) the callback of every promise
has been called at most once; (2) if no request has a pending timer any more
(each has had its response or its timer), the outstanding-request map is empty
and every promise is released and has been called back exactly once (not at all
if the caller stored no callback); (3) letting the timers of all requests
expire leads, without abort, to such a state. -/
theorem promise_resolved_exactly_once (D : Deps) (targetAddr adminPassword : List Nat)
    (inputs : List Input) (ctx : Context) (hlen : inputs.length ≤ 2 ^ 32)
    (hrun : run D (Context.new D targetAddr adminPassword) inputs = some ctx) :
    (∀ p, callbackCount p ctx.trace ≤ 1)
    ∧ ((∀ r, r < ctx.requestCount → (ctx.requests r).timeoutAllocFreed = true) →
        ctx.outstandingRequests.entries = []
        ∧ ∀ p, p < ctx.promiseCount →
            (ctx.promises p).allocFreed = true
            ∧ callbackCount p ctx.trace = if (ctx.promises p).callback then 1 else 0)
    ∧ ∃ ctx', run D ctx ((List.range ctx.requestCount).map Input.timerFired) = some ctx'
        ∧ ctx'.outstandingRequests.entries = []
        ∧ ctx'.promiseCount = ctx.promiseCount
        ∧ ∀ p, p < ctx'.promiseCount →
            (ctx'.promises p).allocFreed = true
            ∧ callbackCount p ctx'.trace = if (ctx'.promises p).callback then 1 else 0 := by
  have hwf : ctx.WF :=
    run_WF D inputs (Context.new_WF D targetAddr adminPassword)
      (by simpa [Context.new] using hlen) hrun
  refine ⟨hwf.callbackCount_le, hwf.all_resolved, ?_⟩
  obtain ⟨ctx', hrun', hwf', hrc, hpc, hall⟩ := run_timers D (List.range ctx.requestCount) hwf
  have hdone : ∀ r, r < ctx'.requestCount → (ctx'.requests r).timeoutAllocFreed = true := by
    intro r hr
    rw [hrc] at hr
    exact hall r (Or.inl (List.mem_range.mpr hr)) hr
  obtain ⟨h1, h2⟩ := hwf'.all_resolved hdone
  exact ⟨ctx', hrun', h1, hpc, h2⟩

theorem call_facts (D : Deps) {ctx : Context} (hwf : ctx.WF) (hcount : ctx.requestCount < 2 ^ 32)
    (message : Dict) (cb : Bool) (wire : List Nat) :
    (ctx.call D message cb wire).live ctx.requestCount
      ∧ ((ctx.call D message cb wire).requests ctx.requestCount).promise = ctx.promiseCount
      ∧ ((ctx.call D message cb wire).requests ctx.requestCount).callback = some .cookieCallback
      ∧ ((ctx.call D message cb wire).requests ctx.requestCount).requestMessage
          = some (Cloner_cloneDict message .nil)
      ∧ ((ctx.call D message cb wire).promises ctx.promiseCount).callback = cb
      ∧ (ctx.call D message cb wire).requestCount = ctx.requestCount + 1
      ∧ (ctx.call D message cb wire).targetAddr = ctx.targetAddr := by
  have hnh : ctx.outstandingRequests.nextHandle = ctx.requestCount := by
    rw [hwf.nextHandle_eq, Nat.mod_eq_of_lt hcount]
  refine ⟨?_, ?_, ?_, ?_, ?_, rfl, rfl⟩
  · simp [Context.live, Context.call, hnh]
  · simp [Context.call]
  · simp [Context.call]
  · simp [Context.call]
  · simp [Context.call]

theorem advance_facts (D : Deps) {ctx : Context} (hwf : ctx.WF)
    (hcount : ctx.requestCount < 2 ^ 32) {r : Nat} (hl : ctx.live r) (res : AdminClient_Result)
    (wire : List Nat) :
    (ctx.advance D r res wire).live ctx.requestCount
      ∧ ((ctx.advance D r res wire).requests ctx.requestCount).promise = (ctx.requests r).promise
      ∧ ((ctx.advance D r res wire).requests ctx.requestCount).callback = some .requestCallback
      ∧ (ctx.advance D r res wire).promises = ctx.promises
      ∧ (ctx.advance D r res wire).requestCount = ctx.requestCount + 1
      ∧ (ctx.advance D r res wire).targetAddr = ctx.targetAddr := by
  have hnh : ctx.outstandingRequests.nextHandle = ctx.requestCount := by
    rw [hwf.nextHandle_eq, Nat.mod_eq_of_lt hcount]
  have hr : r < ctx.requestCount := (hwf.entry_eq _ hl).2
  have hne : ctx.requestCount ≠ r := by omega
  refine ⟨?_, ?_, ?_, rfl, rfl, rfl⟩
  · simp [Context.live, Context.advance, Context.dropRequest, Context.addRequest, Context.setRes,
      Context.setRequest, List.mem_filter, hnh, hne]
  · simp [Context.advance, Context.dropRequest, Context.addRequest, Context.setRes,
      Context.setRequest, Function.update_noteq hne]
  · simp [Context.advance, Context.dropRequest, Context.addRequest, Context.setRes,
      Context.setRequest, Function.update_noteq hne]

/-- C2. From a state under the invariant: a call is made and a callback stored
in its promise; then, after any events that are neither the timer of the cookie
request nor a datagram matched to it, a datagram from the target address
arrives that carries the `txid` of the cookie request and a string `cookie`, and
the auth request is sent; then, after any events that are neither the timer of
the auth request nor a datagram matched to it, a datagram from the target
address arrives that carries the `txid` of the auth request and decodes to `d2`.
Then the callback of the promise is called with the error `NONE` and with `d2`
as the response dictionary. -/
theorem handshake_resolves_promise (D : Deps) (ctx0 ctx1 ctx2 ctx3 ctx4 : Context)
    (function : List Nat) (args : Option Dict) (evs1 evs2 : List Input)
    (msg1 msg2 : Message) (d1 d2 : Dict) (bytes1 bytes2 cookie : List Nat)
    (hwf : ctx0.WF)
    (hcount : ctx0.requestCount + evs1.length + evs2.length + 2 ≤ 2 ^ 32)
    (hcall : step D ctx0 (.rpcCall function args true) = some ctx1)
    (hrun1 : run D ctx1 evs1 = some ctx2)
    (hav1 : Avoids D ctx0.requestCount ctx1 evs1)
    (hdec1 : decodeDatagram D ctx2.targetAddr msg1 = some (d1, bytes1))
    (htxid1 : Dict_getStringC d1 (cstr "txid") = some (txidOf ctx0.outstandingRequests.nextHandle))
    (hcookie : Dict_getStringC d1 (cstr "cookie") = some cookie)
    (hrecv1 : step D ctx2 (.datagram msg1) = some ctx3)
    (hrun2 : run D ctx3 evs2 = some ctx4)
    (hav2 : Avoids D ctx2.requestCount ctx3 evs2)
    (hdec2 : decodeDatagram D ctx4.targetAddr msg2 = some (d2, bytes2))
    (htxid2 : Dict_getStringC d2 (cstr "txid")
      = some (txidOf ctx2.outstandingRequests.nextHandle)) :
    ∃ ctx5, step D ctx4 (.datagram msg2) = some ctx5
      ∧ ctx5.trace = ctx4.trace ++
          [Event.callback ctx0.promiseCount ⟨.NONE, some d2, copyMessageBytes D bytes2⟩
            ctx4.handles] := by
  -- the call
  have hc0 : ctx0.requestCount < 2 ^ 32 := by omega
  have hnh0 : ctx0.outstandingRequests.nextHandle = ctx0.requestCount := by
    rw [hwf.nextHandle_eq, Nat.mod_eq_of_lt hc0]
  obtain ⟨message, wire, rfl⟩ := step_rpcCall D ctx0 ctx1 function args true hcall
  have hwf1 := hwf.call D hc0 message true wire
  obtain ⟨hl1, hp1, hcb1, hmsg1, hpcb1, hrc1, -⟩ := call_facts D hwf hc0 message true wire
  -- up to the cookie response
  obtain ⟨hwf2, hrc2, hl2, hreq2, hprom2, -⟩ :=
    run_frame D evs1 hwf1 (by rw [hrc1]; omega) hl1 hav1 hrun1
  have hc2 : ctx2.requestCount < 2 ^ 32 := by rw [hrc1] at hrc2; omega
  have hnh2 : ctx2.outstandingRequests.nextHandle = ctx2.requestCount := by
    rw [hwf2.nextHandle_eq, Nat.mod_eq_of_lt hc2]
  have hh2 : (ctx2.requests ctx0.requestCount).handle = ctx0.requestCount :=
    hwf2.handle_eq _ (hwf2.entry_eq _ hl2).2
  have hm1 := matchDatagram_of_txid D hwf2 hl2 hdec1 (by rw [hh2, ← hnh0]; exact htxid1)
  have hstep1 := receiveMessage_cookie D hwf2 hc2 hm1 (by rw [hreq2]; exact hcb1) hcookie
    (by rw [hreq2]; exact hmsg1)
  unfold step at hrecv1
  simp only at hrecv1
  rw [hstep1] at hrecv1
  cases hs : sendRaw D (Cloner_cloneDict message .nil) (ctx2.requests ctx0.requestCount).promise
      (ctx2.setRes ctx0.requestCount ⟨.NONE, some d1, copyMessageBytes D bytes1⟩) (some cookie)
      .requestCallback with
  | none => rw [hs] at hrecv1; exact absurd hrecv1 (by simp)
  | some y =>
    obtain ⟨r2, c2⟩ := y
    rw [hs] at hrecv1
    obtain ⟨-, wire2, rfl, -, -⟩ := sendRaw_eq _ _ _ _ _ _ _ _ hs
    simp only [Option.map_some', Option.some.injEq] at hrecv1
    have hctx3 : ctx3 = ctx2.advance D ctx0.requestCount
        ⟨.NONE, some d1, copyMessageBytes D bytes1⟩ wire2 := by
      rw [← hrecv1]
      rfl
    subst hctx3
    have hwf3 := hwf2.advance D hl2 hc2 ⟨.NONE, some d1, copyMessageBytes D bytes1⟩ wire2
    obtain ⟨hl3, hp3, hcb3, hprom3, hrc3, -⟩ :=
      advance_facts D hwf2 hc2 hl2 ⟨.NONE, some d1, copyMessageBytes D bytes1⟩ wire2
    -- up to the response
    obtain ⟨hwf4, hrc4, hl4, hreq4, hprom4, -⟩ :=
      run_frame D evs2 hwf3 (by rw [hrc3]; rw [hrc1] at hrc2; omega) hl3 hav2 hrun2
    have hh4 : (ctx4.requests ctx2.requestCount).handle = ctx2.requestCount :=
      hwf4.handle_eq _ (hwf4.entry_eq _ hl4).2
    have hm2 := matchDatagram_of_txid D hwf4 hl4 hdec2 (by rw [hh4, ← hnh2]; exact htxid2)
    have hstep2 := receiveMessage_result D hwf4 hm2 (by rw [hreq4]; exact hcb3)
    have hpromise : (ctx4.requests ctx2.requestCount).promise = ctx0.promiseCount := by
      rw [hreq4, hp3, hreq2, hp1]
    have hcb : (ctx4.promises (ctx4.requests ctx2.requestCount).promise).callback = true := by
      rw [hreq4, hprom4, hp3, hprom3, hreq2] at *
      rw [hprom2, hp1]
      exact hpcb1
    refine ⟨(ctx4.setRes ctx2.requestCount
      ⟨.NONE, some d2, copyMessageBytes D bytes2⟩).resolve ctx2.requestCount, ?_, ?_⟩
    · unfold step
      simp only
      rw [hstep2]
    · rw [resolve_trace ctx4 _ _ hcb, hpromise]

theorem copyMessageBytes_long (D : Deps) (bytes : List Nat)
    (h : bytes.length > D.AdminClient_MAX_MESSAGE_SIZE) :
    copyMessageBytes D bytes = bytes.take D.AdminClient_MAX_MESSAGE_SIZE := by
  unfold copyMessageBytes
  simp [h]

theorem addRequest_trace (D : Deps) (ctx : Context) (p : Nat) (cb : RespHandler)
    (wire : List Nat) (r : Nat) :
    ((ctx.addRequest D p cb wire).dropRequest r).trace
      = ctx.trace ++ [Event.send (ctx.targetAddr ++ wire)] := rfl

/-- C9, amended. In a state under the invariant (handle counter not wrapped),
for every request in the map whose promise has a callback and every datagram
from the target address that carries the `txid` of the request and whose
content is longer than `AdminClient_MAX_MESSAGE_SIZE`: in the result phase the
callback of the promise is called with the error `NONE`, the decoded dictionary
and the first `AdminClient_MAX_MESSAGE_SIZE` bytes of the content; in the cookie
phase it is called with `NO_COOKIE` when the dictionary has no string `cookie`,
and otherwise no callback is called and the auth frame is sent, unless the
process aborts. The error is never `OVERLONG_RESPONSE`. -/
theorem overlong_response_not_reported (D : Deps) (ctx : Context) (hwf : ctx.WF)
    (hcount : ctx.requestCount < 2 ^ 32) (r : Nat) (msg : Message) (d : Dict) (bytes : List Nat)
    (hl : ctx.live r)
    (hcb : (ctx.promises (ctx.requests r).promise).callback = true)
    (hdec : decodeDatagram D ctx.targetAddr msg = some (d, bytes))
    (htxid : Dict_getStringC d (cstr "txid") = some (txidOf (ctx.requests r).handle))
    (hlong : bytes.length > D.AdminClient_MAX_MESSAGE_SIZE) :
    ((ctx.requests r).callback = some .requestCallback →
      ∃ ctx', step D ctx (.datagram msg) = some ctx'
        ∧ ctx'.trace = ctx.trace ++
            [Event.callback (ctx.requests r).promise
              ⟨.NONE, some d, bytes.take D.AdminClient_MAX_MESSAGE_SIZE⟩ ctx.handles])
    ∧ ((ctx.requests r).callback = some .cookieCallback →
        Dict_getStringC d (cstr "cookie") = none →
      ∃ ctx', step D ctx (.datagram msg) = some ctx'
        ∧ ctx'.trace = ctx.trace ++
            [Event.callback (ctx.requests r).promise
              ⟨.NO_COOKIE, some d, bytes.take D.AdminClient_MAX_MESSAGE_SIZE⟩ ctx.handles])
    ∧ ((ctx.requests r).callback = some .cookieCallback →
        Dict_getStringC d (cstr "cookie") ≠ none →
      ∀ ctx', step D ctx (.datagram msg) = some ctx' →
        ∃ wire, ctx'.trace = ctx.trace ++ [Event.send (ctx.targetAddr ++ wire)]) := by
  have hm := matchDatagram_of_txid D hwf hl hdec htxid
  refine ⟨?_, ?_, ?_⟩
  · intro hphase
    have hrecv := receiveMessage_result D hwf hm hphase
    refine ⟨(ctx.setRes r ⟨.NONE, some d, copyMessageBytes D bytes⟩).resolve r, ?_, ?_⟩
    · unfold step
      simp only
      rw [hrecv]
    · rw [resolve_trace ctx r _ hcb, copyMessageBytes_long D bytes hlong]
  · intro hphase hc
    have hrecv := receiveMessage_no_cookie D hwf hm hphase hc
    refine ⟨(ctx.setRes r ⟨.NO_COOKIE, some d, copyMessageBytes D bytes⟩).resolve r, ?_, ?_⟩
    · unfold step
      simp only
      rw [hrecv]
    · rw [resolve_trace ctx r _ hcb, copyMessageBytes_long D bytes hlong]
  · intro hphase hc ctx' hstep
    cases hcv : Dict_getStringC d (cstr "cookie") with
    | none => exact absurd hcv hc
    | some c =>
      have hmn := hwf.cookie_msg r hl hphase
      cases hmsg : (ctx.requests r).requestMessage with
      | none => exact absurd hmsg hmn
      | some m =>
        have hrecv := receiveMessage_cookie D hwf hcount hm hphase hcv hmsg
        unfold step at hstep
        simp only at hstep
        rw [hrecv] at hstep
        cases hs : sendRaw D m (ctx.requests r).promise
            (ctx.setRes r ⟨.NONE, some d, copyMessageBytes D bytes⟩) (some c)
            .requestCallback with
        | none => rw [hs] at hstep; exact absurd hstep (by simp)
        | some y =>
          obtain ⟨r2, c2⟩ := y
          rw [hs] at hstep
          obtain ⟨-, wire, rfl, -, -⟩ := sendRaw_eq _ _ _ _ _ _ _ _ hs
          simp only [Option.map_some', Option.some.injEq] at hstep
          refine ⟨wire, ?_⟩
          rw [← hstep]
          rfl

theorem sendRaw_too_long (D : Deps) (messageDict : Dict) (promise : Nat) (ctx : Context)
    (cookie : List Nat) (callback : RespHandler)
    (hlong : D.AdminClient_MAX_MESSAGE_SIZE < (encodeDict (firstPassDict D
      (Dict_putString messageDict (cstr "txid") (txidOf ctx.outstandingRequests.nextHandle))
      ctx.password cookie)).length) :
    sendRaw D messageDict promise ctx (some cookie) callback = none := by
  unfold sendRaw
  simp only [Map_OfRequestByHandle_put, getD_append_length]
  unfold calculateAuth BencMessageWriter_write
  simp only
  rw [if_neg (by omega)]

theorem cookie_request_wire (h : Nat) :
    encodeDict (Dict_putString (.cons (cstr "q") (.string (cstr "cookie")) .nil) (cstr "txid")
        (txidOf h))
      = cstr "d1:q6:cookie4:txid8:" ++ txidOf h ++ cstr "e" := by
  have h1 : String_lt (cstr "txid") (cstr "q") = false := by decide
  have h2 : cstr "txid" ≠ cstr "q" := by decide
  have h3 : ascii_decimal 8 = [56] := by decide
  simp only [Dict_putString, Dict_putObject, h1, h2, Bool.false_eq_true, if_false, encodeDict,
    encodeEntries, encodeObject, txidOf_length, h3]
  have e1 : ascii_decimal (cstr "q").length ++ 58 :: cstr "q" = cstr "1:q" := by decide
  have e2 : ascii_decimal (cstr "cookie").length ++ 58 :: cstr "cookie" = cstr "6:cookie" := by
    decide
  have e3 : ascii_decimal (cstr "txid").length ++ 58 :: cstr "txid" = cstr "4:txid" := by decide
  rw [e1, e2, e3]
  have e4 : cstr "d1:q6:cookie4:txid8:" = 100 :: (cstr "1:q" ++ cstr "6:cookie" ++ cstr "4:txid"
      ++ [56, 58]) := by decide
  have e5 : cstr "e" = [101] := by decide
  rw [e4, e5]
  simp

/-! ### The errors that reach a callback -/

theorem requestOnFree_results (r : Nat) (ctx : Context) :
    (requestOnFree r ctx).trace = ctx.trace
      ∧ (requestOnFree r ctx).requestCount = ctx.requestCount
      ∧ ∀ x, ((requestOnFree r ctx).requests x).res = (ctx.requests x).res := by
  unfold requestOnFree
  split <;> exact ⟨rfl, rfl, fun _ => rfl⟩

theorem setRequest_flags_results (ctx : Context) (r : Nat) (req : Request)
    (h : req.res = (ctx.requests r).res) :
    (ctx.setRequest r req).trace = ctx.trace
      ∧ (ctx.setRequest r req).requestCount = ctx.requestCount
      ∧ ∀ x, ((ctx.setRequest r req).requests x).res = (ctx.requests x).res := by
  refine ⟨rfl, rfl, fun x => ?_⟩
  unfold Context.setRequest
  by_cases hx : x = r
  · subst hx
    simpa using h
  · simp [Function.update_noteq hx]

theorem Allocator_free_timeoutAlloc_results (r : Nat) (ctx : Context) :
    (Allocator_free_timeoutAlloc r ctx).trace = ctx.trace
      ∧ (Allocator_free_timeoutAlloc r ctx).requestCount = ctx.requestCount
      ∧ ∀ x, ((Allocator_free_timeoutAlloc r ctx).requests x).res = (ctx.requests x).res := by
  unfold Allocator_free_timeoutAlloc
  split
  · exact ⟨rfl, rfl, fun _ => rfl⟩
  · obtain ⟨a1, a2, a3⟩ := requestOnFree_results r
      (ctx.setRequest r { ctx.requests r with timeoutAllocFreed := true })
    obtain ⟨b1, b2, b3⟩ := setRequest_flags_results ctx r
      { ctx.requests r with timeoutAllocFreed := true } rfl
    exact ⟨a1.trans b1, a2.trans b2, fun x => (a3 x).trans (b3 x)⟩

theorem Allocator_free_alloc_results (r : Nat) (ctx : Context) :
    (Allocator_free_alloc r ctx).trace = ctx.trace
      ∧ (Allocator_free_alloc r ctx).requestCount = ctx.requestCount
      ∧ ∀ x, ((Allocator_free_alloc r ctx).requests x).res = (ctx.requests x).res := by
  unfold Allocator_free_alloc
  split
  · exact ⟨rfl, rfl, fun _ => rfl⟩
  · obtain ⟨a1, a2, a3⟩ := Allocator_free_timeoutAlloc_results r
      (ctx.setRequest r { ctx.requests r with allocFreed := true })
    obtain ⟨b1, b2, b3⟩ := setRequest_flags_results ctx r
      { ctx.requests r with allocFreed := true } rfl
    exact ⟨a1.trans b1, a2.trans b2, fun x => (a3 x).trans (b3 x)⟩

theorem free_fold_results (p : Nat) (l : List Nat) (c0 : Context) :
    (l.foldl (fun c r => if (c.requests r).promise = p then Allocator_free_alloc r c else c)
        c0).trace = c0.trace
      ∧ ∀ x, ((l.foldl
          (fun c r => if (c.requests r).promise = p then Allocator_free_alloc r c else c)
          c0).requests x).res = (c0.requests x).res := by
  induction l generalizing c0 with
  | nil => exact ⟨rfl, fun _ => rfl⟩
  | cons a t ih =>
    rw [List.foldl_cons]
    obtain ⟨h1, h2⟩ := ih (if (c0.requests a).promise = p then Allocator_free_alloc a c0 else c0)
    have hstep : (if (c0.requests a).promise = p then Allocator_free_alloc a c0 else c0).trace
          = c0.trace
        ∧ ∀ x, ((if (c0.requests a).promise = p then Allocator_free_alloc a c0
            else c0).requests x).res = (c0.requests x).res := by
      split
      · obtain ⟨a1, -, a3⟩ := Allocator_free_alloc_results a c0
        exact ⟨a1, a3⟩
      · exact ⟨rfl, fun _ => rfl⟩
    exact ⟨h1.trans hstep.1, fun x => (h2 x).trans (hstep.2 x)⟩

theorem Allocator_free_promise_results (p : Nat) (ctx : Context) :
    (Allocator_free_promise p ctx).trace = ctx.trace
      ∧ ∀ x, ((Allocator_free_promise p ctx).requests x).res = (ctx.requests x).res := by
  unfold Allocator_free_promise
  split
  · exact ⟨rfl, fun _ => rfl⟩
  · exact free_fold_results p _ _

theorem ErrorsStored_of_results {a b : Context} (ha : a.ErrorsStored)
    (ht : b.trace = a.trace) (hr : ∀ x, (b.requests x).res = (a.requests x).res) :
    b.ErrorsStored := by
  refine ⟨fun r => ?_, fun p res hs hmem => ?_⟩
  · rw [hr r]
    exact ha.1 r
  · rw [ht] at hmem
    exact ha.2 p res hs hmem

theorem requestCallback_ErrorsStored (r : Nat) {ctx : Context} (h : ctx.ErrorsStored) :
    (requestCallback r ctx).ErrorsStored := by
  unfold requestCallback
  simp only
  obtain ⟨h1, h2⟩ := Allocator_free_promise_results (ctx.requests r).promise
    (if (ctx.promises (ctx.requests r).promise).callback = true
      then { ctx with trace := ctx.trace ++
        [Event.callback (ctx.requests r).promise (ctx.requests r).res ctx.handles] }
      else ctx)
  refine ErrorsStored_of_results ?_ h1 h2
  split
  · refine ⟨h.1, fun p res hs hmem => ?_⟩
    simp only [List.mem_append, List.mem_singleton, Event.callback.injEq] at hmem
    rcases hmem with hmem | ⟨-, rfl, -⟩
    · exact h.2 p res hs hmem
    · exact h.1 r
  · exact h

theorem setRequest_ErrorsStored {ctx : Context} (h : ctx.ErrorsStored) (r : Nat) (req : Request)
    (hreq : req.res.err.stored) : (ctx.setRequest r req).ErrorsStored := by
  refine ⟨fun x => ?_, h.2⟩
  unfold Context.setRequest
  by_cases hx : x = r
  · subst hx
    simpa using hreq
  · simpa [Function.update_noteq hx] using h.1 x

theorem addRequest_ErrorsStored (D : Deps) {ctx : Context} (h : ctx.ErrorsStored) (promise : Nat)
    (callback : RespHandler) (wire : List Nat) :
    (ctx.addRequest D promise callback wire).ErrorsStored := by
  refine ⟨fun x => ?_, fun p res hs hmem => ?_⟩
  · unfold Context.addRequest
    by_cases hx : x = ctx.requestCount
    · subst hx
      simp only [Function.update_same]
      exact Or.inl rfl
    · simpa [Function.update_noteq hx] using h.1 x
  · have hmem2 : Event.callback p res hs ∈ ctx.trace ++ [Event.send (ctx.targetAddr ++ wire)] :=
      hmem
    simp only [List.mem_append, List.mem_singleton] at hmem2
    rcases hmem2 with hm | hm
    · exact h.2 p res hs hm
    · exact absurd hm (by simp)

theorem sendRaw_ErrorsStored (D : Deps) {ctx ctx' : Context} (h : ctx.ErrorsStored)
    {messageDict : Dict} {promise : Nat} {cookie : Option (List Nat)} {callback : RespHandler}
    {r : Nat} (hs : sendRaw D messageDict promise ctx cookie callback = some (r, ctx')) :
    ctx'.ErrorsStored := by
  obtain ⟨-, wire, rfl, -, -⟩ := sendRaw_eq _ _ _ _ _ _ _ _ hs
  exact addRequest_ErrorsStored D h promise callback wire

theorem cookieCallback_ErrorsStored (D : Deps) (r : Nat) {ctx ctx' : Context}
    (h : ctx.ErrorsStored) (hc : cookieCallback D r ctx = some ctx') : ctx'.ErrorsStored := by
  unfold cookieCallback at hc
  simp only at hc
  split at hc
  · simp only [Option.some.injEq] at hc
    subst hc
    exact requestCallback_ErrorsStored r h
  · split at hc
    · exact absurd hc (by simp)
    · split at hc
      · simp only [Option.some.injEq] at hc
        subst hc
        exact requestCallback_ErrorsStored r
          (setRequest_ErrorsStored h r _ (Or.inr (Or.inr rfl)))
      · split at hc
        · exact absurd hc (by simp)
        · split at hc
          · exact absurd hc (by simp)
          · rename_i x ctx2 hsend
            simp only [Option.some.injEq] at hc
            subst hc
            have h2 := sendRaw_ErrorsStored D h hsend
            obtain ⟨a1, -, a3⟩ := Allocator_free_alloc_results r ctx2
            exact ErrorsStored_of_results h2 a1 a3

theorem done_ErrorsStored (D : Deps) (r : Nat) (err : AdminClient_Error) {ctx ctx' : Context}
    (h : ctx.ErrorsStored) (herr : err.stored) (hd : done D r err ctx = some ctx') :
    ctx'.ErrorsStored := by
  unfold done at hd
  simp only at hd
  have hset := setRequest_ErrorsStored h r
    { ctx.requests r with res := { (ctx.requests r).res with err := err } } herr
  split at hd
  · exact absurd hd (by simp)
  · rename_i ctx2 hafter
    simp only [Option.some.injEq] at hd
    subst hd
    obtain ⟨a1, -, a3⟩ := Allocator_free_timeoutAlloc_results r ctx2
    refine ErrorsStored_of_results ?_ a1 a3
    split at hafter
    · simp only [Option.some.injEq] at hafter
      subst hafter
      exact requestCallback_ErrorsStored r hset
    · exact cookieCallback_ErrorsStored D r hset hafter
    · exact absurd hafter (by simp)

theorem step_ErrorsStored (D : Deps) {ctx ctx' : Context} (h : ctx.ErrorsStored) (i : Input)
    (hs : step D ctx i = some ctx') : ctx'.ErrorsStored := by
  cases i with
  | rpcCall function args cb =>
    obtain ⟨message, wire, rfl⟩ := step_rpcCall D ctx ctx' function args cb hs
    refine ⟨fun x => ?_, fun p res hs2 hmem => ?_⟩
    · unfold Context.call
      by_cases hx : x = ctx.requestCount
      · subst hx
        simp only [Function.update_same]
        exact Or.inl rfl
      · simpa [Function.update_noteq hx] using h.1 x
    · have hmem2 : Event.callback p res hs2 ∈ ctx.trace ++ [Event.send (ctx.targetAddr ++ wire)] :=
        hmem
      simp only [List.mem_append, List.mem_singleton] at hmem2
      rcases hmem2 with hm | hm
      · exact h.2 p res hs2 hm
      · exact absurd hm (by simp)
  | datagram msg =>
    unfold step at hs
    simp only at hs
    split at hs
    · exact absurd hs (by simp)
    · rename_i x ctx1 hrecv
      simp only [Option.some.injEq] at hs
      subst hs
      cases hm : matchDatagram D ctx msg with
      | none =>
        rw [(receiveMessage_of_no_match D ctx msg x ctx1 hm hrecv).1]
        exact h
      | some y =>
        obtain ⟨r, d, bytes⟩ := y
        rw [receiveMessage_of_match D ctx msg r d bytes hm] at hrecv
        cases hd : done D r .NONE (ctx.setRes r { (ctx.requests r).res with
            responseDict := some d, messageBytes := copyMessageBytes D bytes }) with
        | none =>
          rw [hd] at hrecv
          exact absurd hrecv (by simp)
        | some c =>
          rw [hd] at hrecv
          simp only [Option.map_some', Option.some.injEq, Prod.mk.injEq] at hrecv
          rw [← hrecv.2]
          have hset : (ctx.setRes r { (ctx.requests r).res with
              responseDict := some d, messageBytes := copyMessageBytes D bytes }).ErrorsStored :=
            setRequest_ErrorsStored h r
              { ctx.requests r with res := { (ctx.requests r).res with
                responseDict := some d, messageBytes := copyMessageBytes D bytes } } (h.1 r)
          exact done_ErrorsStored D r .NONE hset (Or.inl rfl) hd
  | timerFired r =>
    unfold step at hs
    simp only at hs
    split at hs
    · exact done_ErrorsStored D r .TIMEOUT h (Or.inr (Or.inl rfl)) hs
    · simp only [Option.some.injEq] at hs
      subst hs
      exact h

theorem run_ErrorsStored (D : Deps) (inputs : List Input) {ctx ctx' : Context}
    (h : ctx.ErrorsStored) (hr : run D ctx inputs = some ctx') : ctx'.ErrorsStored := by
  induction inputs generalizing ctx with
  | nil =>
    simp only [run, Option.some.injEq] at hr
    subst hr
    exact h
  | cons i rest ih =>
    simp only [run] at hr
    split at hr
    · exact absurd hr (by simp)
    · rename_i c hstep
      exact ih (step_ErrorsStored D h i hstep) hr

theorem new_ErrorsStored (D : Deps) (targetAddr adminPassword : List Nat) :
    (Context.new D targetAddr adminPassword).ErrorsStored :=
  ⟨fun _ => Or.inl rfl, fun _ _ _ hmem => absurd hmem (by simp [Context.new])⟩

/-- C10, amended. For every auth-phase `sendRaw`: when the first serialization
in `calculateAuth` is longer than `AdminClient_MAX_MESSAGE_SIZE` the assertion
fails (the process aborts: no frame is sent, no promise is called back); when
`sendRaw` returns, the frame it sent is the target address followed by at most
`AdminClient_MAX_MESSAGE_SIZE` bytes. For every cookie-phase `sendRaw` that
returns, the frame it sent is the target address followed by the 29 bytes
`d1:q6:cookie4:txid8:<txid>e`. In a state under the invariant, a cookie
response matched to a cookie request whose auth envelope is longer than
`AdminClient_MAX_MESSAGE_SIZE` makes the event abort. And no run of calls,
datagrams and timer expiries on a new client produces `SERIALIZATION_FAILED`:
every request record and every result a callback is called with carries `NONE`,
`TIMEOUT` or `NO_COOKIE`. -/
theorem frame_size_bound (D : Deps) (messageDict : Dict) (promise : Nat) (ctx : Context)
    (cookie : List Nat) (callback : RespHandler) :
    (D.AdminClient_MAX_MESSAGE_SIZE < (encodeDict (firstPassDict D
        (Dict_putString messageDict (cstr "txid") (txidOf ctx.outstandingRequests.nextHandle))
        ctx.password cookie)).length →
      sendRaw D messageDict promise ctx (some cookie) callback = none)
    ∧ (∀ r ctx', sendRaw D messageDict promise ctx (some cookie) callback = some (r, ctx') →
        ∃ wire, ctx'.trace = ctx.trace ++ [Event.send (ctx.targetAddr ++ wire)]
          ∧ wire.length ≤ D.AdminClient_MAX_MESSAGE_SIZE)
    ∧ (∀ r ctx', sendRaw D (.cons (cstr "q") (.string (cstr "cookie")) .nil) promise ctx none
          callback = some (r, ctx') →
        ∃ wire, ctx'.trace = ctx.trace ++ [Event.send (ctx.targetAddr ++ wire)]
          ∧ wire = cstr "d1:q6:cookie4:txid8:" ++ txidOf ctx.outstandingRequests.nextHandle
              ++ cstr "e"
          ∧ wire.length = 29)
    ∧ (∀ (msg : Message) (r : Nat) (d : Dict) (bytes c : List Nat) (m : Dict),
        ctx.WF → ctx.requestCount < 2 ^ 32 →
        matchDatagram D ctx msg = some (r, d, bytes) →
        (ctx.requests r).callback = some .cookieCallback →
        Dict_getStringC d (cstr "cookie") = some c →
        (ctx.requests r).requestMessage = some m →
        D.AdminClient_MAX_MESSAGE_SIZE < (encodeDict (firstPassDict D
          (Dict_putString m (cstr "txid") (txidOf ctx.outstandingRequests.nextHandle))
          ctx.password c)).length →
        step D ctx (.datagram msg) = none)
    ∧ (∀ (targetAddr adminPassword : List Nat) (inputs : List Input) (ctx' : Context),
        run D (Context.new D targetAddr adminPassword) inputs = some ctx' →
        (∀ r, (ctx'.requests r).res.err ≠ .SERIALIZATION_FAILED
          ∧ ((ctx'.requests r).res.err = .NONE ∨ (ctx'.requests r).res.err = .TIMEOUT
            ∨ (ctx'.requests r).res.err = .NO_COOKIE))
        ∧ ∀ p res hs, Event.callback p res hs ∈ ctx'.trace →
            res.err ≠ .SERIALIZATION_FAILED
            ∧ (res.err = .NONE ∨ res.err = .TIMEOUT ∨ res.err = .NO_COOKIE)) := by
  refine ⟨sendRaw_too_long D messageDict promise ctx cookie callback, ?_, ?_, ?_, ?_⟩
  · intro r ctx' h
    obtain ⟨-, wire, rfl, -, hle⟩ := sendRaw_eq _ _ _ _ _ _ _ _ h
    exact ⟨wire, rfl, hle (by simp)⟩
  · intro r ctx' h
    unfold sendRaw at h
    simp only [Map_OfRequestByHandle_put, getD_append_length] at h
    split at h
    · exact absurd h (by simp)
    · rename_i wire hwire
      split at h
      · exact absurd h (by simp)
      · simp only [Option.some.injEq, Prod.mk.injEq] at h
        obtain ⟨-, rfl⟩ := h
        have hw : wire = encodeDict (Dict_putString
            (.cons (cstr "q") (.string (cstr "cookie")) .nil) (cstr "txid")
            (txidOf ctx.outstandingRequests.nextHandle)) := by
          unfold BencMessageWriter_write at hwire
          split at hwire
          · simpa using hwire.symm
          · exact absurd hwire (by simp)
        rw [cookie_request_wire] at hw
        refine ⟨wire, rfl, hw, ?_⟩
        rw [hw]
        simp only [List.length_append, txidOf_length]
        rfl
  · intro msg r d bytes c m hwf hcount hm hcb hc hmsg hlong
    unfold step
    simp only
    rw [receiveMessage_cookie D hwf hcount hm hcb hc hmsg,
      sendRaw_too_long D m (ctx.requests r).promise
        (ctx.setRes r ⟨.NONE, some d, copyMessageBytes D bytes⟩) c .requestCallback hlong]
    rfl
  · intro targetAddr adminPassword inputs ctx' hrun
    have hst := run_ErrorsStored D inputs (new_ErrorsStored D targetAddr adminPassword) hrun
    have hne : ∀ e : AdminClient_Error, e.stored →
        e ≠ .SERIALIZATION_FAILED ∧ (e = .NONE ∨ e = .TIMEOUT ∨ e = .NO_COOKIE) := by
      intro e he
      refine ⟨?_, he⟩
      rcases he with rfl | rfl | rfl <;> simp
    exact ⟨fun r => hne _ (hst.1 r), fun p res hs hmem => hne _ (hst.2 p res hs hmem)⟩

set_option maxRecDepth 100000

/-! ### The theorems on examples -/

theorem eq_some_getD {α : Type} {o : Option α} (h : o.isSome = true) (d : α) :
    o = some (o.getD d) := by
  cases o with
  | none => exact absurd h (by simp)
  | some x => rfl

theorem exampleCalled_eq : step exampleDeps exampleNew examplePing = some exampleCalled :=
  eq_some_getD (by decide!) _

theorem exampleAuthSent_eq :
    step exampleDeps exampleCalled (.datagram exampleCookie) = some exampleAuthSent :=
  eq_some_getD (by decide!) _

theorem exampleTwoCalls_eq : run exampleDeps exampleCalled [exampleOther] = some exampleTwoCalls :=
  eq_some_getD (by decide!) _

theorem exampleTwoCallsAuthSent_eq :
    step exampleDeps exampleTwoCalls (.datagram exampleCookie) = some exampleTwoCallsAuthSent :=
  eq_some_getD (by decide!) _

theorem exampleOtherTimedOut_eq :
    run exampleDeps exampleTwoCallsAuthSent [.timerFired 1] = some exampleOtherTimedOut :=
  eq_some_getD (by decide!) _

theorem exampleNew_WF : exampleNew.WF := Context.new_WF _ _ _

theorem exampleCalled_WF : exampleCalled.WF :=
  (step_WF exampleDeps exampleNew_WF (by decide!) _ exampleCalled_eq).1

theorem exampleAuthSent_WF : exampleAuthSent.WF :=
  (step_WF exampleDeps exampleCalled_WF (by decide!) _ exampleAuthSent_eq).1

theorem promise_resolved_exactly_once_witness :
    ∃ ctx, run exampleDeps (Context.new exampleDeps exampleAddr (cstr "pw"))
        [examplePing, .datagram exampleCookie, exampleOther, .datagram examplePong,
          .timerFired 2] = some ctx
      ∧ (∀ p, callbackCount p ctx.trace ≤ 1)
      ∧ ((∀ r, r < ctx.requestCount → (ctx.requests r).timeoutAllocFreed = true) →
          ctx.outstandingRequests.entries = []
          ∧ ∀ p, p < ctx.promiseCount →
              (ctx.promises p).allocFreed = true
              ∧ callbackCount p ctx.trace = if (ctx.promises p).callback then 1 else 0)
      ∧ ∃ ctx', run exampleDeps ctx ((List.range ctx.requestCount).map Input.timerFired)
            = some ctx'
          ∧ ctx'.outstandingRequests.entries = []
          ∧ ctx'.promiseCount = ctx.promiseCount
          ∧ ∀ p, p < ctx'.promiseCount →
              (ctx'.promises p).allocFreed = true
              ∧ callbackCount p ctx'.trace = if (ctx'.promises p).callback then 1 else 0 := by
  have h : (run exampleDeps (Context.new exampleDeps exampleAddr (cstr "pw"))
      [examplePing, .datagram exampleCookie, exampleOther, .datagram examplePong,
        .timerFired 2]).isSome = true := by decide!
  obtain ⟨ctx, hctx⟩ := Option.isSome_iff_exists.mp h
  exact ⟨ctx, hctx, promise_resolved_exactly_once exampleDeps exampleAddr (cstr "pw") _ ctx
    (by decide!) hctx⟩

theorem handshake_resolves_promise_witness :
    ∃ ctx5, step exampleDeps exampleOtherTimedOut (.datagram examplePong2) = some ctx5
      ∧ ctx5.trace = exampleOtherTimedOut.trace ++
          [Event.callback exampleNew.promiseCount
            ⟨.NONE, some (examplePongDict (cstr "02000000")),
              copyMessageBytes exampleDeps (cstr "d1:q4:pong4:txid8:02000000e")⟩
            exampleOtherTimedOut.handles] :=
  handshake_resolves_promise exampleDeps exampleNew exampleCalled exampleTwoCalls
    exampleTwoCallsAuthSent exampleOtherTimedOut (cstr "ping") none [exampleOther]
    [.timerFired 1] exampleCookie examplePong2
    (.cons (cstr "cookie") (.string (cstr "42"))
      (.cons (cstr "txid") (.string (cstr "00000000")) .nil))
    (examplePongDict (cstr "02000000"))
    (cstr "d6:cookie2:424:txid8:00000000e") (cstr "d1:q4:pong4:txid8:02000000e") (cstr "42")
    exampleNew_WF (by decide!) exampleCalled_eq exampleTwoCalls_eq
    ⟨trivial, fun _ _ => trivial⟩ (by decide!) (by decide!) (by decide!)
    exampleTwoCallsAuthSent_eq exampleOtherTimedOut_eq
    ⟨(by decide! : (1 : Nat) ≠ exampleTwoCalls.requestCount), fun _ _ => trivial⟩
    (by decide!) (by decide!)

theorem exampleCalled_live : exampleCalled.live 0 := by
  unfold Context.live
  decide!

theorem exampleAuthSent_live : exampleAuthSent.live 1 := by
  unfold Context.live
  decide!

theorem sendRaw_auth_frame_witness :
    ∃ r ctx', sendRaw exampleDeps (examplePongDict (cstr "x")) 0 exampleCalled
        (some (cstr "42")) .requestCallback = some (r, ctx')
      ∧ ∃ before after : Dict,
        encodeDict (firstPassDict exampleDeps
            (Dict_putString (examplePongDict (cstr "x")) (cstr "txid")
              (txidOf exampleCalled.outstandingRequests.nextHandle))
            exampleCalled.password (cstr "42"))
          = (100 :: encodeEntries before ++ cstr "4:hash64:")
              ++ firstPassHash exampleDeps exampleCalled.password (cstr "42")
              ++ (encodeEntries after ++ [101])
        ∧ ctx'.trace = exampleCalled.trace ++ [Event.send (exampleCalled.targetAddr ++
            ((100 :: encodeEntries before ++ cstr "4:hash64:")
              ++ hexHash (exampleDeps.sha256 (encodeDict (firstPassDict exampleDeps
                  (Dict_putString (examplePongDict (cstr "x")) (cstr "txid")
                    (txidOf exampleCalled.outstandingRequests.nextHandle))
                  exampleCalled.password (cstr "42"))))
              ++ (encodeEntries after ++ [101])))]
        ∧ (firstPassHash exampleDeps exampleCalled.password (cstr "42")).length = 64
        ∧ (hexHash (exampleDeps.sha256 (encodeDict (firstPassDict exampleDeps
              (Dict_putString (examplePongDict (cstr "x")) (cstr "txid")
                (txidOf exampleCalled.outstandingRequests.nextHandle))
              exampleCalled.password (cstr "42"))))).length = 64 := by
  have h : (sendRaw exampleDeps (examplePongDict (cstr "x")) 0 exampleCalled
      (some (cstr "42")) .requestCallback).isSome = true := by decide!
  obtain ⟨⟨r, ctx'⟩, hs⟩ := Option.isSome_iff_exists.mp h
  exact ⟨r, ctx', hs, sendRaw_auth_frame exampleDeps _ _ _ _ _ r ctx' hs⟩

theorem timeout_resolves_promise_witness :
    ((exampleCalled.requests 0).callback = some .cookieCallback
        ∨ (exampleCalled.requests 0).callback = some .requestCallback)
    ∧ ∃ ctx', step exampleDeps exampleCalled (.timerFired 0) = some ctx'
      ∧ ctx'.trace = exampleCalled.trace ++
          [Event.callback (exampleCalled.requests 0).promise
            { (exampleCalled.requests 0).res with err := .TIMEOUT } exampleCalled.handles]
      ∧ ∀ e ∈ ctx'.outstandingRequests.entries,
          (ctx'.requests e.2).promise ≠ (exampleCalled.requests 0).promise :=
  timeout_resolves_promise exampleDeps exampleCalled exampleCalled_WF 0 exampleCalled_live
    (by decide!)

theorem no_cookie_resolves_promise_witness :
    ∃ ctx', step exampleDeps exampleCalled
        (.datagram (exampleDatagram (cstr "d4:txid8:00000000e"))) = some ctx'
      ∧ ctx'.trace = exampleCalled.trace ++
          [Event.callback (exampleCalled.requests 0).promise
            ⟨.NO_COOKIE, some (.cons (cstr "txid") (.string (cstr "00000000")) .nil),
              copyMessageBytes exampleDeps (cstr "d4:txid8:00000000e")⟩ exampleCalled.handles]
      ∧ sentFrames ctx'.trace = sentFrames exampleCalled.trace
      ∧ ctx'.requestCount = exampleCalled.requestCount
      ∧ ∀ e ∈ ctx'.outstandingRequests.entries,
          (ctx'.requests e.2).promise ≠ (exampleCalled.requests 0).promise :=
  no_cookie_resolves_promise exampleDeps exampleCalled exampleCalled_WF 0
    (exampleDatagram (cstr "d4:txid8:00000000e"))
    (.cons (cstr "txid") (.string (cstr "00000000")) .nil) (cstr "d4:txid8:00000000e")
    exampleCalled_live (by decide!) (by decide!) (by decide!) (by decide!) (by decide!)

theorem receiveMessage_wrong_source_witness :
    receiveMessage exampleDeps exampleSpurious exampleCalled
        = some (some "INVALID source addr", exampleCalled)
      ∧ step exampleDeps exampleCalled (.datagram exampleSpurious) = some exampleCalled :=
  receiveMessage_wrong_source exampleDeps exampleCalled exampleSpurious (by decide!) (by decide!)

theorem receiveMessage_bad_txid_witness :
    (∃ err, receiveMessage exampleDeps (exampleDatagram (cstr "d4:txid8:0f000000e")) exampleCalled
        = some (some err, exampleCalled))
      ∧ step exampleDeps exampleCalled
          (.datagram (exampleDatagram (cstr "d4:txid8:0f000000e"))) = some exampleCalled :=
  receiveMessage_bad_txid exampleDeps exampleCalled
    (exampleDatagram (cstr "d4:txid8:0f000000e"))
    (.cons (cstr "txid") (.string (cstr "0f000000")) .nil) (cstr "d4:txid8:0f000000e")
    (by decide!) (Or.inr ⟨cstr "0f000000", by decide!, Or.inr (by decide!)⟩)

theorem overlong_response_not_reported_witness :
    ∃ ctx', step exampleDeps exampleAuthSent (.datagram (exampleDatagram exampleLong)) = some ctx'
      ∧ ctx'.trace = exampleAuthSent.trace ++
          [Event.callback (exampleAuthSent.requests 1).promise
            ⟨.NONE, some (.cons (cstr "a") (.string (List.replicate 1100 97))
                (.cons (cstr "txid") (.string (cstr "01000000")) .nil)),
              exampleLong.take exampleDeps.AdminClient_MAX_MESSAGE_SIZE⟩
            exampleAuthSent.handles] :=
  (overlong_response_not_reported exampleDeps exampleAuthSent exampleAuthSent_WF (by decide!) 1
    (exampleDatagram exampleLong)
    (.cons (cstr "a") (.string (List.replicate 1100 97))
      (.cons (cstr "txid") (.string (cstr "01000000")) .nil))
    exampleLong exampleAuthSent_live (by decide!) (by decide!) (by decide!) (by decide!)).1
    (by decide!)

/-- C9 as stated fails: after the call `ping` and its cookie response, a response
of 1130 bytes to the auth request (more than the 1023 of
`AdminClient_MAX_MESSAGE_SIZE`) makes the promise be called back with the
error `NONE`, not `OVERLONG_RESPONSE`. -/
theorem overlong_response_counterexample :
    exampleLong.length > exampleDeps.AdminClient_MAX_MESSAGE_SIZE
    ∧ (run exampleDeps exampleNew
        [examplePing, .datagram exampleCookie, .datagram (exampleDatagram exampleLong)]).map
        (fun c => resolutions c.trace) = some [(0, AdminClient_Error.NONE)] := by
  decide!

theorem frame_size_bound_witness :
    (∀ r ctx', sendRaw exampleDeps (examplePongDict (cstr "x")) 0 exampleCalled
          (some (cstr "42")) .requestCallback = some (r, ctx') →
        ∃ wire, ctx'.trace = exampleCalled.trace ++ [Event.send (exampleCalled.targetAddr ++ wire)]
          ∧ wire.length ≤ exampleDeps.AdminClient_MAX_MESSAGE_SIZE)
    ∧ ∃ ctx', run exampleDeps (Context.new exampleDeps exampleAddr (cstr "pw"))
          [examplePing, .datagram exampleCookie, .datagram examplePong] = some ctx'
        ∧ (∀ r, (ctx'.requests r).res.err ≠ .SERIALIZATION_FAILED
            ∧ ((ctx'.requests r).res.err = .NONE ∨ (ctx'.requests r).res.err = .TIMEOUT
              ∨ (ctx'.requests r).res.err = .NO_COOKIE))
        ∧ ∀ p res hs, Event.callback p res hs ∈ ctx'.trace →
            res.err ≠ .SERIALIZATION_FAILED
            ∧ (res.err = .NONE ∨ res.err = .TIMEOUT ∨ res.err = .NO_COOKIE) := by
  have h : (run exampleDeps (Context.new exampleDeps exampleAddr (cstr "pw"))
      [examplePing, .datagram exampleCookie, .datagram examplePong]).isSome = true := by decide!
  obtain ⟨ctx, hctx⟩ := Option.isSome_iff_exists.mp h
  have hall := frame_size_bound exampleDeps (examplePongDict (cstr "x")) 0 exampleCalled
    (cstr "42") .requestCallback
  exact ⟨hall.2.1, ctx, hctx, hall.2.2.2.2 exampleAddr (cstr "pw") _ ctx hctx⟩

/-- C1 as stated fails: after the call `ping` its promise is pending (not called
back, not released, its cookie request in the map); the cookie response
arrives with a cookie of 1000 characters, the auth envelope is longer than the
1023 bytes of `AdminClient_MAX_MESSAGE_SIZE`, and the assertion in
`calculateAuth` aborts the process: whatever events follow, the promise is
never resolved. -/
theorem promise_never_resolved_counterexample :
    (run exampleDeps exampleNew [examplePing]).map
        (fun c => (callbackCount 0 c.trace, (c.promises 0).allocFreed, c.handles))
      = some (0, false, [0])
    ∧ ∀ rest, run exampleDeps exampleNew
        (examplePing :: .datagram (exampleDatagram
          (cstr "d6:cookie1000:" ++ List.replicate 1000 49 ++ cstr "4:txid8:00000000e"))
          :: rest) = none := by
  refine ⟨by decide!, fun rest => ?_⟩
  have h2 : step exampleDeps exampleCalled (.datagram (exampleDatagram
      (cstr "d6:cookie1000:" ++ List.replicate 1000 49 ++ cstr "4:txid8:00000000e"))) = none :=
    Option.isNone_iff_eq_none.mp (by decide!)
  simp only [run, exampleCalled_eq, h2]

/-- C10 as stated fails: a call whose function name has 1000 bytes is accepted
and its cookie request sent; when the cookie response arrives, the auth
envelope is longer than the 1023 bytes of `AdminClient_MAX_MESSAGE_SIZE` and the
process aborts on the assertion in `calculateAuth`: no promise is called back
with `SERIALIZATION_FAILED`. -/
theorem frame_size_counterexample :
    (run exampleDeps exampleNew [.rpcCall (List.replicate 1000 97) none true]).map
        (fun c => (sentFrames c.trace).length) = some 1
    ∧ (run exampleDeps exampleNew
        [.rpcCall (List.replicate 1000 97) none true, .datagram exampleCookie]).isNone = true := by
  decide!

/-! ### The hex codec (C13) -/

/-- C13. For every string `b` of `n` bytes, every buffer size of at least
`2n + 1` and every output buffer of `n` bytes: `Hex_encode` succeeds and writes
`2n` characters (the value it returns), and `Hex_decode` of those characters
returns `n` and leaves exactly `b` in the buffer. -/
theorem Hex_decode_encode (b : List Nat) (outputLength : Nat) (output : List Nat)
    (hb : ∀ x ∈ b, x < 256) (hout : 2 * b.length + 1 ≤ outputLength)
    (hbuf : output.length = b.length) :
    ∃ hex, Hex_encode outputLength b = some hex ∧ hex.length = 2 * b.length
      ∧ Hex_decode output hex = (some b.length, b) := by
  refine ⟨b.flatMap hexByte, ?_, flatMap_hexByte_length b, ?_⟩
  · unfold Hex_encode
    rw [if_neg (by omega)]
  · unfold Hex_decode
    have hl := flatMap_hexByte_length b
    rw [if_neg (by rw [hl, hbuf]; omega), if_neg (by rw [hl]; omega)]
    simp only
    rw [hexDecodePairs_flatMap b hb, hl]
    simp [hbuf]

theorem Hex_decode_encode_witness :
    ∃ hex, Hex_encode 65 (List.range 32) = some hex ∧ hex.length = 2 * (List.range 32).length
      ∧ Hex_decode (List.replicate 32 0) hex = (some (List.range 32).length, List.range 32) :=
  Hex_decode_encode (List.range 32) 65 (List.replicate 32 0) (by decide) (by decide) (by decide)

/-! ### The frames that `sendRaw` sends (C14, C15) -/

/-- The dictionary that `sendRaw` serializes into the frame. -/
theorem sendRaw_dict (D : Deps) (messageDict : Dict) (promise : Nat) (ctx : Context)
    (cookie : Option (List Nat)) (callback : RespHandler) (r : Nat) (ctx' : Context)
    (h : sendRaw D messageDict promise ctx cookie callback = some (r, ctx')) :
    r = ctx.requestCount ∧ ∃ d, ctx' = ctx.addRequest D promise callback (encodeDict d)
      ∧ d = match cookie with
        | none => Dict_putString messageDict (cstr "txid")
            (txidOf ctx.outstandingRequests.nextHandle)
        | some c =>
          Dict_putString (Dict_putString
            (Dict_putString messageDict (cstr "txid") (txidOf ctx.outstandingRequests.nextHandle))
            (cstr "hash") (hexHash (D.sha256 (encodeDict (firstPassDict D
              (Dict_putString messageDict (cstr "txid")
                (txidOf ctx.outstandingRequests.nextHandle)) ctx.password c)))))
            (cstr "cookie") c := by
  unfold sendRaw at h
  simp only [Map_OfRequestByHandle_put, getD_append_length] at h
  split at h
  · exact absurd h (by simp)
  · rename_i d hd
    split at h
    · exact absurd h (by simp)
    · rename_i wire hwire
      split at h
      · exact absurd h (by simp)
      · simp only [Option.some.injEq, Prod.mk.injEq] at h
        obtain ⟨rfl, rfl⟩ := h
        have hw : wire = encodeDict d := by
          unfold BencMessageWriter_write at hwire
          split at hwire
          · simpa using hwire.symm
          · exact absurd hwire (by simp)
        refine ⟨rfl, d, by rw [hw]; rfl, ?_⟩
        cases cookie with
        | none =>
          simp only [Option.some.injEq] at hd
          exact hd.symm
        | some c =>
          simp only at hd
          unfold calculateAuth at hd
          simp only at hd
          split at hd
          · exact absurd hd (by simp)
          · rename_i msg hmsg
            simp only [Option.some.injEq] at hd
            have hm : msg = encodeDict (firstPassDict D
                (Dict_putString messageDict (cstr "txid")
                  (txidOf ctx.outstandingRequests.nextHandle)) ctx.password c) := by
              unfold BencMessageWriter_write at hmsg
              split at hmsg
              · simpa using hmsg.symm
              · exact absurd hmsg (by simp)
            rw [← hd, hm]
            simp only
            unfold firstPassDict Dict_putString
            rw [Dict_put_put_put _ _ _ _ _ _ key_hash_cookie.1 key_hash_cookie.2.1
              key_hash_cookie.2.2.1 key_hash_cookie.2.2.2]

theorem hexEntities_mem : ∀ n, n < 16 → hexEntities.getD n 0 ∈ hexEntities := by
  decide

theorem flatMap_hexByte_lowercase (l : List Nat) (hl : ∀ b ∈ l, b < 256) :
    ∀ c ∈ l.flatMap hexByte, c ∈ hexEntities := by
  intro c hc
  rw [List.mem_flatMap] at hc
  obtain ⟨b, hb, hcb⟩ := hc
  have hb256 := hl b hb
  simp only [hexByte, List.mem_cons, List.mem_singleton, List.not_mem_nil, or_false] at hcb
  rcases hcb with rfl | rfl
  · exact hexEntities_mem _ (by omega)
  · exact hexEntities_mem _ (Nat.mod_lt _ (by omega))

theorem txidOf_lowercase (h : Nat) : ∀ c ∈ txidOf h, c ∈ hexEntities := by
  rw [txidOf_eq]
  apply flatMap_hexByte_lowercase
  intro b hb
  simp only [uint32_bytes, List.mem_cons, List.mem_singleton, List.not_mem_nil, or_false] at hb
  rcases hb with h | h | h | h <;> omega

theorem findIdx_append_new (l : List (Nat × Nat)) (h r : Nat) (hl : ∀ e ∈ l, e.1 ≠ h) :
    (l ++ [(h, r)]).findIdx (fun e => e.1 == h) = l.length := by
  induction l with
  | nil => simp [List.findIdx_cons]
  | cons e t ih =>
    have he := hl e (List.mem_cons_self _ _)
    have hp : (e.1 == h) = false := by simpa using he
    rw [List.cons_append, List.findIdx_cons, hp, cond_false,
      ih (fun x hx => hl x (List.mem_cons_of_mem _ hx))]
    rfl

/-- C14. For every frame that `sendRaw` sends, in the cookie phase or in the
auth phase: the frame is the target address followed by the serialization of a
dictionary whose `txid` is `Hex_encode` of the four host-order bytes of the
handle of the new request, 8 characters out of `0123456789abcdef`; the map
holds that handle with the new request as its value when the frame is sent;
and in a state under the invariant (counter not wrapped) looking that handle
up in the map yields the new request. -/
theorem sendRaw_txid (D : Deps) (messageDict : Dict) (promise : Nat) (ctx : Context)
    (cookie : Option (List Nat)) (callback : RespHandler) (r : Nat) (ctx' : Context)
    (h : sendRaw D messageDict promise ctx cookie callback = some (r, ctx')) :
    ∃ d, ctx'.trace = ctx.trace ++ [Event.send (ctx.targetAddr ++ encodeDict d)]
      ∧ Dict_getStringC d (cstr "txid") = some (txidOf (ctx'.requests r).handle)
      ∧ Hex_encode 8 (uint32_bytes (ctx'.requests r).handle)
          = some (txidOf (ctx'.requests r).handle)
      ∧ (txidOf (ctx'.requests r).handle).length = 8
      ∧ (∀ c ∈ txidOf (ctx'.requests r).handle, c ∈ cstr "0123456789abcdef")
      ∧ ((ctx'.requests r).handle, r) ∈ ctx'.outstandingRequests.entries
      ∧ (ctx.WF → ctx.requestCount < 2 ^ 32 →
          ∃ idx, Map_OfRequestByHandle_indexForHandle (ctx'.requests r).handle
              ctx'.outstandingRequests = some idx
            ∧ (ctx'.outstandingRequests.entries.getD idx (0, 0)).2 = r) := by
  obtain ⟨rfl, d, rfl, hd⟩ := sendRaw_dict _ _ _ _ _ _ _ _ h
  have hh : ((ctx.addRequest D promise callback (encodeDict d)).requests ctx.requestCount).handle
      = ctx.outstandingRequests.nextHandle := by
    simp [Context.addRequest]
  rw [hh]
  refine ⟨d, rfl, ?_, ?_, txidOf_length _, txidOf_lowercase _, ?_, ?_⟩
  · rw [hd]
    cases cookie with
    | none => exact Dict_getStringC_putString _ _ _
    | some c =>
      simp only [Dict_putString]
      rw [Dict_getStringC_putObject_ne _ _ _ _ (by decide),
        Dict_getStringC_putObject_ne _ _ _ _ (by decide)]
      exact Dict_getStringC_putString _ _ _
  · rw [txidOf_eq]
    unfold Hex_encode
    simp [uint32_bytes]
  · simp [Context.addRequest]
  · intro hwf hcount
    have hnh : ctx.outstandingRequests.nextHandle = ctx.requestCount := by
      rw [hwf.nextHandle_eq, Nat.mod_eq_of_lt hcount]
    have hidx : (ctx.outstandingRequests.entries ++
        [(ctx.outstandingRequests.nextHandle, ctx.requestCount)]).findIdx
          (fun e => e.1 == ctx.outstandingRequests.nextHandle)
        = ctx.outstandingRequests.entries.length := by
      apply findIdx_append_new
      intro e he
      have := hwf.entry_eq e he
      omega
    refine ⟨ctx.outstandingRequests.entries.length, ?_, ?_⟩
    · unfold Map_OfRequestByHandle_indexForHandle
      simp only [Context.addRequest]
      rw [hidx, if_pos (by simp)]
    · simp only [Context.addRequest]
      rw [getD_append_length]

theorem sendRaw_txid_witness :
    ∃ r ctx', sendRaw exampleDeps (examplePongDict (cstr "x")) 0 exampleCalled
        (some (cstr "42")) .requestCallback = some (r, ctx')
      ∧ ∃ d, ctx'.trace = exampleCalled.trace ++
            [Event.send (exampleCalled.targetAddr ++ encodeDict d)]
        ∧ Dict_getStringC d (cstr "txid") = some (txidOf (ctx'.requests r).handle)
        ∧ Hex_encode 8 (uint32_bytes (ctx'.requests r).handle)
            = some (txidOf (ctx'.requests r).handle)
        ∧ (txidOf (ctx'.requests r).handle).length = 8
        ∧ (∀ c ∈ txidOf (ctx'.requests r).handle, c ∈ cstr "0123456789abcdef")
        ∧ ((ctx'.requests r).handle, r) ∈ ctx'.outstandingRequests.entries
        ∧ (exampleCalled.WF → exampleCalled.requestCount < 2 ^ 32 →
            ∃ idx, Map_OfRequestByHandle_indexForHandle (ctx'.requests r).handle
                ctx'.outstandingRequests = some idx
              ∧ (ctx'.outstandingRequests.entries.getD idx (0, 0)).2 = r) := by
  have h : (sendRaw exampleDeps (examplePongDict (cstr "x")) 0 exampleCalled
      (some (cstr "42")) .requestCallback).isSome = true := by decide!
  obtain ⟨⟨r, ctx'⟩, hs⟩ := Option.isSome_iff_exists.mp h
  exact ⟨r, ctx', hs, sendRaw_txid exampleDeps _ _ _ _ _ r ctx' hs⟩

/-- C15, amended. For every auth frame that `sendRaw` sends, with a digest of
bytes: the frame is the target address followed by the serialization of a
dictionary whose `hash` has exactly 64 characters out of `0123456789abcdef`
and whose `cookie` is the cookie string of the cookie response as it is, empty
when that one is empty. -/
theorem auth_frame_hash_cookie (D : Deps) (hbytes : ∀ m, ∀ b ∈ D.sha256 m, b < 256)
    (messageDict : Dict) (promise : Nat) (ctx : Context)
    (cookie : List Nat) (callback : RespHandler) (r : Nat) (ctx' : Context)
    (h : sendRaw D messageDict promise ctx (some cookie) callback = some (r, ctx')) :
    ∃ d hash, ctx'.trace = ctx.trace ++ [Event.send (ctx.targetAddr ++ encodeDict d)]
      ∧ Dict_getStringC d (cstr "hash") = some hash
      ∧ hash.length = 64
      ∧ (∀ c ∈ hash, c ∈ cstr "0123456789abcdef")
      ∧ Dict_getStringC d (cstr "cookie") = some cookie := by
  obtain ⟨rfl, d, rfl, hd⟩ := sendRaw_dict _ _ _ _ _ _ _ _ h
  simp only at hd
  refine ⟨d, hexHash (D.sha256 (encodeDict (firstPassDict D
    (Dict_putString messageDict (cstr "txid") (txidOf ctx.outstandingRequests.nextHandle))
    ctx.password cookie))), rfl, ?_, hexHash_length _ (D.sha256_length _), ?_, ?_⟩
  · rw [hd]
    simp only [Dict_putString]
    rw [Dict_getStringC_putObject_ne _ _ _ _ (by decide)]
    exact Dict_getStringC_putString _ _ _
  · unfold hexHash Hex_encode
    rw [if_neg (by rw [D.sha256_length]; omega), Option.getD_some]
    exact flatMap_hexByte_lowercase _ (hbytes _)
  · rw [hd]
    exact Dict_getStringC_putString _ _ _

theorem exampleDigest_bytes (m : List Nat) : ∀ b ∈ exampleDigest m, b < 256 := by
  intro b hb
  simp only [exampleDigest, List.mem_map] at hb
  obtain ⟨i, -, rfl⟩ := hb
  exact Nat.mod_lt _ (by omega)

theorem auth_frame_hash_cookie_witness :
    ∃ r ctx', sendRaw exampleDeps (examplePongDict (cstr "x")) 0 exampleCalled
        (some (cstr "42")) .requestCallback = some (r, ctx')
      ∧ ∃ d hash, ctx'.trace = exampleCalled.trace ++
            [Event.send (exampleCalled.targetAddr ++ encodeDict d)]
        ∧ Dict_getStringC d (cstr "hash") = some hash
        ∧ hash.length = 64
        ∧ (∀ c ∈ hash, c ∈ cstr "0123456789abcdef")
        ∧ Dict_getStringC d (cstr "cookie") = some (cstr "42") := by
  have h : (sendRaw exampleDeps (examplePongDict (cstr "x")) 0 exampleCalled
      (some (cstr "42")) .requestCallback).isSome = true := by decide!
  obtain ⟨⟨r, ctx'⟩, hs⟩ := Option.isSome_iff_exists.mp h
  exact ⟨r, ctx', hs,
    auth_frame_hash_cookie exampleDeps exampleDigest_bytes _ _ _ _ _ r ctx' hs⟩

/-- C15 as stated fails: after the call `ping`, the cookie response
`d6:cookie0:4:txid8:00000000e` carries an empty string as the cookie; the
client sends the auth frame, and the `cookie` of that frame is the empty string. -/
theorem auth_frame_cookie_counterexample :
    (run exampleDeps exampleNew
        [examplePing, .datagram (exampleDatagram (cstr "d6:cookie0:4:txid8:00000000e"))]).map
      (fun c => (sentFrames c.trace).map (fun f =>
        match exampleReader (f.drop exampleAddr.length) with
        | .ok (d, _) => (Dict_getStringC d (cstr "q"), Dict_getStringC d (cstr "cookie"))
        | .error _ => (none, none)))
      = some [(some (cstr "cookie"), none), (some (cstr "auth"), some [])] := by
  decide!

/-! ### What a matched response does (C11, C16, C17) -/

/-- A matched response, by the phase of its request: the promise is fulfilled
with `NONE` (result phase) or `NO_COOKIE` (cookie phase, no string `cookie`),
or the auth request replaces the cookie request. In each case the decoded
dictionary and the copied bytes are stored in the result of the request. -/
theorem step_matched (D : Deps) {ctx ctx' : Context} (hwf : ctx.WF)
    (hcount : ctx.requestCount < 2 ^ 32) {msg : Message} {r : Nat} {d : Dict}
    {bytes : List Nat} (hm : matchDatagram D ctx msg = some (r, d, bytes))
    (h : step D ctx (.datagram msg) = some ctx') :
    ((ctx.requests r).callback = some .requestCallback
      ∧ ctx' = (ctx.setRes r ⟨.NONE, some d, copyMessageBytes D bytes⟩).resolve r)
    ∨ ((ctx.requests r).callback = some .cookieCallback
      ∧ Dict_getStringC d (cstr "cookie") = none
      ∧ ctx' = (ctx.setRes r ⟨.NO_COOKIE, some d, copyMessageBytes D bytes⟩).resolve r)
    ∨ ((ctx.requests r).callback = some .cookieCallback
      ∧ ∃ wire, ctx' = ctx.advance D r ⟨.NONE, some d, copyMessageBytes D bytes⟩ wire) := by
  have hl := matchDatagram_live D ctx msg r d bytes (fun e he => (hwf.entry_eq e he).1) hm
  unfold step at h
  simp only at h
  split at h
  · exact absurd h (by simp)
  · rename_i x ctx1 hrecv
    simp only [Option.some.injEq] at h
    subst h
    have hcbn := (hwf.alive r hl).2.2.1
    cases hcb : (ctx.requests r).callback with
    | none => exact absurd hcb hcbn
    | some cb =>
      cases cb with
      | requestCallback =>
        rw [receiveMessage_result D hwf hm hcb] at hrecv
        simp only [Option.some.injEq, Prod.mk.injEq] at hrecv
        exact Or.inl ⟨rfl, hrecv.2.symm⟩
      | cookieCallback =>
        cases hc : Dict_getStringC d (cstr "cookie") with
        | none =>
          rw [receiveMessage_no_cookie D hwf hm hcb hc] at hrecv
          simp only [Option.some.injEq, Prod.mk.injEq] at hrecv
          exact Or.inr (Or.inl ⟨rfl, rfl, hrecv.2.symm⟩)
        | some c =>
          have hmn := hwf.cookie_msg r hl hcb
          cases hmsg : (ctx.requests r).requestMessage with
          | none => exact absurd hmsg hmn
          | some m =>
            rw [receiveMessage_cookie D hwf hcount hm hcb hc hmsg] at hrecv
            cases hs : sendRaw D m (ctx.requests r).promise
                (ctx.setRes r ⟨.NONE, some d, copyMessageBytes D bytes⟩) (some c)
                .requestCallback with
            | none => rw [hs] at hrecv; exact absurd hrecv (by simp)
            | some y =>
              obtain ⟨r2, ctx2⟩ := y
              rw [hs] at hrecv
              obtain ⟨-, wire, rfl, -, -⟩ := sendRaw_eq _ _ _ _ _ _ _ _ hs
              simp only [Option.map_some', Option.some.injEq, Prod.mk.injEq] at hrecv
              refine Or.inr (Or.inr ⟨rfl, wire, ?_⟩)
              rw [← hrecv.2]
              rfl

theorem resolve_res (ctx : Context) (r : Nat) (res : AdminClient_Result) :
    (((ctx.setRes r res).resolve r).requests r).res = res := by
  simp [Context.resolve, Context.setRes, Context.setRequest]

theorem advance_res (D : Deps) {ctx : Context} (hwf : ctx.WF) {r : Nat} (hl : ctx.live r)
    (res : AdminClient_Result) (wire : List Nat) :
    ((ctx.advance D r res wire).requests r).res = res := by
  have hr : r < ctx.requestCount := (hwf.entry_eq _ hl).2
  have hne : r ≠ ctx.requestCount := by omega
  simp [Context.advance, Context.dropRequest, Context.addRequest, Context.setRes,
    Context.setRequest, Function.update_noteq hne]

/-- The result stored in the request after a matched response. -/
theorem step_matched_res (D : Deps) {ctx ctx' : Context} (hwf : ctx.WF)
    (hcount : ctx.requestCount < 2 ^ 32) {msg : Message} {r : Nat} {d : Dict}
    {bytes : List Nat} (hm : matchDatagram D ctx msg = some (r, d, bytes))
    (h : step D ctx (.datagram msg) = some ctx') :
    (ctx'.requests r).res.responseDict = some d
      ∧ (ctx'.requests r).res.messageBytes = copyMessageBytes D bytes := by
  have hl := matchDatagram_live D ctx msg r d bytes (fun e he => (hwf.entry_eq e he).1) hm
  rcases step_matched D hwf hcount hm h with ⟨-, rfl⟩ | ⟨-, -, rfl⟩ | ⟨-, wire, rfl⟩
  · rw [resolve_res]
    exact ⟨rfl, rfl⟩
  · rw [resolve_res]
    exact ⟨rfl, rfl⟩
  · rw [advance_res D hwf hl]
    exact ⟨rfl, rfl⟩

theorem copyMessageBytes_length (D : Deps) (bytes : List Nat) :
    (copyMessageBytes D bytes).length = D.AdminClient_MAX_MESSAGE_SIZE := by
  unfold copyMessageBytes
  simp only
  split
  · simp only [List.length_append, List.length_take, List.length_replicate]
    omega
  · simp only [List.length_append, List.length_take, List.length_replicate]
    omega

theorem copyMessageBytes_head (D : Deps) (bytes : List Nat) (i : Nat)
    (hi : i < min bytes.length D.AdminClient_MAX_MESSAGE_SIZE) :
    (copyMessageBytes D bytes)[i]? = bytes[i]? := by
  unfold copyMessageBytes
  simp only
  split
  · rw [List.getElem?_append_left (by simp only [List.length_take]; omega),
      List.getElem?_take_of_lt (by omega)]
  · rw [List.getElem?_append_left (by simp only [List.length_take]; omega),
      List.getElem?_take_of_lt (by omega)]

theorem copyMessageBytes_tail (D : Deps) (bytes : List Nat) (i : Nat)
    (hlo : min bytes.length D.AdminClient_MAX_MESSAGE_SIZE ≤ i)
    (hhi : i < D.AdminClient_MAX_MESSAGE_SIZE) :
    (copyMessageBytes D bytes)[i]? = some 0 := by
  unfold copyMessageBytes
  simp only
  split
  · omega
  · rw [List.getElem?_append_right (by simp only [List.length_take]; omega)]
    simp only [List.length_take]
    rw [List.getElem?_replicate]
    rw [if_pos (by omega)]

/-- A datagram that is the target address followed by a payload which the
reader takes whole: the checks pass and the content of the message after the
start has been moved back is the payload. -/
theorem decodeDatagram_whole (D : Deps) (targetAddr : List Nat) (msg : Message)
    (payload : List Nat) (d : Dict)
    (hbytes : msg.bytes = targetAddr ++ payload)
    (hread : D.BencMessageReader_readNoExcept payload = .ok (d, payload.length)) :
    decodeDatagram D targetAddr msg = some (d, payload) := by
  unfold decodeDatagram Message_epop
  rw [if_neg (by rw [hbytes]; simp)]
  simp only [hbytes, List.take_left', List.drop_left', ne_eq, not_true_eq_false, if_false, hread,
    List.take_length, List.drop_length]
  unfold Message_eshift
  rw [if_neg (by simp only [List.length_append]; omega)]
  simp only [List.length_append, List.append_nil, Option.some.injEq, Prod.mk.injEq, true_and]
  have hlen : msg.padding.length + targetAddr.length + payload.length - payload.length
      = (msg.padding ++ targetAddr).length := by
    simp only [List.length_append]
    omega
  rw [hlen, List.drop_left]

theorem step_result_phase (D : Deps) {ctx : Context} (hwf : ctx.WF) {msg : Message}
    {r : Nat} {d : Dict} {bytes : List Nat}
    (hm : matchDatagram D ctx msg = some (r, d, bytes))
    (hcb : (ctx.requests r).callback = some .requestCallback) :
    step D ctx (.datagram msg)
      = some ((ctx.setRes r ⟨.NONE, some d, copyMessageBytes D bytes⟩).resolve r) := by
  unfold step
  simp only
  rw [receiveMessage_result D hwf hm hcb]

theorem step_no_cookie (D : Deps) {ctx : Context} (hwf : ctx.WF) {msg : Message}
    {r : Nat} {d : Dict} {bytes : List Nat}
    (hm : matchDatagram D ctx msg = some (r, d, bytes))
    (hcb : (ctx.requests r).callback = some .cookieCallback)
    (hc : Dict_getStringC d (cstr "cookie") = none) :
    step D ctx (.datagram msg)
      = some ((ctx.setRes r ⟨.NO_COOKIE, some d, copyMessageBytes D bytes⟩).resolve r) := by
  unfold step
  simp only
  rw [receiveMessage_no_cookie D hwf hm hcb hc]

/-- C11. In a state under the invariant, for a datagram that is the target
address followed by a payload `p` which the reader accepts and takes whole, and
whose `txid` names a request in the map: the array that `receiveMessage` stores
in `res.messageBytes` before it calls `done` has `AdminClient_MAX_MESSAGE_SIZE`
entries, equals `p` at every index below `min(len p, MAX)` and is zero from
there on. A request in the result phase is resolved with this array in its
result, and whenever the event returns the array is in the record of the
request. -/
theorem receiveMessage_raw_bytes (D : Deps) (ctx : Context) (hwf : ctx.WF)
    (hcount : ctx.requestCount < 2 ^ 32) (msg : Message) (p : List Nat) (d : Dict) (r : Nat)
    (hl : ctx.live r)
    (hbytes : msg.bytes = ctx.targetAddr ++ p)
    (hread : D.BencMessageReader_readNoExcept p = .ok (d, p.length))
    (htxid : Dict_getStringC d (cstr "txid") = some (txidOf (ctx.requests r).handle)) :
    ∃ raw : List Nat,
      raw.length = D.AdminClient_MAX_MESSAGE_SIZE
      ∧ (∀ i, i < min p.length D.AdminClient_MAX_MESSAGE_SIZE → raw[i]? = p[i]?)
      ∧ (∀ i, min p.length D.AdminClient_MAX_MESSAGE_SIZE ≤ i →
          i < D.AdminClient_MAX_MESSAGE_SIZE → raw[i]? = some 0)
      ∧ receiveMessage D msg ctx
          = (done D r .NONE
              (ctx.setRes r { (ctx.requests r).res with
                responseDict := some d, messageBytes := raw })).map (fun c => (none, c))
      ∧ ((ctx.requests r).callback = some .requestCallback →
          step D ctx (.datagram msg) = some ((ctx.setRes r ⟨.NONE, some d, raw⟩).resolve r))
      ∧ (∀ ctx', step D ctx (.datagram msg) = some ctx' →
          (ctx'.requests r).res.messageBytes = raw) := by
  have hdec := decodeDatagram_whole D ctx.targetAddr msg p d hbytes hread
  have hm := matchDatagram_of_txid D hwf hl hdec htxid
  refine ⟨copyMessageBytes D p, copyMessageBytes_length D p, copyMessageBytes_head D p,
    copyMessageBytes_tail D p, receiveMessage_of_match D ctx msg r d p hm,
    fun hcb => step_result_phase D hwf hm hcb,
    fun ctx' h => (step_matched_res D hwf hcount hm h).2⟩

/-- C17, amended. In a state under the invariant, for a request in the map
whose promise has a callback: when its timer fires, and when a response matched
to it arrives in the result phase or without a string `cookie`, the event
returns and calls the callback of the promise once, while the map still holds
the handle of the request; the entry is gone when the event has returned (it
is removed when the allocator of the promise is freed, right after the
callback). -/
theorem entry_removed_after_callback (D : Deps) (ctx : Context) (hwf : ctx.WF) (r : Nat)
    (hl : ctx.live r)
    (hcb : (ctx.promises (ctx.requests r).promise).callback = true) :
    (ctx.requests r).handle ∈ ctx.handles
    ∧ (∃ ctx' res, step D ctx (.timerFired r) = some ctx'
        ∧ ctx'.trace = ctx.trace ++ [Event.callback (ctx.requests r).promise res ctx.handles]
        ∧ (ctx.requests r).handle ∉ ctx'.handles)
    ∧ ∀ msg d bytes, matchDatagram D ctx msg = some (r, d, bytes) →
        ((ctx.requests r).callback = some .requestCallback
          ∨ Dict_getStringC d (cstr "cookie") = none) →
        ∃ ctx' res, step D ctx (.datagram msg) = some ctx'
          ∧ ctx'.trace = ctx.trace ++ [Event.callback (ctx.requests r).promise res ctx.handles]
          ∧ (ctx.requests r).handle ∉ ctx'.handles := by
  have hr : r < ctx.requestCount := (hwf.entry_eq _ hl).2
  have hh : (ctx.requests r).handle = r := hwf.handle_eq r hr
  have hgone : ∀ res, (ctx.requests r).handle ∉ ((ctx.setRes r res).resolve r).handles := by
    intro res hmem
    rw [hh] at hmem
    have hmem2 : r ∈ (ctx.outstandingRequests.entries.filter (fun e => e.2 != r)).map
        Prod.fst := hmem
    rw [List.mem_map] at hmem2
    obtain ⟨e, he, he1⟩ := hmem2
    rw [List.mem_filter] at he
    have := (hwf.entry_eq e he.1).1
    have h2 := he.2
    simp only [bne_iff_ne, ne_eq] at h2
    exact h2 (by omega)
  refine ⟨?_, ?_, ?_⟩
  · rw [hh]
    exact List.mem_map.mpr ⟨(r, r), hl, rfl⟩
  · refine ⟨(ctx.setRes r { (ctx.requests r).res with err := .TIMEOUT }).resolve r,
      { (ctx.requests r).res with err := .TIMEOUT }, ?_, resolve_trace ctx r _ hcb, hgone _⟩
    unfold step
    simp only
    rw [if_pos ⟨hr, (hwf.alive r hl).2.1⟩]
    exact timeout_eq D hwf hl
  · intro msg d bytes hm hphase
    have hcbn := (hwf.alive r hl).2.2.1
    cases hc : (ctx.requests r).callback with
    | none => exact absurd hc hcbn
    | some cb =>
      cases cb with
      | requestCallback =>
        exact ⟨(ctx.setRes r ⟨.NONE, some d, copyMessageBytes D bytes⟩).resolve r,
          ⟨.NONE, some d, copyMessageBytes D bytes⟩, step_result_phase D hwf hm hc,
          resolve_trace ctx r _ hcb, hgone _⟩
      | cookieCallback =>
        rcases hphase with hphase | hphase
        · rw [hc] at hphase
          exact absurd hphase (by simp)
        · exact ⟨(ctx.setRes r ⟨.NO_COOKIE, some d, copyMessageBytes D bytes⟩).resolve r,
            ⟨.NO_COOKIE, some d, copyMessageBytes D bytes⟩, step_no_cookie D hwf hm hc hphase,
            resolve_trace ctx r _ hcb, hgone _⟩

theorem receiveMessage_raw_bytes_witness :
    ∃ raw : List Nat,
      raw.length = exampleDeps.AdminClient_MAX_MESSAGE_SIZE
      ∧ (∀ i, i < min (cstr "d1:q4:pong4:txid8:01000000e").length
            exampleDeps.AdminClient_MAX_MESSAGE_SIZE →
          raw[i]? = (cstr "d1:q4:pong4:txid8:01000000e")[i]?)
      ∧ (∀ i, min (cstr "d1:q4:pong4:txid8:01000000e").length
            exampleDeps.AdminClient_MAX_MESSAGE_SIZE ≤ i →
          i < exampleDeps.AdminClient_MAX_MESSAGE_SIZE → raw[i]? = some 0)
      ∧ receiveMessage exampleDeps examplePong exampleAuthSent
          = (done exampleDeps 1 .NONE
              (exampleAuthSent.setRes 1 { (exampleAuthSent.requests 1).res with
                responseDict := some (examplePongDict (cstr "01000000")),
                messageBytes := raw })).map (fun c => (none, c))
      ∧ ((exampleAuthSent.requests 1).callback = some .requestCallback →
          step exampleDeps exampleAuthSent (.datagram examplePong)
            = some ((exampleAuthSent.setRes 1
                ⟨.NONE, some (examplePongDict (cstr "01000000")), raw⟩).resolve 1))
      ∧ (∀ ctx', step exampleDeps exampleAuthSent (.datagram examplePong) = some ctx' →
          (ctx'.requests 1).res.messageBytes = raw) :=
  receiveMessage_raw_bytes exampleDeps exampleAuthSent exampleAuthSent_WF (by decide!)
    examplePong (cstr "d1:q4:pong4:txid8:01000000e") (examplePongDict (cstr "01000000")) 1
    exampleAuthSent_live (by decide!) (by rfl) (by decide!)
theorem entry_removed_after_callback_witness :
    (exampleCalled.requests 0).handle ∈ exampleCalled.handles
    ∧ (∃ ctx' res, step exampleDeps exampleCalled (.timerFired 0) = some ctx'
        ∧ ctx'.trace = exampleCalled.trace ++
            [Event.callback (exampleCalled.requests 0).promise res exampleCalled.handles]
        ∧ (exampleCalled.requests 0).handle ∉ ctx'.handles)
    ∧ ∀ msg d bytes, matchDatagram exampleDeps exampleCalled msg = some (0, d, bytes) →
        ((exampleCalled.requests 0).callback = some .requestCallback
          ∨ Dict_getStringC d (cstr "cookie") = none) →
        ∃ ctx' res, step exampleDeps exampleCalled (.datagram msg) = some ctx'
          ∧ ctx'.trace = exampleCalled.trace ++
              [Event.callback (exampleCalled.requests 0).promise res exampleCalled.handles]
          ∧ (exampleCalled.requests 0).handle ∉ ctx'.handles :=
  entry_removed_after_callback exampleDeps exampleCalled exampleCalled_WF 0 exampleCalled_live
    (by decide!)

/-- C17 as stated fails: after the call `ping`, when the timer of the cookie
request (handle 0) fires, the callback of promise 0 is called while the map
holds the handle 0; and after the cookie response, when the response to the
auth request (handle 1) arrives, the callback of promise 0 is called while the
map holds the handle 1. The list gives, for each callback of the event, the
promise and the handles in the map at the call. -/
theorem entry_present_at_callback_counterexample :
    (exampleCalled.requests 0).handle = 0
    ∧ (step exampleDeps exampleCalled (.timerFired 0)).map
        (fun c => (c.trace.drop exampleCalled.trace.length).filterMap
          (fun e => match e with | .callback q _ hs => some (q, hs) | _ => none))
      = some [(0, [0])]
    ∧ (exampleAuthSent.requests 1).handle = 1
    ∧ (step exampleDeps exampleAuthSent (.datagram examplePong)).map
        (fun c => (c.trace.drop exampleAuthSent.trace.length).filterMap
          (fun e => match e with | .callback q _ hs => some (q, hs) | _ => none))
      = some [(0, [1])] := by
  decide!

/-! ### The target address (C12) -/

theorem loopback_memory (b : Bool) :
    uint32_memory b (Endian_hostToBigEndian32 b 0x7f000001) = [127, 0, 0, 1] := by
  cases b <;> decide

theorem Bits_isZero_iff (l : List Nat) : Bits_isZero l = true ↔ l = List.replicate l.length 0 := by
  unfold Bits_isZero
  induction l with
  | nil => simp
  | cons a t ih =>
    simp only [List.all_cons, Bool.and_eq_true, beq_iff_eq, List.length_cons,
      List.replicate_succ, List.cons.injEq]
    rw [ih]

/-- C12. For every peer address given to `AdminClient_new`, with
`Sockaddr_getAddress` yielding 4 address bytes at an offset `off` inside the
structure when the family is `Sockaddr_AF_INET`: when the family is
`Sockaddr_AF_INET` and the four address bytes are zero, the stored target
address is the input with the bytes 127, 0, 0, 1 at `off` (on a big-endian and
on a little-endian host), of the same length and equal to the input at every
other index; in every other case (another family, or an IPv4 address with a
byte that is not zero) the stored target address is the input. -/
theorem AdminClient_new_targetAddr_loopback (D : Deps) (S : SockaddrDeps)
    (connectToAddress adminPassword : List Nat) (off : Nat)
    (hv4 : S.Sockaddr_getFamily connectToAddress = S.Sockaddr_AF_INET →
      S.Sockaddr_getAddress connectToAddress = (off, 4) ∧ off + 4 ≤ connectToAddress.length) :
    (S.Sockaddr_getFamily connectToAddress = S.Sockaddr_AF_INET →
      (connectToAddress.drop off).take 4 = [0, 0, 0, 0] →
      ∃ ctx, AdminClient_new D S connectToAddress adminPassword = some ctx
        ∧ ctx.targetAddr
            = connectToAddress.take off ++ [127, 0, 0, 1] ++ connectToAddress.drop (off + 4)
        ∧ ctx.targetAddr.length = connectToAddress.length
        ∧ ∀ i, i < off ∨ off + 4 ≤ i → ctx.targetAddr[i]? = connectToAddress[i]?)
    ∧ ((S.Sockaddr_getFamily connectToAddress ≠ S.Sockaddr_AF_INET
          ∨ (connectToAddress.drop off).take 4 ≠ [0, 0, 0, 0]) →
      ∃ ctx, AdminClient_new D S connectToAddress adminPassword = some ctx
        ∧ ctx.targetAddr = connectToAddress) := by
  refine ⟨?_, ?_⟩
  · intro hfam hzero
    obtain ⟨hget, hlen⟩ := hv4 hfam
    have htarget : AdminClient_new_targetAddr S connectToAddress
        = some (connectToAddress.take off ++ [127, 0, 0, 1] ++ connectToAddress.drop (off + 4)) := by
      unfold AdminClient_new_targetAddr
      rw [if_pos hfam]
      simp only [hget]
      have h4 : Int.toNat 4 = 4 := rfl
      rw [h4, if_neg (by omega)]
      have hz : Bits_isZero ((connectToAddress.drop off).take 4) = true := by
        rw [hzero]
        rfl
      rw [if_pos hz, if_neg (by omega), loopback_memory]
      rfl
    refine ⟨_, by unfold AdminClient_new; rw [htarget]; rfl, rfl, ?_, ?_⟩
    · show (connectToAddress.take off ++ [127, 0, 0, 1] ++ connectToAddress.drop (off + 4)).length
        = connectToAddress.length
      simp only [List.length_append, List.length_take, List.length_drop, List.length_cons,
        List.length_nil]
      omega
    · intro i hi
      show (connectToAddress.take off ++ [127, 0, 0, 1] ++ connectToAddress.drop (off + 4))[i]?
        = connectToAddress[i]?
      rcases hi with hi | hi
      · rw [List.append_assoc, List.getElem?_append_left (by simp only [List.length_take]; omega),
          List.getElem?_take_of_lt hi]
      · rw [List.getElem?_append_right (by
          simp only [List.length_append, List.length_take, List.length_cons, List.length_nil]
          omega)]
        simp only [List.length_append, List.length_take, List.length_cons, List.length_nil,
          List.getElem?_drop]
        congr 1
        omega
  · intro hother
    have htarget : AdminClient_new_targetAddr S connectToAddress = some connectToAddress := by
      unfold AdminClient_new_targetAddr
      by_cases hfam : S.Sockaddr_getFamily connectToAddress = S.Sockaddr_AF_INET
      · obtain ⟨hget, hlen⟩ := hv4 hfam
        rw [if_pos hfam]
        simp only [hget]
        have h4 : Int.toNat 4 = 4 := rfl
        rw [h4, if_neg (by omega)]
        have hnz : ¬ Bits_isZero ((connectToAddress.drop off).take 4) = true := by
          rw [Bits_isZero_iff]
          intro hc
          rcases hother with h | h
          · exact h hfam
          · apply h
            rw [hc]
            simp only [List.length_take, List.length_drop]
            rw [Nat.min_eq_left (by omega)]
            rfl
        rw [if_neg hnz]
      · rw [if_neg hfam]
    exact ⟨_, by unfold AdminClient_new; rw [htarget]; rfl, rfl⟩

theorem AdminClient_new_targetAddr_loopback_witness :
    (exampleSockaddrDeps.Sockaddr_getFamily exampleAnyAddr = exampleSockaddrDeps.Sockaddr_AF_INET →
      (exampleAnyAddr.drop 12).take 4 = [0, 0, 0, 0] →
      ∃ ctx, AdminClient_new exampleDeps exampleSockaddrDeps exampleAnyAddr (cstr "pw") = some ctx
        ∧ ctx.targetAddr = exampleAnyAddr.take 12 ++ [127, 0, 0, 1] ++ exampleAnyAddr.drop (12 + 4)
        ∧ ctx.targetAddr.length = exampleAnyAddr.length
        ∧ ∀ i, i < 12 ∨ 12 + 4 ≤ i → ctx.targetAddr[i]? = exampleAnyAddr[i]?)
    ∧ ((exampleSockaddrDeps.Sockaddr_getFamily exampleAnyAddr
            ≠ exampleSockaddrDeps.Sockaddr_AF_INET
          ∨ (exampleAnyAddr.drop 12).take 4 ≠ [0, 0, 0, 0]) →
      ∃ ctx, AdminClient_new exampleDeps exampleSockaddrDeps exampleAnyAddr (cstr "pw") = some ctx
        ∧ ctx.targetAddr = exampleAnyAddr) :=
  AdminClient_new_targetAddr_loopback exampleDeps exampleSockaddrDeps exampleAnyAddr (cstr "pw") 12
    (fun _ => ⟨by decide, by decide⟩)

/-! ### The ethernet framing (C18) -/

theorem ETHInterface_Header_eq (E : EthDeps) (n : Nat) (hver : E.ETHInterface_CURRENT_VERSION < 256)
    (hn : n + ETHInterface_Header_SIZE ≤ 65535) :
    ETHInterface_Header E n
      = [E.ETHInterface_CURRENT_VERSION, 0, (n + 6) / 256, (n + 6) % 256, 0xfc, 0] := by
  unfold ETHInterface_Header_SIZE at hn
  unfold ETHInterface_Header uint16_be ETHInterface_Header_SIZE
  have h1 : (n + 6) % 2 ^ 16 = n + 6 := Nat.mod_eq_of_lt (by omega)
  have h2 : (n + 6) / 256 % 256 = (n + 6) / 256 := Nat.mod_eq_of_lt (by omega)
  rw [h1, h2, Nat.mod_eq_of_lt hver]
  rfl

theorem BPF_WORDALIGN_bounds (x : Nat) :
    x ≤ BPF_WORDALIGN x ∧ BPF_WORDALIGN x ≤ x + 3 ∧ BPF_WORDALIGN x % 4 = 0 := by
  unfold BPF_WORDALIGN
  omega

/-- The receiving side on a header as `sendMessage` writes it, followed by the
payload and further bytes of the buffer. -/
theorem handleEvent2_accepts (E : EthDeps) (src dst payload pad rest : List Nat)
    (hver : E.ETHInterface_CURRENT_VERSION < 256)
    (hn : payload.length + ETHInterface_Header_SIZE ≤ 65535)
    (hint : payload.length + ETHInterface_Header_SIZE + pad.length < 2 ^ 31)
    (hbuf : BPF_WORDALIGN (payload.length + pad.length)
      ≤ payload.length + pad.length + rest.length)
    (hsa : (E.Sockaddr_initFromEth src).length % 4 = 0)
    (hfit : (E.Sockaddr_initFromEth src).length ≤ PADDING) :
    handleEvent2 E src dst
        (((ETHInterface_Header E payload.length ++ payload).length + pad.length : Nat) : Int)
        (ETHInterface_Header E payload.length ++ payload ++ pad ++ rest)
      = some (.sent ⟨List.replicate (PADDING - (E.Sockaddr_initFromEth src).length) 0,
          E.Sockaddr_initFromEth src ++ payload⟩) := by
  rw [ETHInterface_Header_eq E _ hver hn]
  obtain ⟨hA1, hA2, hA3⟩ := BPF_WORDALIGN_bounds (payload.length + pad.length)
  unfold ETHInterface_Header_SIZE at hn hint
  unfold PADDING at hfit
  generalize hAdef : BPF_WORDALIGN (payload.length + pad.length) = A at hA1 hA2 hA3 hbuf
  unfold handleEvent2
  have hlen : (([E.ETHInterface_CURRENT_VERSION, 0, (payload.length + 6) / 256,
      (payload.length + 6) % 256, 0xfc, 0] ++ payload).length + pad.length : Nat)
      = 6 + (payload.length + pad.length) := by
    simp only [List.length_append, List.length_cons, List.length_nil]
    omega
  rw [hlen]
  unfold ETHInterface_Header_SIZE PADDING
  rw [if_neg (by omega)]
  have hsub : ((((6 + (payload.length + pad.length) : Nat) : Int) - ((6 : Nat) : Int)).toNat)
      = payload.length + pad.length := by omega
  simp only [hsub, hAdef]
  have hmod : A % 2 ^ 32 = A := Nat.mod_eq_of_lt (by omega)
  rw [hmod]
  rw [if_neg (by
    simp only [List.length_append, List.length_cons, List.length_nil]
    omega)]
  have htake : List.take 6 ([E.ETHInterface_CURRENT_VERSION, 0, (payload.length + 6) / 256,
      (payload.length + 6) % 256, 0xfc, 0] ++ payload ++ pad ++ rest)
      = [E.ETHInterface_CURRENT_VERSION, 0, (payload.length + 6) / 256,
        (payload.length + 6) % 256, 0xfc, 0] := by
    simp only [List.append_assoc]
    exact List.take_left' rfl
  have hdrop : List.drop 6 ([E.ETHInterface_CURRENT_VERSION, 0, (payload.length + 6) / 256,
      (payload.length + 6) % 256, 0xfc, 0] ++ payload ++ pad ++ rest)
      = payload ++ (pad ++ rest) := by
    simp only [List.append_assoc]
    exact List.drop_left' rfl
  rw [htake, hdrop]
  have hv : [E.ETHInterface_CURRENT_VERSION, 0, (payload.length + 6) / 256,
      (payload.length + 6) % 256, 0xfc, 0].getD 0 0 = E.ETHInterface_CURRENT_VERSION := rfl
  rw [hv, if_neg (by simp)]
  have hrep : (uint16_of_be (List.take 2 (List.drop 2 [E.ETHInterface_CURRENT_VERSION, 0,
      (payload.length + 6) / 256, (payload.length + 6) % 256, 0xfc, 0])) + 2 ^ 16 - 6) % 2 ^ 16
      = payload.length := by
    have : uint16_of_be (List.take 2 (List.drop 2 [E.ETHInterface_CURRENT_VERSION, 0,
      (payload.length + 6) / 256, (payload.length + 6) % 256, 0xfc, 0]))
        = (payload.length + 6) / 256 * 256 + (payload.length + 6) % 256 := rfl
    rw [this]
    omega
  simp only [hrep]
  have hmagic : List.take 2 (List.drop 4 [E.ETHInterface_CURRENT_VERSION, 0,
      (payload.length + 6) / 256, (payload.length + 6) % 256, 0xfc, 0]) = uint16_be 0xfc00 := rfl
  have htl : (List.take A (payload ++ (pad ++ rest))).length = A := by
    simp only [List.length_take, List.length_append]
    omega
  have htr : List.take payload.length (List.take A (payload ++ (pad ++ rest))) = payload := by
    rw [List.take_take, Nat.min_eq_left (by omega), List.take_left]
  have htrunc : (if (List.take A (payload ++ (pad ++ rest))).length ≠ payload.length then
        if (List.take A (payload ++ (pad ++ rest))).length < payload.length then some none
        else
          Option.map some
            (Message_truncate ⟨List.replicate 512 0, List.take A (payload ++ (pad ++ rest))⟩
              payload.length)
      else some (some ⟨List.replicate 512 0, List.take A (payload ++ (pad ++ rest))⟩))
      = some (some ⟨List.replicate 512 0, payload⟩) := by
    rw [htl]
    by_cases hA : A = payload.length
    · rw [if_neg (by simp [hA])]
      have : List.take A (payload ++ (pad ++ rest)) = payload := by
        rw [hA, List.take_left]
      rw [this]
    · rw [if_pos hA, if_neg (by omega)]
      unfold Message_truncate
      simp only [htl]
      rw [if_neg (by omega), htr]
      rfl
  rw [htrunc]
  simp only [hmagic, ne_eq, not_true_eq_false, if_false]
  unfold Message_epush
  simp only [List.length_replicate]
  rw [if_neg (by omega)]
  simp only [List.length_replicate, List.take_replicate]
  rw [if_neg (by simp only [ne_eq, not_not]; omega)]
  rw [Nat.min_eq_left (by omega)]

/-- C18. For a message that `sendMessage` accepts (the address is read off
its front, leaving a payload of `n` bytes with `n + ETHInterface_Header_SIZE`
at most 65535 and headroom for the two headers, and the address is a broadcast
address or has a MAC): the bytes written are an ethernet frame header of
`ethernet_frame_SIZE` bytes followed by the content, which is the version, a
zero byte, `n + ETHInterface_Header_SIZE` and `0xfc00` in big-endian order, and
the payload. On this content followed by any padding `pad` (the length a C
`int`), in a buffer that holds the word-aligned length, `handleEvent2` drops
nothing and sends on the message made of the address of `src` and exactly the
`n` bytes of the payload, provided that address fits the headroom and has a
length that is a multiple of 4. -/
theorem eth_framing_round_trip (E : EthDeps) (myMac src dst : List Nat) (msg msg1 : Message)
    (ss pad rest : List Nat)
    (hver : E.ETHInterface_CURRENT_VERSION < 256)
    (hread : E.Sockaddr_read msg = some (ss, msg1))
    (hroom : ETHInterface_Header_SIZE + ethernet_frame_SIZE ≤ msg1.padding.length)
    (hmac : myMac.length = 6) (htype : E.Ethernet_TYPE_CJDNS.length = 2)
    (hdest : E.Sockaddr_flags_BCAST ss = true
      ∨ ∃ mac, E.Sockaddr_getMac ss = some mac ∧ mac.length = 6)
    (hn : msg1.bytes.length + ETHInterface_Header_SIZE ≤ 65535)
    (hint : msg1.bytes.length + ETHInterface_Header_SIZE + pad.length < 2 ^ 31)
    (hbuf : BPF_WORDALIGN (msg1.bytes.length + pad.length)
      ≤ msg1.bytes.length + pad.length + rest.length)
    (hsa : (E.Sockaddr_initFromEth src).length % 4 = 0)
    (hfit : (E.Sockaddr_initFromEth src).length ≤ PADDING) :
    ∃ ethFr content : List Nat,
      sendMessage E myMac msg = .ok (ethFr ++ content)
      ∧ ethFr.length = ethernet_frame_SIZE
      ∧ content = [E.ETHInterface_CURRENT_VERSION, 0]
          ++ uint16_be (msg1.bytes.length + ETHInterface_Header_SIZE) ++ uint16_be 0xfc00
          ++ msg1.bytes
      ∧ handleEvent2 E src dst ((content.length + pad.length : Nat) : Int)
          (content ++ pad ++ rest)
        = some (.sent ⟨List.replicate (PADDING - (E.Sockaddr_initFromEth src).length) 0,
            E.Sockaddr_initFromEth src ++ msg1.bytes⟩) := by
  have hacc := handleEvent2_accepts E src dst msg1.bytes pad rest hver hn hint hbuf hsa hfit
  have hhdr := ETHInterface_Header_eq E msg1.bytes.length hver hn
  have hhl : (ETHInterface_Header E msg1.bytes.length).length = 6 := by
    rw [hhdr]
    rfl
  unfold ETHInterface_Header_SIZE ethernet_frame_SIZE at hroom
  have hcontent : [E.ETHInterface_CURRENT_VERSION, 0]
      ++ uint16_be (msg1.bytes.length + ETHInterface_Header_SIZE) ++ uint16_be 0xfc00
      ++ msg1.bytes = ETHInterface_Header E msg1.bytes.length ++ msg1.bytes := by
    rw [hhdr]
    unfold uint16_be ETHInterface_Header_SIZE
    unfold ETHInterface_Header_SIZE at hn
    have h2 : (msg1.bytes.length + 6) / 256 % 256 = (msg1.bytes.length + 6) / 256 :=
      Nat.mod_eq_of_lt (by omega)
    rw [h2]
    rfl
  have hsend : ∀ dest : List Nat, dest.length = 6 →
      (if E.Sockaddr_flags_BCAST ss = true then some (List.replicate 6 0xff)
        else E.Sockaddr_getMac ss) = some dest →
      sendMessage E myMac msg
        = .ok ((dest ++ myMac ++ E.Ethernet_TYPE_CJDNS)
            ++ (ETHInterface_Header E msg1.bytes.length ++ msg1.bytes)) := by
    intro dest hdl hd
    unfold sendMessage
    simp only [hread]
    unfold Message_epush
    simp only [hhl]
    rw [if_neg (by omega)]
    simp only [hd, List.length_take, List.length_append, hdl, hmac, htype]
    rw [if_neg (by omega)]
  rcases hdest with hb | ⟨mac, hg, hml⟩
  · refine ⟨List.replicate 6 0xff ++ myMac ++ E.Ethernet_TYPE_CJDNS, _,
      ?_, ?_, rfl, ?_⟩
    · rw [hcontent]
      exact hsend _ (by simp) (by rw [if_pos hb])
    · simp only [List.length_append, List.length_replicate, hmac, htype]
      rfl
    · rw [hcontent]
      exact hacc
  · cases hb : E.Sockaddr_flags_BCAST ss with
    | true =>
      refine ⟨List.replicate 6 0xff ++ myMac ++ E.Ethernet_TYPE_CJDNS, _,
        ?_, ?_, rfl, ?_⟩
      · rw [hcontent]
        exact hsend _ (by simp) (by rw [if_pos hb])
      · simp only [List.length_append, List.length_replicate, hmac, htype]
        rfl
      · rw [hcontent]
        exact hacc
    | false =>
      refine ⟨mac ++ myMac ++ E.Ethernet_TYPE_CJDNS, _, ?_, ?_, rfl, ?_⟩
      · rw [hcontent]
        exact hsend _ hml (by rw [if_neg (by simp [hb]), hg])
      · simp only [List.length_append, hml, hmac, htype]
        rfl
      · rw [hcontent]
        exact hacc

theorem eth_framing_round_trip_witness :
    ∃ ethFr content : List Nat,
      sendMessage exampleEthDeps [2, 0, 0, 0, 0, 1] exampleEthMessage = .ok (ethFr ++ content)
      ∧ ethFr.length = ethernet_frame_SIZE
      ∧ content = [exampleEthDeps.ETHInterface_CURRENT_VERSION, 0]
          ++ uint16_be (([1, 2, 3, 4, 5] : List Nat).length + ETHInterface_Header_SIZE)
          ++ uint16_be 0xfc00 ++ [1, 2, 3, 4, 5]
      ∧ handleEvent2 exampleEthDeps [2, 0, 0, 0, 0, 1] [2, 0, 0, 0, 0, 7]
          ((content.length + ([9, 9] : List Nat).length : Nat) : Int) (content ++ [9, 9] ++ [7])
        = some (.sent ⟨List.replicate
              (PADDING - (exampleEthDeps.Sockaddr_initFromEth [2, 0, 0, 0, 0, 1]).length) 0,
            exampleEthDeps.Sockaddr_initFromEth [2, 0, 0, 0, 0, 1] ++ [1, 2, 3, 4, 5]⟩) :=
  eth_framing_round_trip exampleEthDeps [2, 0, 0, 0, 0, 1] [2, 0, 0, 0, 0, 1] [2, 0, 0, 0, 0, 7]
    exampleEthMessage ⟨List.replicate 32 0 ++ exampleEthAddr, [1, 2, 3, 4, 5]⟩
    exampleEthAddr [9, 9] [7] (by decide) (by decide!) (by decide!) (by decide) (by decide)
    (Or.inr ⟨[2, 0, 0, 0, 0, 7], by decide!, by decide⟩) (by decide) (by decide) (by decide!)
    (by decide) (by decide!)

end Cjdns
